import Mathlib

/-!
Verification of the directory-backed persistence backend
(`taskflow/persistence/backends/impl_dir.py`).

The backend stores a three-level hierarchy (book -> flow -> task) as JSON
files, directories and symbolic links under a storage root, guarded by four
named inter-process locks.  This file gives a shallow embedding of the
backend: the filesystem is a finite association of paths (component lists,
relative to the storage root) to nodes, the per-file read cache is an
association of paths to cached content/mtime pairs, and each operation of the
`Connection` class is translated to a function in a state-and-error monad
that additionally records the sequence of lock acquire/release events.

Entity serialization is opaque in the source (external `jsonutils` /
`p_utils` format helpers), so file contents are modelled as an inductive
`Content` with one constructor per serialized entity kind plus `raw` for
unparseable bytes.
-/

namespace DirBackend

/-- A filesystem path: components relative to the backend's storage root. -/
abbrev Path := List String

/-- Opaque serialized payload of a task detail (result/state fields). -/
abbrev TaskData := String

/-- In-memory task detail: leaf entity of the hierarchy. -/
structure TaskDetail where
  uuid : String
  data : TaskData
deriving DecidableEq, Repr

/-- In-memory flow detail: mid-level container with its loaded tasks. -/
structure FlowDetail where
  uuid : String
  meta : String
  tasks : List TaskDetail
deriving DecidableEq, Repr

/-- `FlowDetail.find(uuid)`: first contained task with the given uuid. -/
def FlowDetail.find (fd : FlowDetail) (uuid : String) : Option TaskDetail :=
  fd.tasks.find? (fun td => td.uuid == uuid)

/-- `FlowDetail.add(td)`: append a task detail to the flow's collection. -/
def FlowDetail.add (fd : FlowDetail) (td : TaskDetail) : FlowDetail :=
  { fd with tasks := fd.tasks ++ [td] }

/-- In-memory logbook: top-level container with its loaded flows. -/
structure LogBook where
  uuid : String
  meta : String
  created_at : Nat
  flows : List FlowDetail
deriving DecidableEq, Repr

/-- `LogBook.find(uuid)`: first contained flow with the given uuid. -/
def LogBook.find (lb : LogBook) (uuid : String) : Option FlowDetail :=
  lb.flows.find? (fun fd => fd.uuid == uuid)

/-- `LogBook.add(fd)`: append a flow detail to the book's collection. -/
def LogBook.add (lb : LogBook) (fd : FlowDetail) : LogBook :=
  { lb with flows := lb.flows ++ [fd] }

/-- Serialized metadata of a logbook: opaque scalar bag plus the creation
timestamp (the one scalar the backend handles specially). -/
structure BookMeta where
  meta : String
  created_at : Nat
deriving DecidableEq, Repr

/-- Content of a file on disk.  Serialization is external to the source, so
each serialized entity kind is one constructor; `raw` stands for bytes that
do not decode as JSON for any entity. -/
inductive Content where
  | raw (s : String)
  | taskC (d : TaskData)
  | flowC (m : String)
  | bookC (m : BookMeta)
deriving DecidableEq, Repr

/-- A filesystem node: regular file (with content and modification time),
directory, or symbolic link. -/
inductive Node where
  | file (data : Content) (mtime : Nat)
  | dir
  | link (target : Path)
deriving DecidableEq, Repr

/-- A primitive (non-taskflow) exception recorded as the cause of a
`StorageError`.  In this backend a `StorageError` only ever wraps an
`EnvironmentError` or a JSON/value error, never another taskflow
exception, so the cause type needs just these two shapes. -/
inductive PErr where
  | envErrorP (code : Nat)
  | valueErrorP (msg : String)
deriving DecidableEq, Repr

/-- Exceptions visible to the backend.  `envError` is Python's
`EnvironmentError` carrying an errno; `notFound` and `storageError` are the
`taskflow.exceptions` classes (both subclasses of `TaskFlowException`);
`valueError` stands for the non-environment errors raised by JSON
decoding/unformatting. -/
inductive Err where
  | envError (code : Nat)
  | notFound (msg : String)
  | storageError (msg : String) (cause : Option PErr)
  | valueError (msg : String)
deriving DecidableEq, Repr

/-- View an exception as a `StorageError` cause. -/
def Err.asCause : Err → Option PErr
  | .envError c => some (.envErrorP c)
  | .valueError m => some (.valueErrorP m)
  | _ => none

/-- `isinstance(e, exc.TaskFlowException)`. -/
def isTaskFlowExc : Err → Bool
  | .notFound _ => true
  | .storageError _ _ => true
  | _ => false

def ENOENT : Nat := 2
def EEXIST : Nat := 17
def ENOTDIR : Nat := 20
def EISDIR : Nat := 21

/-- Lookup in an association list keyed by paths (first match). -/
def alookup {β : Type} : List (Path × β) → Path → Option β
  | [], _ => none
  | e :: rest, p => if e.1 = p then some e.2 else alookup rest p

/-- Update in an association list keyed by paths: replace the first entry
with the given key, or append a fresh entry. -/
def aset {β : Type} : List (Path × β) → Path → β → List (Path × β)
  | [], p, b => [(p, b)]
  | e :: rest, p, b => if e.1 = p then (p, b) :: rest else e :: aset rest p b

/-- Remove every entry with the given key from an association list. -/
def aerase {β : Type} (l : List (Path × β)) (p : Path) : List (Path × β) :=
  l.filter (fun e => !(decide (e.1 = p)))

/-- `isUnder p q`: `q` lies at or below `p` (i.e. `p` is an initial segment
of `q`). -/
def isUnder : Path → Path → Bool
  | [], _ => true
  | _ :: _, [] => false
  | a :: as, b :: bs => a == b && isUnder as bs

/-- The filesystem: a finite association of paths to nodes.  (A real
filesystem keeps parents consistent with children; the model does not force
that, operations simply behave on whatever association they are given.) -/
structure FS where
  entries : List (Path × Node)
deriving DecidableEq, Repr

def FS.find (fs : FS) (p : Path) : Option Node :=
  alookup fs.entries p

def FS.set (fs : FS) (p : Path) (n : Node) : FS :=
  ⟨aset fs.entries p n⟩

/-- Number of entries with a given key in an association list. -/
def countKey {β : Type} : List (Path × β) → Path → Nat
  | [], _ => 0
  | e :: rest, p => (if e.1 = p then 1 else 0) + countKey rest p

/-- Number of entries stored for a path (1 for a well-formed store). -/
def FS.count (fs : FS) (p : Path) : Nat :=
  countKey fs.entries p

/-- Names of the immediate children of `p` present in the store. -/
def FS.children (fs : FS) (p : Path) : List String :=
  fs.entries.filterMap (fun e =>
    if e.1.length == p.length + 1 && isUnder p e.1 then e.1.getLast? else none)

/-- Remove a path and everything below it. -/
def FS.removeTree (fs : FS) (p : Path) : FS :=
  ⟨fs.entries.filter (fun e => !(isUnder p e.1))⟩

/-- One entry of the per-file read cache: last-read content and the
modification time it was read at. -/
structure CacheEntry where
  data : Content
  mtime : Nat
deriving DecidableEq, Repr

/-- Backend state: the filesystem, the shared file cache
(`backend._file_cache`), and a clock used to stamp modification times. -/
structure St where
  fs : FS
  cache : List (Path × CacheEntry)
  clock : Nat
deriving DecidableEq, Repr

/-- A lock acquisition or release, as recorded in an execution trace. -/
inductive Event where
  | acq (name : String)
  | rel (name : String)
deriving DecidableEq, Repr

/-- The effect monad: state transformer with exceptions and an appended
trace of lock events.  An exception carries the state reached so far
(mutations made before a Python exception persist). -/
def M (α : Type) : Type := St → Except Err α × St × List Event

def M.pure {α : Type} (a : α) : M α := fun st => (.ok a, st, [])

def M.bind {α β : Type} (x : M α) (f : α → M β) : M β := fun st =>
  match x st with
  | (.ok a, st1, tr1) =>
    match f a st1 with
    | (r, st2, tr2) => (r, st2, tr1 ++ tr2)
  | (.error e, st1, tr1) => (.error e, st1, tr1)

instance : Monad M where
  pure := M.pure
  bind := M.bind

def M.throw {α : Type} (e : Err) : M α := fun st => (.error e, st, [])

/-- `try x except ... : h` — the handler runs in the state the body reached. -/
def M.tryCatch {α : Type} (x : M α) (h : Err → M α) : M α := fun st =>
  match x st with
  | (.ok a, st1, tr1) => (.ok a, st1, tr1)
  | (.error e, st1, tr1) =>
    match h e st1 with
    | (r, st2, tr2) => (r, st2, tr1 ++ tr2)

/-- Lift a pure fallible computation. -/
def mLift {α : Type} (x : Except Err α) : M α := fun st => (x, st, [])

/-- Build a trace-less computation from a state/result function; every
filesystem and cache primitive below is of this shape (only
`_run_with_process_lock` records lock events). -/
def mk {α : Type} (f : St → Except Err α × St) : M α := fun st =>
  ((f st).1, (f st).2, [])

/-- `os.path.getmtime` (follows one level of symbolic link). -/
def osGetmtime (p : Path) : M Nat := mk fun st =>
  match st.fs.find p with
  | none => (.error (.envError ENOENT), st)
  | some (.file _ m) => (.ok m, st)
  | some .dir => (.ok 0, st)
  | some (.link t) =>
    match st.fs.find t with
    | some (.file _ m) => (.ok m, st)
    | some .dir => (.ok 0, st)
    | _ => (.error (.envError ENOENT), st)

/-- `open(p, 'rb').read()` (follows one level of symbolic link). -/
def osOpenRead (p : Path) : M Content := mk fun st =>
  match st.fs.find p with
  | none => (.error (.envError ENOENT), st)
  | some (.file d _) => (.ok d, st)
  | some .dir => (.error (.envError EISDIR), st)
  | some (.link t) =>
    match st.fs.find t with
    | some (.file d _) => (.ok d, st)
    | some .dir => (.error (.envError EISDIR), st)
    | _ => (.error (.envError ENOENT), st)

/-- `open(p, 'wb').write(c)`: create or truncate the file, stamping a fresh
modification time from the clock. -/
def osWriteFile (p : Path) (c : Content) : M Unit := mk fun st =>
  (.ok (), { st with fs := st.fs.set p (.file c (st.clock + 1)), clock := st.clock + 1 })

/-- `os.symlink(src, tgt)`: fails with EEXIST when anything is already at
`tgt`. -/
def osSymlink (src tgt : Path) : M Unit := mk fun st =>
  match st.fs.find tgt with
  | some _ => (.error (.envError EEXIST), st)
  | none => (.ok (), { st with fs := st.fs.set tgt (.link src) })

/-- `os.path.isdir`. -/
def osIsdir (p : Path) : M Bool := mk fun st =>
  (.ok (match st.fs.find p with | some .dir => true | _ => false), st)

/-- `[f for f in os.listdir(p) if os.path.islink(os.path.join(p, f))]` —
directory listing filtered to symbolic-link entries. -/
def osListLinks (p : Path) : M (List String) := mk fun st =>
  match st.fs.find p with
  | none => (.error (.envError ENOENT), st)
  | some .dir =>
    (.ok ((st.fs.children p).filter (fun f =>
      match st.fs.find (p ++ [f]) with
      | some (.link _) => true
      | _ => false)), st)
  | some _ => (.error (.envError ENOTDIR), st)

/-- `[d for d in os.listdir(p) if os.path.isdir(os.path.join(p, d))]` —
directory listing filtered to subdirectories. -/
def osListSubdirs (p : Path) : M (List String) := mk fun st =>
  match st.fs.find p with
  | none => (.error (.envError ENOENT), st)
  | some .dir =>
    (.ok ((st.fs.children p).filter (fun d =>
      match st.fs.find (p ++ [d]) with
      | some .dir => true
      | _ => false)), st)
  | some _ => (.error (.envError ENOTDIR), st)

/-- `shutil.rmtree(p)`: removes a directory subtree; ENOENT when `p` is
absent, ENOTDIR when `p` is not a directory (listing a regular file fails;
`rmtree` on a symbolic link also refuses, modelled with the same errno
since the backend only distinguishes ENOENT from the rest). -/
def shutilRmtree (p : Path) : M Unit := mk fun st =>
  match st.fs.find p with
  | none => (.error (.envError ENOENT), st)
  | some .dir => (.ok (), { st with fs := st.fs.removeTree p })
  | some _ => (.error (.envError ENOTDIR), st)

/-- Read of the shared file cache (`self._file_cache.get`-like step of
`_read_from`). -/
def cacheLookup (filename : Path) : M (Option CacheEntry) := mk fun st =>
  (.ok (alookup st.cache filename), st)

/-- Refresh of a cache entry (`cache_info['data'] = ...; cache_info['mtime']
= mtime` in `_read_from`). -/
def cacheRefresh (filename : Path) (e : CacheEntry) : M Unit := mk fun st =>
  (.ok (), { st with cache := aset st.cache filename e })

/-- Eviction of a cache entry (`self._file_cache.pop(filename, None)` in
`_write_to`). -/
def cacheEvict (filename : Path) : M Unit := mk fun st =>
  (.ok (), { st with cache := aerase st.cache filename })

/-- Helper for `ensureTree`: create the missing prefixes of a path as
directories, left to right. -/
def ensureTreeGo (fs : FS) (acc : Path) : List String → Except Err FS
  | [] => .ok fs
  | c :: cs =>
    match fs.find (acc ++ [c]) with
    | some .dir => ensureTreeGo fs (acc ++ [c]) cs
    | some _ => .error (.envError EEXIST)
    | none => ensureTreeGo (fs.set (acc ++ [c]) .dir) (acc ++ [c]) cs

/-- Modelled from the spec: `misc.ensure_tree` (the source file only calls
it; the helper lives outside the given sources).  Per the spec it "lazily
creates" / "idempotently ensures" a directory: every missing prefix of the
path is created as a directory, existing directories are left alone, and a
non-directory in the way fails with EEXIST. -/
def ensureTree (p : Path) : M Unit := fun st =>
  match ensureTreeGo st.fs [] p with
  | .ok fs' => (.ok (), { st with fs := fs' }, [])
  | .error e => (.error e, st, [])

def taskPath : Path := ["tasks"]
def flowPath : Path := ["flows"]
def bookPath : Path := ["books"]

/-- `Connection._read_from`: consult the mtime-keyed cache, re-reading from
disk exactly when there is no usable entry or the file is newer than the
cached mtime. -/
def _read_from (filename : Path) : M Content := do
  let mtime ← osGetmtime filename
  let ci ← cacheLookup filename
  match ci with
  | some e =>
    if mtime > e.mtime then do
      let d ← osOpenRead filename
      cacheRefresh filename ⟨d, mtime⟩
      pure d
    else
      pure e.data
  | none => do
    let d ← osOpenRead filename
    cacheRefresh filename ⟨d, mtime⟩
    pure d

/-- `Connection._write_to`: write through to disk, then evict the path from
the cache. -/
def _write_to (filename : Path) (contents : Content) : M Unit := do
  osWriteFile filename contents
  cacheEvict filename

/-- `Connection._run_with_process_lock`: run `f` holding the named lock;
`TaskFlowException`s propagate unchanged, anything else is wrapped in a
`StorageError` keeping the original as cause. -/
def _run_with_process_lock {α : Type} (lock_name : String) (f : M α) : M α := fun st =>
  match f st with
  | (.ok a, st1, tr) => (.ok a, st1, .acq lock_name :: tr ++ [.rel lock_name])
  | (.error e, st1, tr) =>
    if isTaskFlowExc e then
      (.error e, st1, .acq lock_name :: tr ++ [.rel lock_name])
    else
      (.error (.storageError "Storage backend internal error" e.asCause), st1,
        .acq lock_name :: tr ++ [.rel lock_name])

/-- `misc.decode_json` — external JSON parsing; fails (with a non-environment
error) on content that is not a serialized entity. -/
def decodeJson (c : Content) : Except Err Content :=
  match c with
  | .raw _ => .error (.valueError "expected json data")
  | c => .ok c

/-- `p_utils.format_task_detail` followed by `jsonutils.dumps`. -/
def formatTaskDetail (td : TaskDetail) : Content := .taskC td.data

/-- `p_utils.unformat_task_detail(uuid, data)`. -/
def unformatTaskDetail (uuid : String) (c : Content) : Except Err TaskDetail :=
  match c with
  | .taskC d => .ok { uuid := uuid, data := d }
  | _ => .error (.valueError "invalid task detail")

/-- `p_utils.format_flow_detail` followed by `jsonutils.dumps`. -/
def formatFlowDetail (fd : FlowDetail) : Content := .flowC fd.meta

/-- `p_utils.unformat_flow_detail(uuid, meta)`: scalar fields only; the
task collection is populated afterwards from the child-index links. -/
def unformatFlowDetail (uuid : String) (c : Content) : Except Err FlowDetail :=
  match c with
  | .flowC m => .ok { uuid := uuid, meta := m, tasks := [] }
  | _ => .error (.valueError "invalid flow detail")

/-- `p_utils.format_logbook(book, created_at=...)` followed by
`jsonutils.dumps`: the explicit `created_at` argument, when not `None`,
overrides the book's own creation timestamp in the serialized metadata. -/
def formatLogbook (lb : LogBook) (created_at : Option Nat) : Content :=
  .bookC { meta := lb.meta, created_at := created_at.getD lb.created_at }

/-- `p_utils.unformat_logbook(uuid, meta)`: scalar fields only; flows are
populated afterwards from the child-index links. -/
def unformatLogbook (uuid : String) (c : Content) : Except Err LogBook :=
  match c with
  | .bookC bm => .ok { uuid := uuid, meta := bm.meta, created_at := bm.created_at, flows := [] }
  | _ => .error (.valueError "invalid logbook")

/-- Modelled from the spec: `p_utils.task_details_merge` (helper outside the
given sources).  Per the merge engine section, top-level scalar fields of a
leaf entity follow last-write-wins. -/
def task_details_merge (e_td td : TaskDetail) : TaskDetail :=
  { uuid := e_td.uuid, data := td.data }

/-- Modelled from the spec: `p_utils.flow_details_merge` (helper outside the
given sources).  Scalar fields follow last-write-wins; the child collection
stays the stored one — the caller itself unions in the incoming children
(`_save_flow_details` lines 224-226). -/
def flow_details_merge (e_fd fd : FlowDetail) : FlowDetail :=
  { uuid := e_fd.uuid, meta := fd.meta, tasks := e_fd.tasks }

/-- Modelled from the spec: `p_utils.logbook_merge` (helper outside the given
sources).  Scalar fields follow last-write-wins (the caller itself restores
the stored creation timestamp through `format_logbook`'s override and unions
in the incoming children, `_save_logbook` lines 267-277). -/
def logbook_merge (e_lb lb : LogBook) : LogBook :=
  { uuid := e_lb.uuid, meta := lb.meta, created_at := lb.created_at, flows := e_lb.flows }

/-- The nested `_get()` of `Connection._get_task_details`. -/
def _get_task_details._get (uuid : String) : M TaskDetail := do
  let tdData ← _read_from (taskPath ++ [uuid])
  let c ← mLift (decodeJson tdData)
  mLift (unformatTaskDetail uuid c)

/-- `Connection._get_task_details(uuid, lock)`. -/
def _get_task_details (uuid : String) (lock : Bool) : M TaskDetail :=
  if lock then _run_with_process_lock "task" (_get_task_details._get uuid)
  else _get_task_details._get uuid

/-- `Connection._save_task_details(task_detail, ignore_missing)`. -/
def _save_task_details (task_detail : TaskDetail) (ignore_missing : Bool) : M TaskDetail := do
  let e_td ← M.tryCatch
    (do
      let t ← _get_task_details task_detail.uuid false
      pure (some t))
    (fun e =>
      match e with
      | .envError _ =>
        if ignore_missing then pure none
        else M.throw (.notFound ("No task details found with id: " ++ task_detail.uuid))
      | e => M.throw e)
  let td := match e_td with
    | some e => task_details_merge e task_detail
    | none => task_detail
  _write_to (taskPath ++ [td.uuid]) (formatTaskDetail td)
  pure td

/-- `Connection.update_task_details(task_detail)`. -/
def update_task_details (task_detail : TaskDetail) : M TaskDetail :=
  _run_with_process_lock "task" (_save_task_details task_detail false)

/-- The nested `_get()` of `Connection._get_flow_details`. -/
def _get_flow_details._get (uuid : String) : M FlowDetail := do
  let metaC ← _read_from (flowPath ++ [uuid, "metadata"])
  let c ← mLift (decodeJson metaC)
  let fd ← mLift (unformatFlowDetail uuid c)
  let tdToLoad ← M.tryCatch (osListLinks (flowPath ++ [uuid, "tasks"]))
    (fun e =>
      match e with
      | .envError c => if c = ENOENT then pure [] else M.throw (.envError c)
      | e => M.throw e)
  tdToLoad.foldlM (fun fd tUuid => do
    let td ← _get_task_details tUuid true
    pure (fd.add td)) fd

/-- `Connection._get_flow_details(uuid, lock)`. -/
def _get_flow_details (uuid : String) (lock : Bool) : M FlowDetail :=
  if lock then _run_with_process_lock "flow" (_get_flow_details._get uuid)
  else _get_flow_details._get uuid

/-- The `except EnvironmentError` guard around `os.symlink` shared by
`_save_tasks_and_link` and `_save_flows_and_link`: EEXIST is swallowed,
everything else re-raised. -/
def linkErrHandler (e : Err) : M Unit :=
  match e with
  | .envError c => if c = EEXIST then M.pure () else M.throw (.envError c)
  | e => M.throw e

/-- `Connection._save_tasks_and_link(task_details, local_task_path)`. -/
def _save_tasks_and_link (task_details : List TaskDetail) (local_task_path : Path) : M Unit :=
  task_details.forM (fun task_detail => do
    let _ ← _save_task_details task_detail true
    M.tryCatch
      (osSymlink (taskPath ++ [task_detail.uuid]) (local_task_path ++ [task_detail.uuid]))
      linkErrHandler)

/-- `Connection._save_flow_details(flow_detail, ignore_missing)`. -/
def _save_flow_details (flow_detail : FlowDetail) (ignore_missing : Bool) : M FlowDetail := do
  let e_fd ← M.tryCatch
    (do
      let f ← _get_flow_details flow_detail.uuid false
      pure (some f))
    (fun e =>
      match e with
      | .envError _ =>
        if ignore_missing then pure none
        else M.throw (.notFound ("No flow details found with id: " ++ flow_detail.uuid))
      | e => M.throw e)
  let fd := match e_fd with
    | some e =>
      flow_detail.tasks.foldl (fun acc td =>
        if (acc.find td.uuid).isNone then acc.add td else acc)
        (flow_details_merge e flow_detail)
    | none => flow_detail
  ensureTree (flowPath ++ [fd.uuid])
  _write_to (flowPath ++ [fd.uuid, "metadata"]) (formatFlowDetail fd)
  if fd.tasks.length = 0 then pure () else do
    ensureTree (flowPath ++ [fd.uuid, "tasks"])
    _run_with_process_lock "task" (_save_tasks_and_link fd.tasks (flowPath ++ [fd.uuid, "tasks"]))
  pure fd

/-- `Connection.update_flow_details(flow_detail)`. -/
def update_flow_details (flow_detail : FlowDetail) : M FlowDetail :=
  _run_with_process_lock "flow" (_save_flow_details flow_detail false)

/-- `Connection._save_flows_and_link(flow_details, local_flow_path)`. -/
def _save_flows_and_link (flow_details : List FlowDetail) (local_flow_path : Path) : M Unit :=
  flow_details.forM (fun flow_detail => do
    let _ ← _save_flow_details flow_detail true
    M.tryCatch
      (osSymlink (flowPath ++ [flow_detail.uuid]) (local_flow_path ++ [flow_detail.uuid]))
      linkErrHandler)

/-- `Connection._get_logbook(book_uuid)`. -/
def _get_logbook (book_uuid : String) : M LogBook := do
  let c ← M.tryCatch
    (do
      let meta ← _read_from (bookPath ++ [book_uuid, "metadata"])
      mLift (decodeJson meta))
    (fun e =>
      match e with
      | .envError c =>
        if c = ENOENT then M.throw (.notFound ("No logbook found with id: " ++ book_uuid))
        else M.throw (.envError c)
      | e => M.throw e)
  let lb ← mLift (unformatLogbook book_uuid c)
  let fdUuids ← M.tryCatch (osListLinks (bookPath ++ [book_uuid, "flows"]))
    (fun e =>
      match e with
      | .envError c => if c = ENOENT then pure [] else M.throw (.envError c)
      | e => M.throw e)
  fdUuids.foldlM (fun lb fdUuid => do
    let fd ← _get_flow_details fdUuid true
    pure (lb.add fd)) lb

/-- `Connection.get_logbook(book_uuid)`. -/
def get_logbook (book_uuid : String) : M LogBook :=
  _run_with_process_lock "book" (_get_logbook book_uuid)

/-- `Connection._save_logbook(book)`. -/
def _save_logbook (book : LogBook) : M LogBook := do
  let e_lb ← M.tryCatch
    (do
      let b ← _get_logbook book.uuid
      pure (some b))
    (fun e =>
      match e with
      | .notFound _ => pure none
      | e => M.throw e)
  let bk := match e_lb with
    | some e =>
      book.flows.foldl (fun acc fd =>
        if (acc.find fd.uuid).isNone then acc.add fd else acc)
        (logbook_merge e book)
    | none => book
  ensureTree (bookPath ++ [bk.uuid])
  let created_at : Option Nat := match e_lb with
    | some e => some e.created_at
    | none => none
  _write_to (bookPath ++ [bk.uuid, "metadata"]) (formatLogbook bk created_at)
  if bk.flows.length = 0 then pure () else do
    ensureTree (bookPath ++ [bk.uuid, "flows"])
    _run_with_process_lock "flow" (_save_flows_and_link bk.flows (bookPath ++ [bk.uuid, "flows"]))
  pure bk

/-- `Connection.save_logbook(book)`. -/
def save_logbook (book : LogBook) : M LogBook :=
  _run_with_process_lock "book" (_save_logbook book)

/-- One turn of `_get_logbooks`' loop: try to load the book, appending it to
the accumulated list, treating `NotFound` as "skip this book". -/
def _get_logbooks.step (acc : List LogBook) (lb_uuid : String) : M (List LogBook) :=
  M.tryCatch
    (do
      let b ← _get_logbook lb_uuid
      pure (acc ++ [b]))
    (fun e =>
      match e with
      | .notFound _ => pure acc
      | e => M.throw e)

/-- The guarded book-directory listing of `_get_logbooks`: a missing books
root yields the empty list, any other environment error is re-raised. -/
def _get_logbooks.listUuids : M (List String) :=
  M.tryCatch (osListSubdirs bookPath)
    (fun e =>
      match e with
      | .envError c => if c = ENOENT then pure [] else M.throw (.envError c)
      | e => M.throw e)

/-- `Connection._get_logbooks()` (materialized, as `get_logbooks` does with
`list(...)`). -/
def _get_logbooks : M (List LogBook) := do
  let lbUuids ← _get_logbooks.listUuids
  lbUuids.foldlM _get_logbooks.step []

/-- `Connection.get_logbooks()`. -/
def get_logbooks : M (List LogBook) :=
  M.tryCatch _get_logbooks
    (fun e =>
      match e with
      | .envError c => M.throw (.storageError "Unable to fetch logbooks" (some (.envErrorP c)))
      | e => M.throw e)

/-- `Connection.upgrade()`. -/
def upgrade : M Unit := do
  ([([] : Path), (["locks"] : Path)]).forM (fun p =>
    M.tryCatch (ensureTree p)
      (fun e =>
        match e with
        | .envError c =>
          M.throw (.storageError "Unable to create logbooks required path" (some (.envErrorP c)))
        | e => M.throw e))
  _run_with_process_lock "init"
    (([bookPath, flowPath, taskPath]).forM (fun p =>
      M.tryCatch (ensureTree p)
        (fun e =>
          match e with
          | .envError c =>
            M.throw (.storageError "Unable to create logbooks required child path" (some (.envErrorP c)))
          | e => M.throw e)))

/-- `Connection.clear_all()`. -/
def clear_all : M Unit :=
  _run_with_process_lock "init"
    (_run_with_process_lock "book"
      (_run_with_process_lock "flow"
        (_run_with_process_lock "task"
          (([bookPath, flowPath, taskPath]).forM (fun d => do
            let isd ← osIsdir d
            if isd then shutilRmtree d else pure ())))))

/-- `destroy_logbook._destroy_tasks(task_details)`. -/
def _destroy_tasks (task_details : List TaskDetail) : M Unit :=
  task_details.forM (fun task_detail =>
    M.tryCatch (shutilRmtree (taskPath ++ [task_detail.uuid]))
      (fun e =>
        match e with
        | .envError c =>
          if c = ENOENT then M.pure ()
          else M.throw (.storageError "Unable to remove task directory" (some (.envErrorP c)))
        | e => M.throw e))

/-- `destroy_logbook._destroy_flows(flow_details)`. -/
def _destroy_flows (flow_details : List FlowDetail) : M Unit :=
  flow_details.forM (fun flow_detail => do
    _run_with_process_lock "task" (_destroy_tasks flow_detail.tasks)
    M.tryCatch (shutilRmtree (flowPath ++ [flow_detail.uuid]))
      (fun e =>
        match e with
        | .envError c =>
          if c = ENOENT then M.pure ()
          else M.throw (.storageError "Unable to remove flow directory" (some (.envErrorP c)))
        | e => M.throw e))

/-- `Connection.destroy_logbook(book_uuid)`. -/
def destroy_logbook (book_uuid : String) : M Unit :=
  _run_with_process_lock "book" (do
    let book ← _get_logbook book_uuid
    _run_with_process_lock "flow" (_destroy_flows book.flows)
    M.tryCatch (shutilRmtree (bookPath ++ [book.uuid]))
      (fun e =>
        match e with
        | .envError c =>
          if c = ENOENT then M.pure ()
          else M.throw (.storageError "Unable to remove book directory" (some (.envErrorP c)))
        | e => M.throw e))

/-- Locks currently held after a trace, starting from `held` (innermost
lock first; releases drop the first matching name). -/
def heldAfter (held : List String) : List Event → List String
  | [] => held
  | .acq n :: tr => heldAfter (n :: held) tr
  | .rel n :: tr => heldAfter (held.erase n) tr

/-- `chainOK P held tr`: every lock acquisition in `tr` satisfies the
admission predicate `P` relative to the locks held at that point. -/
def chainOK (P : String → List String → Bool) : List String → List Event → Bool
  | _, [] => true
  | held, .acq n :: tr => P n held && chainOK P (n :: held) tr
  | held, .rel n :: tr => chainOK P (held.erase n) tr

/-- The admission predicate literally claimed: the `flow` lock requires the
`book` lock to be held, the `task` lock requires the `flow` lock. -/
def claimedOrder : String → List String → Bool
  | "flow", held => held.contains "book"
  | "task", held => held.contains "flow"
  | _, _ => true

/-- Position of a lock name in the fixed chain `init -> book -> flow ->
task`. -/
def lockRank : String → Nat
  | "init" => 0
  | "book" => 1
  | "flow" => 2
  | "task" => 3
  | _ => 4

/-- Descending-chain admission: a lock may be acquired only while every held
lock lies strictly earlier in the chain. -/
def descending (n : String) (held : List String) : Bool :=
  held.all (fun m => lockRank m < lockRank n)

/-- Admission predicate allowing only the `flow` and `task` locks. -/
def flowTaskOnly (n : String) (_held : List String) : Bool :=
  n == "flow" || n == "task"

/-- An empty backend state (fresh storage root). -/
def st0 : St := ⟨⟨[]⟩, [], 0⟩

/-- A populated state: book `B1` holding flow `F1`, which holds tasks `T1`
and `T2`; all metadata decodable, all links in place. -/
def stBook : St := ⟨⟨[
  (["books"], .dir),
  (["books", "B1"], .dir),
  (["books", "B1", "metadata"], .file (.bookC ⟨"bm", 5⟩) 1),
  (["books", "B1", "flows"], .dir),
  (["books", "B1", "flows", "F1"], .link ["flows", "F1"]),
  (["flows"], .dir),
  (["flows", "F1"], .dir),
  (["flows", "F1", "metadata"], .file (.flowC "fm") 1),
  (["flows", "F1", "tasks"], .dir),
  (["flows", "F1", "tasks", "T1"], .link ["tasks", "T1"]),
  (["flows", "F1", "tasks", "T2"], .link ["tasks", "T2"]),
  (["tasks"], .dir),
  (["tasks", "T1"], .file (.taskC "d1") 1),
  (["tasks", "T2"], .file (.taskC "d2") 1)
]⟩, [], 10⟩

/-- Whether a result is a success. -/
def isOkRes {α : Type} (r : Except Err α) : Bool :=
  match r with
  | .ok _ => true
  | _ => false

/-- Whether a result is a `NotFound` failure. -/
def isNotFoundRes {α : Type} (r : Except Err α) : Bool :=
  match r with
  | .error (.notFound _) => true
  | _ => false

/-- A populated state holding only book `B2` with no flows. -/
def stBookNT : St := ⟨⟨[
  (["books"], .dir),
  (["books", "B2"], .dir),
  (["books", "B2", "metadata"], .file (.bookC ⟨"bm", 5⟩) 1)
]⟩, [], 10⟩

/-! ### Association-list and filesystem lemmas -/

theorem alookup_aset_self {β : Type} (l : List (Path × β)) (p : Path) (b : β) :
    alookup (aset l p b) p = some b := by
  induction l with
  | nil => simp [aset, alookup]
  | cons e rest ih =>
    by_cases h : e.1 = p
    · simp [aset, h, alookup]
    · simp [aset, h, alookup, ih]

theorem alookup_aset_ne {β : Type} (l : List (Path × β)) (p q : Path) (b : β)
    (h : q ≠ p) : alookup (aset l p b) q = alookup l q := by
  induction l with
  | nil => simp [aset, alookup, Ne.symm h]
  | cons e rest ih =>
    by_cases he : e.1 = p
    · subst he
      simp [aset, alookup, Ne.symm h]
    · by_cases hq : e.1 = q
      · simp [aset, alookup, he, hq, h]
      · simp [aset, alookup, he, hq, ih]

theorem alookup_aerase_self {β : Type} (l : List (Path × β)) (p : Path) :
    alookup (aerase l p) p = none := by
  induction l with
  | nil => rfl
  | cons e rest ih =>
    by_cases h : e.1 = p
    · simpa [aerase, List.filter, h] using ih
    · simpa [aerase, List.filter, h, alookup] using ih

theorem find_set_self (fs : FS) (p : Path) (n : Node) :
    (fs.set p n).find p = some n :=
  alookup_aset_self fs.entries p n

theorem find_set_ne (fs : FS) (p q : Path) (n : Node) (h : q ≠ p) :
    (fs.set p n).find q = fs.find q :=
  alookup_aset_ne fs.entries p q n h

/-! ### Monad unfolding lemmas -/

theorem bind_eq {α β : Type} (x : M α) (f : α → M β) : x >>= f = M.bind x f := rfl

theorem pure_eq {α : Type} (a : α) : (pure a : M α) = M.pure a := rfl

/-! ### Read/write characterizations -/

theorem read_from_missing (fn : Path) (st : St) (h : st.fs.find fn = none) :
    _read_from fn st = (.error (.envError ENOENT), st, []) := by
  simp [_read_from, bind_eq, M.bind, osGetmtime, mk, h]

theorem read_from_fresh_none (fn : Path) (st : St) (d : Content) (m : Nat)
    (hf : st.fs.find fn = some (.file d m)) (hc : alookup st.cache fn = none) :
    _read_from fn st = (.ok d, { st with cache := aset st.cache fn ⟨d, m⟩ }, []) := by
  simp [_read_from, bind_eq, pure_eq, M.bind, M.pure, osGetmtime, osOpenRead,
    cacheLookup, cacheRefresh, mk, hf, hc]

theorem read_from_fresh_stale (fn : Path) (st : St) (d : Content) (m : Nat)
    (e : CacheEntry) (hf : st.fs.find fn = some (.file d m))
    (hc : alookup st.cache fn = some e) (hm : e.mtime < m) :
    _read_from fn st = (.ok d, { st with cache := aset st.cache fn ⟨d, m⟩ }, []) := by
  simp [_read_from, bind_eq, pure_eq, M.bind, M.pure, osGetmtime, osOpenRead,
    cacheLookup, cacheRefresh, mk, hf, hc, hm]

theorem read_from_cached (fn : Path) (st : St) (d : Content) (m : Nat)
    (e : CacheEntry) (hf : st.fs.find fn = some (.file d m))
    (hc : alookup st.cache fn = some e) (hm : ¬ e.mtime < m) :
    _read_from fn st = (.ok e.data, st, []) := by
  simp [_read_from, bind_eq, pure_eq, M.bind, M.pure, osGetmtime,
    cacheLookup, mk, hf, hc, hm]

theorem write_to_eq (fn : Path) (c : Content) (st : St) :
    _write_to fn c st =
      (.ok (), ⟨st.fs.set fn (.file c (st.clock + 1)), aerase st.cache fn,
        st.clock + 1⟩, []) := by
  simp [_write_to, bind_eq, M.bind, osWriteFile, cacheEvict, mk]

/-! ### C5: error contract of the locked-region runner -/

/-- **C5**: for every function run under `_run_with_process_lock`, a
recognized storage exception (`TaskFlowException`, i.e. `NotFound` or
`StorageError`) propagates unchanged, any other exception is replaced by a
`StorageError` carrying the original exception as its cause (the cause
determines the original uniquely), and a normal return value is returned
unchanged. -/
theorem run_with_process_lock_error_contract {α : Type} (lock_name : String)
    (f : M α) (st : St) (r : Except Err α) (st1 : St) (tr : List Event)
    (h : f st = (r, st1, tr)) :
    (∀ a, r = .ok a → (_run_with_process_lock lock_name f st).1 = .ok a) ∧
    (∀ e, r = .error e → isTaskFlowExc e = true →
      (_run_with_process_lock lock_name f st).1 = .error e) ∧
    (∀ e, r = .error e → isTaskFlowExc e = false →
      (_run_with_process_lock lock_name f st).1 =
        .error (.storageError "Storage backend internal error" e.asCause)) ∧
    (∀ e e', isTaskFlowExc e = false → isTaskFlowExc e' = false →
      e.asCause = e'.asCause → e = e') := by
  refine ⟨?_, ?_, ?_, ?_⟩
  · intro a ha
    subst ha
    simp [_run_with_process_lock, h]
  · intro e he hT
    subst he
    simp [_run_with_process_lock, h, hT]
  · intro e he hT
    subst he
    simp [_run_with_process_lock, h, hT]
  · intro e e' hT hT' hc
    cases e <;> cases e' <;> simp_all [isTaskFlowExc, Err.asCause]

/-- Witness for C5 at a concrete failing function: an `EnvironmentError`
raised inside the locked region surfaces as a `StorageError` carrying it. -/
theorem run_with_process_lock_error_contract_w :
    (M.throw (α := Unit) (.envError 5)) st0 = (.error (.envError 5), st0, []) ∧
    (_run_with_process_lock "task" (M.throw (α := Unit) (.envError 5)) st0).1 =
      .error (.storageError "Storage backend internal error" (some (.envErrorP 5))) :=
  ⟨rfl, (run_with_process_lock_error_contract "task" _ st0 _ st0 [] rfl).2.2.1
    (.envError 5) rfl rfl⟩

/-! ### C8: the file cache -/

/-- **C8**: a read returns freshly re-read disk content exactly when no
cache entry exists or the file's modification time is strictly newer than
the cached one (refreshing the entry), otherwise it returns the cached
bytes and leaves the state unchanged; a write writes through to disk and
removes the path's cache entry, so the next read of the path comes from
disk. -/
theorem file_cache_read_write_contract :
    (∀ fn st d m, st.fs.find fn = some (.file d m) → alookup st.cache fn = none →
      _read_from fn st = (.ok d, { st with cache := aset st.cache fn ⟨d, m⟩ }, [])) ∧
    (∀ fn st d m e, st.fs.find fn = some (.file d m) →
      alookup st.cache fn = some e → e.mtime < m →
      _read_from fn st = (.ok d, { st with cache := aset st.cache fn ⟨d, m⟩ }, [])) ∧
    (∀ fn st d m e, st.fs.find fn = some (.file d m) →
      alookup st.cache fn = some e → ¬ e.mtime < m →
      _read_from fn st = (.ok e.data, st, [])) ∧
    (∀ fn c st,
      _write_to fn c st =
        (.ok (), ⟨st.fs.set fn (.file c (st.clock + 1)), aerase st.cache fn,
          st.clock + 1⟩, []) ∧
      alookup (aerase st.cache fn) fn = none) :=
  ⟨fun fn st d m hf hc => read_from_fresh_none fn st d m hf hc,
   fun fn st d m e hf hc hm => read_from_fresh_stale fn st d m e hf hc hm,
   fun fn st d m e hf hc hm => read_from_cached fn st d m e hf hc hm,
   fun fn c st => ⟨write_to_eq fn c st, alookup_aerase_self st.cache fn⟩⟩

/-- Witness for C8 at a concrete state: an uncached read of task `T1` in
`stBook` re-reads from disk and installs the cache entry. -/
theorem file_cache_read_write_contract_w :
    stBook.fs.find ["tasks", "T1"] = some (.file (.taskC "d1") 1) ∧
    alookup stBook.cache ["tasks", "T1"] = none ∧
    _read_from ["tasks", "T1"] stBook =
      (.ok (.taskC "d1"),
        { stBook with cache := aset stBook.cache ["tasks", "T1"] ⟨.taskC "d1", 1⟩ }, []) :=
  ⟨by decide, rfl,
    file_cache_read_write_contract.1 ["tasks", "T1"] stBook (.taskC "d1") 1 (by decide) rfl⟩

/-! ### C1: which tier getters raise NotFound on a missing metadata file -/

theorem get_task_details_missing (uuid : String) (st : St)
    (h : st.fs.find (taskPath ++ [uuid]) = none) :
    _get_task_details uuid false st = (.error (.envError ENOENT), st, []) := by
  simp [_get_task_details, _get_task_details._get, bind_eq, M.bind, read_from_missing _ _ h]

theorem get_task_details_missing_locked (uuid : String) (st : St)
    (h : st.fs.find (taskPath ++ [uuid]) = none) :
    _get_task_details uuid true st =
      (.error (.storageError "Storage backend internal error" (some (.envErrorP ENOENT))),
        st, [.acq "task", .rel "task"]) := by
  simp [_get_task_details, _get_task_details._get, bind_eq, M.bind, _run_with_process_lock,
    read_from_missing _ _ h, isTaskFlowExc, Err.asCause]

theorem get_flow_details_missing (uuid : String) (st : St)
    (h : st.fs.find (flowPath ++ [uuid, "metadata"]) = none) :
    _get_flow_details uuid false st = (.error (.envError ENOENT), st, []) := by
  simp [_get_flow_details, _get_flow_details._get, bind_eq, M.bind, read_from_missing _ _ h]

theorem get_flow_details_missing_locked (uuid : String) (st : St)
    (h : st.fs.find (flowPath ++ [uuid, "metadata"]) = none) :
    _get_flow_details uuid true st =
      (.error (.storageError "Storage backend internal error" (some (.envErrorP ENOENT))),
        st, [.acq "flow", .rel "flow"]) := by
  simp [_get_flow_details, _get_flow_details._get, bind_eq, M.bind, _run_with_process_lock,
    read_from_missing _ _ h, isTaskFlowExc, Err.asCause]

theorem get_logbook_notFound_of_missing (uuid : String) (st : St)
    (h : st.fs.find (bookPath ++ [uuid, "metadata"]) = none) :
    _get_logbook uuid st =
      (.error (.notFound ("No logbook found with id: " ++ uuid)), st, []) := by
  simp [_get_logbook, bind_eq, M.bind, M.tryCatch, M.throw,
    read_from_missing _ _ h, ENOENT]

/-- Amended **C1**: only the book tier's get reports a missing metadata file
as `NotFound` (`_get_logbook`, and `get_logbook` through the lock); the task
and flow getters let the `ENOENT` environment error propagate instead — raw
when called without locking, wrapped into a generic `StorageError` by
`_run_with_process_lock` when called with locking. -/
theorem tier_get_missing_metadata_behaviour :
    (∀ uuid st, st.fs.find (bookPath ++ [uuid, "metadata"]) = none →
      (_get_logbook uuid st).1 = .error (.notFound ("No logbook found with id: " ++ uuid)) ∧
      (get_logbook uuid st).1 = .error (.notFound ("No logbook found with id: " ++ uuid))) ∧
    (∀ uuid st, st.fs.find (taskPath ++ [uuid]) = none →
      (_get_task_details uuid false st).1 = .error (.envError ENOENT) ∧
      (_get_task_details uuid true st).1 =
        .error (.storageError "Storage backend internal error" (some (.envErrorP ENOENT)))) ∧
    (∀ uuid st, st.fs.find (flowPath ++ [uuid, "metadata"]) = none →
      (_get_flow_details uuid false st).1 = .error (.envError ENOENT) ∧
      (_get_flow_details uuid true st).1 =
        .error (.storageError "Storage backend internal error" (some (.envErrorP ENOENT)))) := by
  refine ⟨fun uuid st h => ⟨?_, ?_⟩, fun uuid st h => ⟨?_, ?_⟩, fun uuid st h => ⟨?_, ?_⟩⟩
  · rw [get_logbook_notFound_of_missing uuid st h]
  · simp [get_logbook, _run_with_process_lock, get_logbook_notFound_of_missing uuid st h,
      isTaskFlowExc]
  · rw [get_task_details_missing uuid st h]
  · rw [get_task_details_missing_locked uuid st h]
  · rw [get_flow_details_missing uuid st h]
  · rw [get_flow_details_missing_locked uuid st h]

/-- Counterexample to **C1** as claimed: on an empty store, the task and
flow getters do not fail with `NotFound` (they fail with the raw `ENOENT`
environment error, or with its `StorageError` wrap under the lock). -/
theorem tier_get_missing_metadata_counterexample :
    st0.fs.find (taskPath ++ ["T9"]) = none ∧
    st0.fs.find (flowPath ++ ["F9", "metadata"]) = none ∧
    isNotFoundRes (_get_task_details "T9" false st0).1 = false ∧
    isNotFoundRes (_get_task_details "T9" true st0).1 = false ∧
    isNotFoundRes (_get_flow_details "F9" false st0).1 = false ∧
    isNotFoundRes (_get_flow_details "F9" true st0).1 = false ∧
    (_get_task_details "T9" false st0).1 = .error (.envError 2) :=
  ⟨rfl, rfl, rfl, rfl, rfl, rfl, rfl⟩

/-- Witness for the amended C1 at a concrete input. -/
theorem tier_get_missing_metadata_behaviour_w :
    st0.fs.find (taskPath ++ ["T9"]) = none ∧
    (_get_task_details "T9" false st0).1 = .error (.envError ENOENT) ∧
    st0.fs.find (bookPath ++ ["B9", "metadata"]) = none ∧
    (_get_logbook "B9" st0).1 = .error (.notFound ("No logbook found with id: " ++ "B9")) :=
  ⟨rfl, (tier_get_missing_metadata_behaviour.2.1 "T9" st0 rfl).1, rfl,
    (tier_get_missing_metadata_behaviour.1 "B9" st0 rfl).1⟩

/-! ### C6: idempotent child linking -/

theorem countKey_zero_alookup {β : Type} (l : List (Path × β)) (p : Path)
    (h : countKey l p = 0) : alookup l p = none := by
  induction l with
  | nil => rfl
  | cons e rest ih =>
    by_cases hp : e.1 = p
    · exfalso
      simp [countKey, hp] at h
    · simp only [countKey, hp, if_false, Nat.zero_add] at h
      simp [alookup, hp, ih h]

theorem countKey_aset_absent {β : Type} (l : List (Path × β)) (p : Path) (b : β)
    (h : alookup l p = none) :
    countKey (aset l p b) p = countKey l p + 1 := by
  induction l with
  | nil => simp [aset, countKey]
  | cons e rest ih =>
    by_cases hp : e.1 = p
    · simp [alookup, hp] at h
    · simp only [alookup, hp, if_false] at h
      simp [aset, hp, countKey, ih h]

theorem tryLink_existing (src tgt : Path) (st : St) (n : Node)
    (h : st.fs.find tgt = some n) :
    M.tryCatch (osSymlink src tgt) linkErrHandler st = (.ok (), st, []) := by
  simp [M.tryCatch, osSymlink, mk, h, linkErrHandler, M.pure]

theorem tryLink_absent (src tgt : Path) (st : St)
    (h : st.fs.find tgt = none) :
    M.tryCatch (osSymlink src tgt) linkErrHandler st =
      (.ok (), { st with fs := st.fs.set tgt (.link src) }, []) := by
  simp [M.tryCatch, osSymlink, mk, h]

/-- **C6**: creating a child-index symlink that already exists (the guarded
`os.symlink` step shared by `_save_tasks_and_link` and
`_save_flows_and_link`) is a successful no-op leaving the state untouched;
creating a fresh one installs exactly the link; any symlink failure other
than EEXIST is re-raised by the guard; attaching the same child twice from
a state with no entry leaves exactly one link entry; and concretely,
attaching task `T7` (resp. flow `F7`) to the same parent twice through
`_save_tasks_and_link` (resp. `_save_flows_and_link`) raises no error and
leaves exactly one link for that identifier. -/
theorem idempotent_linking :
    (∀ src tgt st n, st.fs.find tgt = some n →
      M.tryCatch (osSymlink src tgt) linkErrHandler st = (.ok (), st, [])) ∧
    (∀ src tgt st, st.fs.find tgt = none →
      M.tryCatch (osSymlink src tgt) linkErrHandler st =
        (.ok (), { st with fs := st.fs.set tgt (.link src) }, [])) ∧
    (∀ e, e ≠ .envError EEXIST → linkErrHandler e = M.throw e) ∧
    (∀ src tgt st, st.fs.count tgt = 0 →
      M.tryCatch (osSymlink src tgt) linkErrHandler st =
        (.ok (), { st with fs := st.fs.set tgt (.link src) }, []) ∧
      M.tryCatch (osSymlink src tgt) linkErrHandler
          { st with fs := st.fs.set tgt (.link src) } =
        (.ok (), { st with fs := st.fs.set tgt (.link src) }, []) ∧
      (st.fs.set tgt (.link src)).count tgt = 1) ∧
    ((_save_tasks_and_link [⟨"T7", "d7"⟩] ["flows", "F1", "tasks"] st0).1 = .ok () ∧
      (_save_tasks_and_link [⟨"T7", "d7"⟩] ["flows", "F1", "tasks"]
        ((_save_tasks_and_link [⟨"T7", "d7"⟩] ["flows", "F1", "tasks"] st0).2.1)).1 = .ok () ∧
      ((_save_tasks_and_link [⟨"T7", "d7"⟩] ["flows", "F1", "tasks"]
        ((_save_tasks_and_link [⟨"T7", "d7"⟩] ["flows", "F1", "tasks"] st0).2.1)).2.1).fs.count
          ["flows", "F1", "tasks", "T7"] = 1 ∧
      ((_save_tasks_and_link [⟨"T7", "d7"⟩] ["flows", "F1", "tasks"]
        ((_save_tasks_and_link [⟨"T7", "d7"⟩] ["flows", "F1", "tasks"] st0).2.1)).2.1).fs.find
          ["flows", "F1", "tasks", "T7"] = some (.link ["tasks", "T7"])) ∧
    ((_save_flows_and_link [⟨"F7", "m7", []⟩] ["books", "B1", "flows"] st0).1 = .ok () ∧
      (_save_flows_and_link [⟨"F7", "m7", []⟩] ["books", "B1", "flows"]
        ((_save_flows_and_link [⟨"F7", "m7", []⟩] ["books", "B1", "flows"] st0).2.1)).1 = .ok () ∧
      ((_save_flows_and_link [⟨"F7", "m7", []⟩] ["books", "B1", "flows"]
        ((_save_flows_and_link [⟨"F7", "m7", []⟩] ["books", "B1", "flows"] st0).2.1)).2.1).fs.count
          ["books", "B1", "flows", "F7"] = 1 ∧
      ((_save_flows_and_link [⟨"F7", "m7", []⟩] ["books", "B1", "flows"]
        ((_save_flows_and_link [⟨"F7", "m7", []⟩] ["books", "B1", "flows"] st0).2.1)).2.1).fs.find
          ["books", "B1", "flows", "F7"] = some (.link ["flows", "F7"])) := by
  refine ⟨fun src tgt st n h => tryLink_existing src tgt st n h,
    fun src tgt st h => tryLink_absent src tgt st h,
    ?_, ?_, ⟨rfl, rfl, rfl, rfl⟩, ⟨rfl, rfl, rfl, rfl⟩⟩
  · intro e h
    cases e with
    | envError c =>
      simp only [linkErrHandler]
      rw [if_neg]
      intro hc
      exact h (by rw [hc])
    | notFound m => rfl
    | storageError m c => rfl
    | valueError m => rfl
  · intro src tgt st h
    have hn : st.fs.find tgt = none := countKey_zero_alookup st.fs.entries tgt h
    refine ⟨tryLink_absent src tgt st hn, ?_, ?_⟩
    · exact tryLink_existing src tgt _ (.link src) (find_set_self st.fs tgt (.link src))
    · show countKey (aset st.fs.entries tgt (.link src)) tgt = 1
      rw [countKey_aset_absent st.fs.entries tgt (.link src) hn]
      have h0 : countKey st.fs.entries tgt = 0 := h
      rw [h0]

/-- Witness for C6 at concrete inputs: re-creating the existing link of flow
`F1` under book `B1` is a no-op, and a non-EEXIST error is re-raised by the
guard. -/
theorem idempotent_linking_w :
    stBook.fs.find ["books", "B1", "flows", "F1"] = some (.link ["flows", "F1"]) ∧
    M.tryCatch (osSymlink ["flows", "F1"] ["books", "B1", "flows", "F1"])
      linkErrHandler stBook = (.ok (), stBook, []) ∧
    linkErrHandler (.envError 13) = M.throw (.envError 13) :=
  ⟨by decide,
    idempotent_linking.1 ["flows", "F1"] ["books", "B1", "flows", "F1"] stBook
      (.link ["flows", "F1"]) (by decide),
    idempotent_linking.2.2.1 (.envError 13) (by decide)⟩

/-! ### C7: destroying a book twice -/

/-- **C7** (code bug): `destroy_logbook` applies `shutil.rmtree` to each
task's storage path, but tasks are stored as regular files
(`_save_task_details` writes `tasks/<uuid>` with `_write_to`), so removing
any populated book fails with ENOTDIR wrapped as
`StorageError("Unable to remove task directory ...")` and removes nothing:
on `stBook` (book `B1` -> flow `F1` -> tasks `T1`,`T2`) both the first and
the second destroy fail that way and the book's metadata and task files
survive.  The errors are still wrapped storage errors, never raw filesystem
errors, and on a book whose flows carry no tasks (`stBookNT`) the intended
behaviour does hold: the first destroy succeeds and the second reports
`NotFound`. -/
theorem destroy_logbook_rmtree_on_task_file :
    stBook.fs.find ["tasks", "T1"] = some (.file (.taskC "d1") 1) ∧
    (destroy_logbook "B1" stBook).1 =
      .error (.storageError "Unable to remove task directory" (some (.envErrorP ENOTDIR))) ∧
    (destroy_logbook "B1" ((destroy_logbook "B1" stBook).2.1)).1 =
      .error (.storageError "Unable to remove task directory" (some (.envErrorP ENOTDIR))) ∧
    ((destroy_logbook "B1" stBook).2.1).fs.find ["books", "B1", "metadata"] =
      some (.file (.bookC ⟨"bm", 5⟩) 1) ∧
    ((destroy_logbook "B1" stBook).2.1).fs.find ["tasks", "T1"] =
      some (.file (.taskC "d1") 1) ∧
    (destroy_logbook "B2" stBookNT).1 = .ok () ∧
    (destroy_logbook "B2" ((destroy_logbook "B2" stBookNT).2.1)).1 =
      .error (.notFound "No logbook found with id: B2") :=
  ⟨rfl, rfl, rfl, rfl, rfl, rfl, rfl⟩

/-! ### Evaluation lemmas for the monad combinators -/

theorem pure_st {α : Type} (a : α) (st : St) : (pure a : M α) st = (.ok a, st, []) := rfl

theorem throw_st {α : Type} (e : Err) (st : St) :
    M.throw (α := α) e st = (.error e, st, []) := rfl

theorem bind_ok_eq {α β : Type} {x : M α} (f : α → M β) {st st1 : St} {a : α}
    {tr1 : List Event} (h : x st = (.ok a, st1, tr1)) :
    M.bind x f st = ((f a st1).1, (f a st1).2.1, tr1 ++ (f a st1).2.2) := by
  unfold M.bind
  rw [h]

theorem bind_error_eq {α β : Type} {x : M α} (f : α → M β) {st st1 : St} {e : Err}
    {tr1 : List Event} (h : x st = (.error e, st1, tr1)) :
    M.bind x f st = (.error e, st1, tr1) := by
  unfold M.bind
  rw [h]

theorem tryCatch_ok_eq {α : Type} {x : M α} (h : Err → M α) {st st1 : St} {a : α}
    {tr1 : List Event} (hx : x st = (.ok a, st1, tr1)) :
    M.tryCatch x h st = (.ok a, st1, tr1) := by
  unfold M.tryCatch
  rw [hx]

theorem tryCatch_error_eq {α : Type} {x : M α} (h : Err → M α) {st st1 : St} {e : Err}
    {tr1 : List Event} (hx : x st = (.error e, st1, tr1)) :
    M.tryCatch x h st = ((h e st1).1, (h e st1).2.1, tr1 ++ (h e st1).2.2) := by
  unfold M.tryCatch
  rw [hx]

theorem lock_ok_eq {α : Type} (n : String) {f : M α} {st st1 : St} {a : α}
    {tr : List Event} (h : f st = (.ok a, st1, tr)) :
    _run_with_process_lock n f st = (.ok a, st1, .acq n :: (tr ++ [.rel n])) := by
  unfold _run_with_process_lock
  rw [h]
  rfl

theorem lock_error_tfe_eq {α : Type} (n : String) {f : M α} {st st1 : St} {e : Err}
    {tr : List Event} (h : f st = (.error e, st1, tr)) (hT : isTaskFlowExc e = true) :
    _run_with_process_lock n f st = (.error e, st1, .acq n :: (tr ++ [.rel n])) := by
  unfold _run_with_process_lock
  rw [h]
  simp [hT]

theorem lock_error_wrap_eq {α : Type} (n : String) {f : M α} {st st1 : St} {e : Err}
    {tr : List Event} (h : f st = (.error e, st1, tr)) (hT : isTaskFlowExc e = false) :
    _run_with_process_lock n f st =
      (.error (.storageError "Storage backend internal error" e.asCause), st1,
        .acq n :: (tr ++ [.rel n])) := by
  unfold _run_with_process_lock
  rw [h]
  simp [hT]

/-! ### Trace framework: silent computations and lock-admission invariants -/

/-- A computation that records no lock events. -/
def Silent {α : Type} (c : M α) : Prop := ∀ st, (c st).2.2 = []

theorem silent_mk {α : Type} (f : St → Except Err α × St) : Silent (mk f) :=
  fun _ => rfl

theorem silent_pure {α : Type} (a : α) : Silent (pure a : M α) :=
  fun _ => rfl

theorem silent_throw {α : Type} (e : Err) : Silent (M.throw (α := α) e) :=
  fun _ => rfl

theorem silent_mLift {α : Type} (x : Except Err α) : Silent (mLift x) :=
  fun _ => rfl

theorem silent_bind {α β : Type} {x : M α} {f : α → M β}
    (hx : Silent x) (hf : ∀ a, Silent (f a)) : Silent (x >>= f) := by
  intro st
  show (M.bind x f st).2.2 = []
  cases hxs : x st with
  | mk r rest =>
    obtain ⟨st1, tr1⟩ := rest
    have h1 : tr1 = [] := by
      have := hx st
      rw [hxs] at this
      exact this
    cases r with
    | ok a =>
      rw [bind_ok_eq f hxs]
      simp [h1, hf a st1]
    | error e =>
      rw [bind_error_eq f hxs]
      exact h1

theorem silent_tryCatch {α : Type} {x : M α} {h : Err → M α}
    (hx : Silent x) (hh : ∀ e, Silent (h e)) : Silent (M.tryCatch x h) := by
  intro st
  cases hxs : x st with
  | mk r rest =>
    obtain ⟨st1, tr1⟩ := rest
    have h1 : tr1 = [] := by
      have := hx st
      rw [hxs] at this
      exact this
    cases r with
    | ok a =>
      rw [tryCatch_ok_eq h hxs]
      exact h1
    | error e =>
      rw [tryCatch_error_eq h hxs]
      simp [h1, hh e st1]

theorem silent_forM {α : Type} (f : α → M PUnit) (l : List α)
    (hf : ∀ a, Silent (f a)) : Silent (l.forM f) := by
  induction l with
  | nil => exact silent_pure _
  | cons a as ih => exact silent_bind (hf a) (fun _ => ih)

theorem silent_foldlM {α β : Type} (f : β → α → M β) (l : List α)
    (hf : ∀ b a, Silent (f b a)) : ∀ b, Silent (l.foldlM f b) := by
  induction l with
  | nil => exact fun b => silent_pure _
  | cons a as ih => exact fun b => silent_bind (hf b a) (fun b2 => ih b2)

theorem heldAfter_append (held : List String) (tr1 tr2 : List Event) :
    heldAfter held (tr1 ++ tr2) = heldAfter (heldAfter held tr1) tr2 := by
  induction tr1 generalizing held with
  | nil => rfl
  | cons e tr ih => cases e <;> simp [heldAfter, ih]

theorem chainOK_append (P : String → List String → Bool) (held : List String)
    (tr1 tr2 : List Event) (h1 : chainOK P held tr1 = true)
    (h2 : chainOK P (heldAfter held tr1) tr2 = true) :
    chainOK P held (tr1 ++ tr2) = true := by
  induction tr1 generalizing held with
  | nil => exact h2
  | cons e tr ih =>
    cases e with
    | acq n =>
      simp only [List.cons_append, chainOK, Bool.and_eq_true] at h1 ⊢
      exact ⟨h1.1, ih (n :: held) h1.2 h2⟩
    | rel n =>
      simp only [List.cons_append, chainOK] at h1 ⊢
      exact ih _ h1 h2

/-- `TrOK P held c`: in any run of `c` with the locks `held` already held
(innermost first), every lock acquisition satisfies the admission predicate
`P` for the locks held at that point, and the trace is balanced. -/
def TrOK (P : String → List String → Bool) (held : List String)
    {α : Type} (c : M α) : Prop :=
  ∀ st, chainOK P held (c st).2.2 = true ∧ heldAfter held (c st).2.2 = held

theorem silent_trOK {P : String → List String → Bool} {held : List String}
    {α : Type} {c : M α} (hc : Silent c) : TrOK P held c := by
  intro st
  rw [hc st]
  exact ⟨rfl, rfl⟩

theorem trOK_bind {P : String → List String → Bool} {held : List String}
    {α β : Type} {x : M α} {f : α → M β}
    (hx : TrOK P held x) (hf : ∀ a, TrOK P held (f a)) : TrOK P held (x >>= f) := by
  intro st
  show chainOK P held ((M.bind x f) st).2.2 = true ∧
    heldAfter held ((M.bind x f) st).2.2 = held
  cases hxs : x st with
  | mk r rest =>
    obtain ⟨st1, tr1⟩ := rest
    have h1c : chainOK P held tr1 = true := by
      have := (hx st).1
      rw [hxs] at this
      exact this
    have h1h : heldAfter held tr1 = held := by
      have := (hx st).2
      rw [hxs] at this
      exact this
    cases r with
    | ok a =>
      rw [bind_ok_eq f hxs]
      have h2 := hf a st1
      refine ⟨chainOK_append P held tr1 _ h1c ?_, ?_⟩
      · rw [h1h]
        exact h2.1
      · show heldAfter held (tr1 ++ (f a st1).2.2) = held
        rw [heldAfter_append, h1h]
        exact h2.2
    | error e =>
      rw [bind_error_eq f hxs]
      exact ⟨h1c, h1h⟩

theorem trOK_tryCatch {P : String → List String → Bool} {held : List String}
    {α : Type} {x : M α} {h : Err → M α}
    (hx : TrOK P held x) (hh : ∀ e, TrOK P held (h e)) :
    TrOK P held (M.tryCatch x h) := by
  intro st
  cases hxs : x st with
  | mk r rest =>
    obtain ⟨st1, tr1⟩ := rest
    have h1c : chainOK P held tr1 = true := by
      have := (hx st).1
      rw [hxs] at this
      exact this
    have h1h : heldAfter held tr1 = held := by
      have := (hx st).2
      rw [hxs] at this
      exact this
    cases r with
    | ok a =>
      rw [tryCatch_ok_eq h hxs]
      exact ⟨h1c, h1h⟩
    | error e =>
      rw [tryCatch_error_eq h hxs]
      have h2 := hh e st1
      refine ⟨chainOK_append P held tr1 _ h1c ?_, ?_⟩
      · rw [h1h]
        exact h2.1
      · show heldAfter held (tr1 ++ (h e st1).2.2) = held
        rw [heldAfter_append, h1h]
        exact h2.2

theorem trOK_lock {P : String → List String → Bool} {held : List String}
    {α : Type} (n : String) {f : M α}
    (hP : P n held = true) (hf : TrOK P (n :: held) f) :
    TrOK P held (_run_with_process_lock n f) := by
  intro st
  cases hfs : f st with
  | mk r rest =>
    obtain ⟨st1, tr⟩ := rest
    have h1c : chainOK P (n :: held) tr = true := by
      have := (hf st).1
      rw [hfs] at this
      exact this
    have h1h : heldAfter (n :: held) tr = (n :: held) := by
      have := (hf st).2
      rw [hfs] at this
      exact this
    have hc : chainOK P held (.acq n :: (tr ++ [.rel n])) = true := by
      simp only [chainOK, hP, Bool.true_and]
      refine chainOK_append P (n :: held) tr [.rel n] h1c ?_
      rw [h1h]
      rfl
    have hh : heldAfter held (.acq n :: (tr ++ [.rel n])) = held := by
      show heldAfter (n :: held) (tr ++ [.rel n]) = held
      rw [heldAfter_append, h1h]
      show (n :: held).erase n = held
      simp
    cases r with
    | ok a =>
      rw [lock_ok_eq n hfs]
      exact ⟨hc, hh⟩
    | error e =>
      by_cases hT : isTaskFlowExc e = true
      · rw [lock_error_tfe_eq n hfs hT]
        exact ⟨hc, hh⟩
      · rw [lock_error_wrap_eq n hfs (eq_false_of_ne_true hT)]
        exact ⟨hc, hh⟩

theorem trOK_forM {P : String → List String → Bool} {held : List String}
    {α : Type} (f : α → M PUnit) (l : List α)
    (hf : ∀ a, TrOK P held (f a)) : TrOK P held (l.forM f) := by
  induction l with
  | nil => exact silent_trOK (silent_pure _)
  | cons a as ih => exact trOK_bind (hf a) (fun _ => ih)

theorem trOK_foldlM {P : String → List String → Bool} {held : List String}
    {α β : Type} (f : β → α → M β) (l : List α)
    (hf : ∀ b a, TrOK P held (f b a)) : ∀ b, TrOK P held (l.foldlM f b) := by
  induction l with
  | nil => exact fun b => silent_trOK (silent_pure _)
  | cons a as ih => exact fun b => trOK_bind (hf b a) (fun b2 => ih b2)

/-! ### Silence of the primitive operations and of the task-tier helpers -/

theorem silent_osGetmtime (p : Path) : Silent (osGetmtime p) := fun _ => rfl

theorem silent_osOpenRead (p : Path) : Silent (osOpenRead p) := fun _ => rfl

theorem silent_osWriteFile (p : Path) (c : Content) : Silent (osWriteFile p c) := fun _ => rfl

theorem silent_osSymlink (src tgt : Path) : Silent (osSymlink src tgt) := fun _ => rfl

theorem silent_osIsdir (p : Path) : Silent (osIsdir p) := fun _ => rfl

theorem silent_osListLinks (p : Path) : Silent (osListLinks p) := fun _ => rfl

theorem silent_osListSubdirs (p : Path) : Silent (osListSubdirs p) := fun _ => rfl

theorem silent_shutilRmtree (p : Path) : Silent (shutilRmtree p) := fun _ => rfl

theorem silent_cacheLookup (p : Path) : Silent (cacheLookup p) := fun _ => rfl

theorem silent_cacheRefresh (p : Path) (e : CacheEntry) : Silent (cacheRefresh p e) :=
  fun _ => rfl

theorem silent_cacheEvict (p : Path) : Silent (cacheEvict p) := fun _ => rfl

theorem silent_ensureTree (p : Path) : Silent (ensureTree p) := by
  intro st
  unfold ensureTree
  cases ensureTreeGo st.fs [] p <;> rfl

theorem silent_read_from (fn : Path) : Silent (_read_from fn) := by
  unfold _read_from
  apply silent_bind (silent_osGetmtime _)
  intro mtime
  apply silent_bind (silent_cacheLookup _)
  intro ci
  cases ci with
  | none =>
    exact silent_bind (silent_osOpenRead _)
      (fun d => silent_bind (silent_cacheRefresh _ _) (fun _ => silent_pure _))
  | some e =>
    by_cases hm : mtime > e.mtime
    · simp only [if_pos hm]
      exact silent_bind (silent_osOpenRead _)
        (fun d => silent_bind (silent_cacheRefresh _ _) (fun _ => silent_pure _))
    · simp only [if_neg hm]
      exact silent_pure _

theorem silent_write_to (fn : Path) (c : Content) : Silent (_write_to fn c) :=
  silent_bind (silent_osWriteFile _ _) (fun _ => silent_cacheEvict _)

theorem silent_get_task_details_go (u : String) : Silent (_get_task_details._get u) :=
  silent_bind (silent_read_from _) (fun d =>
    silent_bind (silent_mLift _) (fun c => silent_mLift _))

theorem silent_save_task_details (td : TaskDetail) (im : Bool) :
    Silent (_save_task_details td im) := by
  unfold _save_task_details
  apply silent_bind
  · apply silent_tryCatch
    · exact silent_bind (silent_get_task_details_go _) (fun t => silent_pure _)
    · intro e
      cases e with
      | envError c =>
        dsimp only
        split
        · exact silent_pure _
        · exact silent_throw _
      | notFound m => exact silent_throw _
      | storageError m c => exact silent_throw _
      | valueError m => exact silent_throw _
  · intro e_td
    exact silent_bind (silent_write_to _ _) (fun _ => silent_pure _)

theorem silent_linkErrHandler (e : Err) : Silent (linkErrHandler e) := by
  cases e with
  | envError c =>
    intro st
    show ((if c = EEXIST then M.pure () else M.throw (Err.envError c)) st).2.2 = []
    by_cases hc : c = EEXIST
    · rw [if_pos hc]
      rfl
    · rw [if_neg hc]
      rfl
  | notFound m => exact silent_throw _
  | storageError m c => exact silent_throw _
  | valueError m => exact silent_throw _

theorem silent_save_tasks_and_link (tds : List TaskDetail) (p : Path) :
    Silent (_save_tasks_and_link tds p) := by
  apply silent_forM
  intro td
  apply silent_bind (silent_save_task_details _ _)
  intro x
  exact silent_tryCatch (silent_osSymlink _ _) silent_linkErrHandler

/-! ### Lock-admission facts for each operation -/

theorem trOK_get_task_details (P : String → List String → Bool) (held : List String)
    (u : String) (lk : Bool) (h : lk = true → P "task" held = true) :
    TrOK P held (_get_task_details u lk) := by
  cases lk with
  | false => exact silent_trOK (silent_get_task_details_go u)
  | true => exact trOK_lock "task" (h rfl) (silent_trOK (silent_get_task_details_go u))

theorem trOK_get_flow_details_go (P : String → List String → Bool) (held : List String)
    (u : String) (hT : P "task" held = true) :
    TrOK P held (_get_flow_details._get u) := by
  unfold _get_flow_details._get
  apply trOK_bind (silent_trOK (silent_read_from _))
  intro metaC
  apply trOK_bind (silent_trOK (silent_mLift _))
  intro c
  apply trOK_bind (silent_trOK (silent_mLift _))
  intro fd
  apply trOK_bind
  · apply silent_trOK
    apply silent_tryCatch (silent_osListLinks _)
    intro e
    cases e with
    | envError c2 =>
      dsimp only
      split
      · exact silent_pure _
      · exact silent_throw _
    | notFound m => exact silent_throw _
    | storageError m c2 => exact silent_throw _
    | valueError m => exact silent_throw _
  · intro names
    apply trOK_foldlM
    intro b a
    exact trOK_bind (trOK_get_task_details P held a true (fun _ => hT))
      (fun td => silent_trOK (silent_pure _))

theorem trOK_get_flow_details (P : String → List String → Bool) (held : List String)
    (u : String) (lk : Bool)
    (hF : lk = true → P "flow" held = true)
    (hT1 : lk = true → P "task" ("flow" :: held) = true)
    (hT2 : lk = false → P "task" held = true) :
    TrOK P held (_get_flow_details u lk) := by
  cases lk with
  | false => exact trOK_get_flow_details_go P held u (hT2 rfl)
  | true => exact trOK_lock "flow" (hF rfl) (trOK_get_flow_details_go P _ u (hT1 rfl))

theorem trOK_save_flow_details (P : String → List String → Bool) (held : List String)
    (fd : FlowDetail) (im : Bool) (hT : P "task" held = true) :
    TrOK P held (_save_flow_details fd im) := by
  unfold _save_flow_details
  apply trOK_bind
  · apply trOK_tryCatch
    · exact trOK_bind (trOK_get_flow_details_go P held fd.uuid hT)
        (fun f => silent_trOK (silent_pure _))
    · intro e
      apply silent_trOK
      cases e with
      | envError c =>
        dsimp only
        split
        · exact silent_pure _
        · exact silent_throw _
      | notFound m => exact silent_throw _
      | storageError m c => exact silent_throw _
      | valueError m => exact silent_throw _
  · intro e_fd
    apply trOK_bind (silent_trOK (silent_ensureTree _))
    intro x1
    apply trOK_bind (silent_trOK (silent_write_to _ _))
    intro x2
    dsimp only
    split
    · exact silent_trOK (silent_bind (silent_pure _) (fun y => silent_pure _))
    · apply trOK_bind (silent_trOK (silent_ensureTree _))
      intro x3
      apply trOK_bind (trOK_lock "task" hT (silent_trOK (silent_save_tasks_and_link _ _)))
      intro y
      exact silent_trOK (silent_pure _)

theorem trOK_save_flows_and_link (P : String → List String → Bool) (held : List String)
    (fds : List FlowDetail) (p : Path) (hT : P "task" held = true) :
    TrOK P held (_save_flows_and_link fds p) := by
  apply trOK_forM
  intro fd
  apply trOK_bind (trOK_save_flow_details P held fd true hT)
  intro x
  exact silent_trOK (silent_tryCatch (silent_osSymlink _ _) silent_linkErrHandler)

theorem trOK_get_logbook_inner (P : String → List String → Bool) (held : List String)
    (u : String) (hF : P "flow" held = true)
    (hT : P "task" ("flow" :: held) = true) :
    TrOK P held (_get_logbook u) := by
  unfold _get_logbook
  apply trOK_bind
  · apply silent_trOK
    apply silent_tryCatch
      (silent_bind (silent_read_from _) (fun m => silent_mLift _))
    intro e
    cases e with
    | envError c =>
      dsimp only
      split
      · exact silent_throw _
      · exact silent_throw _
    | notFound m => exact silent_throw _
    | storageError m c => exact silent_throw _
    | valueError m => exact silent_throw _
  · intro c
    apply trOK_bind (silent_trOK (silent_mLift _))
    intro lb
    apply trOK_bind
    · apply silent_trOK
      apply silent_tryCatch (silent_osListLinks _)
      intro e
      cases e with
      | envError c2 =>
        dsimp only
        split
        · exact silent_pure _
        · exact silent_throw _
      | notFound m => exact silent_throw _
      | storageError m c2 => exact silent_throw _
      | valueError m => exact silent_throw _
    · intro names
      apply trOK_foldlM
      intro b a
      refine trOK_bind (trOK_get_flow_details P held a true (fun _ => hF) (fun _ => hT) ?_)
        (fun fd => silent_trOK (silent_pure _))
      intro hcontra
      exact absurd hcontra (by simp)

theorem trOK_save_logbook_inner (P : String → List String → Bool) (held : List String)
    (bk : LogBook) (hF : P "flow" held = true)
    (hT : P "task" ("flow" :: held) = true) :
    TrOK P held (_save_logbook bk) := by
  unfold _save_logbook
  apply trOK_bind
  · apply trOK_tryCatch
    · exact trOK_bind (trOK_get_logbook_inner P held bk.uuid hF hT)
        (fun b => silent_trOK (silent_pure _))
    · intro e
      apply silent_trOK
      cases e with
      | envError c => exact silent_throw _
      | notFound m => exact silent_pure _
      | storageError m c => exact silent_throw _
      | valueError m => exact silent_throw _
  · intro e_lb
    apply trOK_bind (silent_trOK (silent_ensureTree _))
    intro x1
    apply trOK_bind (silent_trOK (silent_write_to _ _))
    intro x2
    dsimp only
    split
    · exact silent_trOK (silent_bind (silent_pure _) (fun y => silent_pure _))
    · apply trOK_bind (silent_trOK (silent_ensureTree _))
      intro x3
      apply trOK_bind (trOK_lock "flow" hF (trOK_save_flows_and_link P _ _ _ hT))
      intro y
      exact silent_trOK (silent_pure _)

theorem trOK_save_logbook (P : String → List String → Bool) (held : List String)
    (bk : LogBook) (hB : P "book" held = true)
    (hF : P "flow" ("book" :: held) = true)
    (hT : P "task" ("flow" :: "book" :: held) = true) :
    TrOK P held (save_logbook bk) :=
  trOK_lock "book" hB (trOK_save_logbook_inner P ("book" :: held) bk hF hT)

theorem trOK_get_logbook (P : String → List String → Bool) (held : List String)
    (u : String) (hB : P "book" held = true)
    (hF : P "flow" ("book" :: held) = true)
    (hT : P "task" ("flow" :: "book" :: held) = true) :
    TrOK P held (get_logbook u) :=
  trOK_lock "book" hB (trOK_get_logbook_inner P ("book" :: held) u hF hT)

theorem trOK_update_task_details (P : String → List String → Bool) (held : List String)
    (td : TaskDetail) (hT : P "task" held = true) :
    TrOK P held (update_task_details td) :=
  trOK_lock "task" hT (silent_trOK (silent_save_task_details td false))

theorem trOK_update_flow_details (P : String → List String → Bool) (held : List String)
    (fd : FlowDetail) (hF : P "flow" held = true)
    (hT : P "task" ("flow" :: held) = true) :
    TrOK P held (update_flow_details fd) :=
  trOK_lock "flow" hF (trOK_save_flow_details P ("flow" :: held) fd false hT)

theorem trOK_get_logbooks (P : String → List String → Bool) (held : List String)
    (hF : P "flow" held = true) (hT : P "task" ("flow" :: held) = true) :
    TrOK P held get_logbooks := by
  unfold get_logbooks
  apply trOK_tryCatch
  · unfold _get_logbooks
    apply trOK_bind
    · apply silent_trOK
      apply silent_tryCatch (silent_osListSubdirs _)
      intro e
      cases e with
      | envError c =>
        dsimp only
        split
        · exact silent_pure _
        · exact silent_throw _
      | notFound m => exact silent_throw _
      | storageError m c => exact silent_throw _
      | valueError m => exact silent_throw _
    · intro names
      apply trOK_foldlM
      intro acc u
      apply trOK_tryCatch
      · exact trOK_bind (trOK_get_logbook_inner P held u hF hT)
          (fun b => silent_trOK (silent_pure _))
      · intro e
        apply silent_trOK
        cases e with
        | envError c => exact silent_throw _
        | notFound m => exact silent_pure _
        | storageError m c => exact silent_throw _
        | valueError m => exact silent_throw _
  · intro e
    apply silent_trOK
    cases e with
    | envError c => exact silent_throw _
    | notFound m => exact silent_throw _
    | storageError m c => exact silent_throw _
    | valueError m => exact silent_throw _

theorem trOK_destroy_logbook (P : String → List String → Bool) (held : List String)
    (u : String) (hB : P "book" held = true)
    (hF : P "flow" ("book" :: held) = true)
    (hT : P "task" ("flow" :: "book" :: held) = true) :
    TrOK P held (destroy_logbook u) := by
  unfold destroy_logbook
  apply trOK_lock "book" hB
  apply trOK_bind (trOK_get_logbook_inner P ("book" :: held) u hF hT)
  intro book
  apply trOK_bind
  · apply trOK_lock "flow" hF
    unfold _destroy_flows
    apply trOK_forM
    intro fd
    apply trOK_bind
    · exact trOK_lock "task" hT (silent_trOK (by
        unfold _destroy_tasks
        apply silent_forM
        intro td
        apply silent_tryCatch (silent_shutilRmtree _)
        intro e
        cases e with
        | envError c =>
          dsimp only
          split
          · exact silent_pure _
          · exact silent_throw _
        | notFound m => exact silent_throw _
        | storageError m c => exact silent_throw _
        | valueError m => exact silent_throw _))
    · intro x
      apply silent_trOK
      apply silent_tryCatch (silent_shutilRmtree _)
      intro e
      cases e with
      | envError c =>
        dsimp only
        split
        · exact silent_pure _
        · exact silent_throw _
      | notFound m => exact silent_throw _
      | storageError m c => exact silent_throw _
      | valueError m => exact silent_throw _
  · intro x
    apply silent_trOK
    apply silent_tryCatch (silent_shutilRmtree _)
    intro e
    cases e with
    | envError c =>
      dsimp only
      split
      · exact silent_pure _
      · exact silent_throw _
    | notFound m => exact silent_throw _
    | storageError m c => exact silent_throw _
    | valueError m => exact silent_throw _

theorem trOK_clear_all (P : String → List String → Bool) (held : List String)
    (hI : P "init" held = true)
    (hB : P "book" ("init" :: held) = true)
    (hF : P "flow" ("book" :: "init" :: held) = true)
    (hT : P "task" ("flow" :: "book" :: "init" :: held) = true) :
    TrOK P held clear_all := by
  unfold clear_all
  apply trOK_lock "init" hI
  apply trOK_lock "book" hB
  apply trOK_lock "flow" hF
  apply trOK_lock "task" hT
  apply silent_trOK
  apply silent_forM
  intro d
  apply silent_bind (silent_osIsdir _)
  intro isd
  split
  · exact silent_shutilRmtree _
  · exact silent_pure _

theorem trOK_upgrade (P : String → List String → Bool) (held : List String)
    (hI : P "init" held = true) : TrOK P held upgrade := by
  unfold upgrade
  apply trOK_bind
  · apply silent_trOK
    apply silent_forM
    intro p
    apply silent_tryCatch (silent_ensureTree _)
    intro e
    cases e with
    | envError c => exact silent_throw _
    | notFound m => exact silent_throw _
    | storageError m c => exact silent_throw _
    | valueError m => exact silent_throw _
  · intro x
    apply trOK_lock "init" hI
    apply silent_trOK
    apply silent_forM
    intro p
    apply silent_tryCatch (silent_ensureTree _)
    intro e
    cases e with
    | envError c => exact silent_throw _
    | notFound m => exact silent_throw _
    | storageError m c => exact silent_throw _
    | valueError m => exact silent_throw _

/-! ### C3: the lock-acquisition chain -/

/-- Counterexample to **C3** as claimed: `update_task_details` acquires the
`task` lock without the `flow` lock being held (its trace is exactly
`[acq task, rel task]`), so "the task lock is never acquired unless the
flow lock is already held" fails on the code. -/
theorem lock_chain_counterexample :
    (update_task_details ⟨"T1", "x"⟩ st0).2.2 = [.acq "task", .rel "task"] ∧
    chainOK claimedOrder [] (update_task_details ⟨"T1", "x"⟩ st0).2.2 = false :=
  ⟨rfl, rfl⟩

/-- Amended **C3**: in every execution of every operation, lock acquisition
descends the fixed chain `init -> book -> flow -> task` — a lock is only
acquired while all held locks are strictly earlier in the chain (so no lock
is ever acquired while an equal-or-later one is held).  The stronger claimed
form — `flow` only under `book` and `task` only under `flow` — holds for
`save_logbook` (the claim's particular case), `get_logbook`,
`destroy_logbook`, `clear_all` and `upgrade`; it fails only for the
operations that need no outer lock (`update_task_details`,
`update_flow_details`, `get_logbooks`), which start the chain lower down. -/
theorem lock_acquisition_chain :
    (∀ bk st, chainOK descending [] ((save_logbook bk) st).2.2 = true) ∧
    (∀ u st, chainOK descending [] ((get_logbook u) st).2.2 = true) ∧
    (∀ st, chainOK descending [] (get_logbooks st).2.2 = true) ∧
    (∀ fd st, chainOK descending [] ((update_flow_details fd) st).2.2 = true) ∧
    (∀ td st, chainOK descending [] ((update_task_details td) st).2.2 = true) ∧
    (∀ u st, chainOK descending [] ((destroy_logbook u) st).2.2 = true) ∧
    (∀ st, chainOK descending [] (clear_all st).2.2 = true) ∧
    (∀ st, chainOK descending [] (upgrade st).2.2 = true) ∧
    (∀ bk st, chainOK claimedOrder [] ((save_logbook bk) st).2.2 = true) ∧
    (∀ u st, chainOK claimedOrder [] ((get_logbook u) st).2.2 = true) ∧
    (∀ u st, chainOK claimedOrder [] ((destroy_logbook u) st).2.2 = true) ∧
    (∀ st, chainOK claimedOrder [] (clear_all st).2.2 = true) ∧
    (∀ st, chainOK claimedOrder [] (upgrade st).2.2 = true) :=
  ⟨fun bk st => (trOK_save_logbook descending [] bk (by decide) (by decide) (by decide) st).1,
   fun u st => (trOK_get_logbook descending [] u (by decide) (by decide) (by decide) st).1,
   fun st => (trOK_get_logbooks descending [] (by decide) (by decide) st).1,
   fun fd st => (trOK_update_flow_details descending [] fd (by decide) (by decide) st).1,
   fun td st => (trOK_update_task_details descending [] td (by decide) st).1,
   fun u st => (trOK_destroy_logbook descending [] u (by decide) (by decide) (by decide) st).1,
   fun st => (trOK_clear_all descending [] (by decide) (by decide) (by decide) (by decide) st).1,
   fun st => (trOK_upgrade descending [] (by decide) st).1,
   fun bk st => (trOK_save_logbook claimedOrder [] bk (by decide) (by decide) (by decide) st).1,
   fun u st => (trOK_get_logbook claimedOrder [] u (by decide) (by decide) (by decide) st).1,
   fun u st => (trOK_destroy_logbook claimedOrder [] u (by decide) (by decide) (by decide) st).1,
   fun st => (trOK_clear_all claimedOrder [] (by decide) (by decide) (by decide) (by decide) st).1,
   fun st => (trOK_upgrade claimedOrder [] (by decide) st).1⟩

/-! ### Filesystem-preserving computations -/

/-- A computation that never changes the filesystem (it may touch the cache
and the trace). -/
def FsConst {α : Type} (c : M α) : Prop := ∀ st, (c st).2.1.fs = st.fs

theorem fsConst_pure {α : Type} (a : α) : FsConst (pure a : M α) := fun _ => rfl

theorem fsConst_throw {α : Type} (e : Err) : FsConst (M.throw (α := α) e) := fun _ => rfl

theorem fsConst_mLift {α : Type} (x : Except Err α) : FsConst (mLift x) := fun _ => rfl

theorem fsConst_osGetmtime (p : Path) : FsConst (osGetmtime p) := by
  intro st
  show ((osGetmtime p st).2.1).fs = st.fs
  unfold osGetmtime mk
  dsimp only
  split <;> first | rfl | (split <;> rfl)

theorem fsConst_osOpenRead (p : Path) : FsConst (osOpenRead p) := by
  intro st
  unfold osOpenRead mk
  dsimp only
  split <;> first | rfl | (split <;> rfl)

theorem fsConst_osListLinks (p : Path) : FsConst (osListLinks p) := by
  intro st
  unfold osListLinks mk
  dsimp only
  split <;> first | rfl | (split <;> rfl)

theorem fsConst_osListSubdirs (p : Path) : FsConst (osListSubdirs p) := by
  intro st
  unfold osListSubdirs mk
  dsimp only
  split <;> first | rfl | (split <;> rfl)

theorem fsConst_cacheLookup (p : Path) : FsConst (cacheLookup p) := fun _ => rfl

theorem fsConst_cacheRefresh (p : Path) (e : CacheEntry) : FsConst (cacheRefresh p e) :=
  fun _ => rfl

theorem fsConst_bind {α β : Type} {x : M α} {f : α → M β}
    (hx : FsConst x) (hf : ∀ a, FsConst (f a)) : FsConst (x >>= f) := by
  intro st
  show ((M.bind x f) st).2.1.fs = st.fs
  cases hxs : x st with
  | mk r rest =>
    obtain ⟨st1, tr1⟩ := rest
    have h1 : st1.fs = st.fs := by
      have := hx st
      rw [hxs] at this
      exact this
    cases r with
    | ok a =>
      rw [bind_ok_eq f hxs]
      show (f a st1).2.1.fs = st.fs
      rw [hf a st1]
      exact h1
    | error e =>
      rw [bind_error_eq f hxs]
      exact h1

theorem fsConst_tryCatch {α : Type} {x : M α} {h : Err → M α}
    (hx : FsConst x) (hh : ∀ e, FsConst (h e)) : FsConst (M.tryCatch x h) := by
  intro st
  cases hxs : x st with
  | mk r rest =>
    obtain ⟨st1, tr1⟩ := rest
    have h1 : st1.fs = st.fs := by
      have := hx st
      rw [hxs] at this
      exact this
    cases r with
    | ok a =>
      rw [tryCatch_ok_eq h hxs]
      exact h1
    | error e =>
      rw [tryCatch_error_eq h hxs]
      show (h e st1).2.1.fs = st.fs
      rw [hh e st1]
      exact h1

theorem fsConst_lock {α : Type} (n : String) {f : M α} (hf : FsConst f) :
    FsConst (_run_with_process_lock n f) := by
  intro st
  cases hfs : f st with
  | mk r rest =>
    obtain ⟨st1, tr⟩ := rest
    have h1 : st1.fs = st.fs := by
      have := hf st
      rw [hfs] at this
      exact this
    cases r with
    | ok a =>
      rw [lock_ok_eq n hfs]
      exact h1
    | error e =>
      by_cases hT : isTaskFlowExc e = true
      · rw [lock_error_tfe_eq n hfs hT]
        exact h1
      · rw [lock_error_wrap_eq n hfs (eq_false_of_ne_true hT)]
        exact h1

theorem fsConst_foldlM {α β : Type} (f : β → α → M β) (l : List α)
    (hf : ∀ b a, FsConst (f b a)) : ∀ b, FsConst (l.foldlM f b) := by
  induction l with
  | nil => exact fun b => fsConst_pure _
  | cons a as ih => exact fun b => fsConst_bind (hf b a) (fun b2 => ih b2)

theorem fsConst_read_from (fn : Path) : FsConst (_read_from fn) := by
  unfold _read_from
  apply fsConst_bind (fsConst_osGetmtime _)
  intro mtime
  apply fsConst_bind (fsConst_cacheLookup _)
  intro ci
  cases ci with
  | none =>
    exact fsConst_bind (fsConst_osOpenRead _)
      (fun d => fsConst_bind (fsConst_cacheRefresh _ _) (fun _ => fsConst_pure _))
  | some e =>
    by_cases hm : mtime > e.mtime
    · simp only [if_pos hm]
      exact fsConst_bind (fsConst_osOpenRead _)
        (fun d => fsConst_bind (fsConst_cacheRefresh _ _) (fun _ => fsConst_pure _))
    · simp only [if_neg hm]
      exact fsConst_pure _

theorem fsConst_get_task_details (u : String) (lk : Bool) :
    FsConst (_get_task_details u lk) := by
  have hgo : FsConst (_get_task_details._get u) :=
    fsConst_bind (fsConst_read_from _) (fun d =>
      fsConst_bind (fsConst_mLift _) (fun c => fsConst_mLift _))
  cases lk with
  | false => exact hgo
  | true => exact fsConst_lock "task" hgo

theorem fsConst_get_flow_details (u : String) (lk : Bool) :
    FsConst (_get_flow_details u lk) := by
  have hgo : FsConst (_get_flow_details._get u) := by
    unfold _get_flow_details._get
    apply fsConst_bind (fsConst_read_from _)
    intro metaC
    apply fsConst_bind (fsConst_mLift _)
    intro c
    apply fsConst_bind (fsConst_mLift _)
    intro fd
    apply fsConst_bind
    · apply fsConst_tryCatch (fsConst_osListLinks _)
      intro e
      cases e with
      | envError c2 =>
        dsimp only
        split
        · exact fsConst_pure _
        · exact fsConst_throw _
      | notFound m => exact fsConst_throw _
      | storageError m c2 => exact fsConst_throw _
      | valueError m => exact fsConst_throw _
    · intro names
      apply fsConst_foldlM
      intro b a
      exact fsConst_bind (fsConst_get_task_details a true) (fun td => fsConst_pure _)
  cases lk with
  | false => exact hgo
  | true => exact fsConst_lock "flow" hgo

theorem fsConst_get_logbook (u : String) : FsConst (_get_logbook u) := by
  unfold _get_logbook
  apply fsConst_bind
  · apply fsConst_tryCatch
      (fsConst_bind (fsConst_read_from _) (fun m => fsConst_mLift _))
    intro e
    cases e with
    | envError c =>
      dsimp only
      split
      · exact fsConst_throw _
      · exact fsConst_throw _
    | notFound m => exact fsConst_throw _
    | storageError m c => exact fsConst_throw _
    | valueError m => exact fsConst_throw _
  · intro c
    apply fsConst_bind (fsConst_mLift _)
    intro lb
    apply fsConst_bind
    · apply fsConst_tryCatch (fsConst_osListLinks _)
      intro e
      cases e with
      | envError c2 =>
        dsimp only
        split
        · exact fsConst_pure _
        · exact fsConst_throw _
      | notFound m => exact fsConst_throw _
      | storageError m c2 => exact fsConst_throw _
      | valueError m => exact fsConst_throw _
    · intro names
      apply fsConst_foldlM
      intro b a
      exact fsConst_bind (fsConst_get_flow_details a true) (fun fd => fsConst_pure _)

theorem fsConst_get_logbooks_step (acc : List LogBook) (u : String) :
    FsConst (_get_logbooks.step acc u) := by
  unfold _get_logbooks.step
  apply fsConst_tryCatch
  · exact fsConst_bind (fsConst_get_logbook u) (fun b => fsConst_pure _)
  · intro e
    cases e with
    | envError c => exact fsConst_throw _
    | notFound m => exact fsConst_pure _
    | storageError m c => exact fsConst_throw _
    | valueError m => exact fsConst_throw _

/-! ### Return-value invariants -/

/-- `RetP Q c`: every successful result of `c` satisfies `Q`. -/
def RetP {α : Type} (Q : α → Prop) (c : M α) : Prop :=
  ∀ st a st1 tr, c st = (.ok a, st1, tr) → Q a

theorem retP_pure {α : Type} {Q : α → Prop} {a : α} (h : Q a) : RetP Q (pure a : M α) := by
  intro st b st1 tr hb
  have h1 : Except.ok (ε := Err) a = Except.ok b := congrArg Prod.fst hb
  injection h1 with h2
  rw [← h2]
  exact h

theorem retP_trivial {α : Type} (c : M α) : RetP (fun _ => True) c :=
  fun _ _ _ _ _ => trivial

theorem retP_throw {α : Type} {Q : α → Prop} (e : Err) : RetP Q (M.throw (α := α) e) := by
  intro st b st1 tr hb
  exact Except.noConfusion (congrArg Prod.fst hb)

theorem retP_bind {α β : Type} {R : α → Prop} {Q : β → Prop} {x : M α} {f : α → M β}
    (hx : RetP R x) (hf : ∀ a, R a → RetP Q (f a)) : RetP Q (x >>= f) := by
  intro st b st2 tr hb
  cases hxs : x st with
  | mk r rest =>
    obtain ⟨st1, tr1⟩ := rest
    cases r with
    | ok a =>
      rw [show (x >>= f) st = M.bind x f st from rfl, bind_ok_eq f hxs] at hb
      have h1 : (f a st1).1 = .ok b := congrArg Prod.fst hb
      have h2 : f a st1 = (.ok b, (f a st1).2.1, (f a st1).2.2) := by
        rw [← h1]
      exact hf a (hx st a st1 tr1 hxs) st1 b _ _ h2
    | error e =>
      rw [show (x >>= f) st = M.bind x f st from rfl, bind_error_eq f hxs] at hb
      exact Except.noConfusion (congrArg Prod.fst hb)

theorem retP_tryCatch {α : Type} {Q : α → Prop} {x : M α} {h : Err → M α}
    (hx : RetP Q x) (hh : ∀ e, RetP Q (h e)) : RetP Q (M.tryCatch x h) := by
  intro st b st2 tr hb
  cases hxs : x st with
  | mk r rest =>
    obtain ⟨st1, tr1⟩ := rest
    cases r with
    | ok a =>
      rw [tryCatch_ok_eq h hxs] at hb
      have h1 : Except.ok (ε := Err) a = Except.ok b := congrArg Prod.fst hb
      injection h1 with h2
      rw [← h2]
      exact hx st a st1 tr1 hxs
    | error e =>
      rw [tryCatch_error_eq h hxs] at hb
      have h1 : (h e st1).1 = .ok b := congrArg Prod.fst hb
      have h2 : h e st1 = (.ok b, (h e st1).2.1, (h e st1).2.2) := by
        rw [← h1]
      exact hh e st1 b _ _ h2

theorem retP_lock {α : Type} {Q : α → Prop} (n : String) {f : M α}
    (hf : RetP Q f) : RetP Q (_run_with_process_lock n f) := by
  intro st b st2 tr hb
  cases hfs : f st with
  | mk r rest =>
    obtain ⟨st1, tr1⟩ := rest
    cases r with
    | ok a =>
      rw [lock_ok_eq n hfs] at hb
      have h1 : Except.ok (ε := Err) a = Except.ok b := congrArg Prod.fst hb
      injection h1 with h2
      rw [← h2]
      exact hf st a st1 tr1 hfs
    | error e =>
      by_cases hT : isTaskFlowExc e = true
      · rw [lock_error_tfe_eq n hfs hT] at hb
        exact Except.noConfusion (congrArg Prod.fst hb)
      · rw [lock_error_wrap_eq n hfs (eq_false_of_ne_true hT)] at hb
        exact Except.noConfusion (congrArg Prod.fst hb)

theorem retP_foldlM {α β : Type} {Q : β → Prop} (f : β → α → M β) (l : List α)
    (hstep : ∀ b a, Q b → RetP Q (f b a)) :
    ∀ b, Q b → RetP Q (l.foldlM f b) := by
  induction l with
  | nil => exact fun b hQ => retP_pure hQ
  | cons a as ih =>
    intro b hQ st r st2 tr hr
    rw [List.foldlM_cons] at hr
    cases hxs : f b a st with
    | mk r1 rest =>
      obtain ⟨st1, tr1⟩ := rest
      cases r1 with
      | ok b1 =>
        rw [show (f b a >>= as.foldlM f) st = M.bind (f b a) (as.foldlM f) st from rfl,
          bind_ok_eq _ hxs] at hr
        have h2 : ((as.foldlM f b1) st1).1 = .ok r := congrArg Prod.fst hr
        have h3 : (as.foldlM f b1) st1 =
            (.ok r, ((as.foldlM f b1) st1).2.1, ((as.foldlM f b1) st1).2.2) := by
          rw [← h2]
        exact ih b1 (hstep b a hQ st b1 st1 tr1 hxs) st1 r _ _ h3
      | error e =>
        rw [show (f b a >>= as.foldlM f) st = M.bind (f b a) (as.foldlM f) st from rfl,
          bind_error_eq _ hxs] at hr
        exact Except.noConfusion (congrArg Prod.fst hr)

/-! ### Error bounds -/

/-- `notNF e`: the error is not a `NotFound`. -/
def notNF : Err → Bool
  | .notFound _ => false
  | _ => true

/-- `isEnvB e`: the error is an `EnvironmentError`. -/
def isEnvB : Err → Bool
  | .envError _ => true
  | _ => false

/-- `ErrOK E c`: every error a run of `c` can produce satisfies `E`. -/
def ErrOK (E : Err → Bool) {α : Type} (c : M α) : Prop :=
  ∀ st e, (c st).1 = .error e → E e = true

theorem errOK_pure {E : Err → Bool} {α : Type} (a : α) : ErrOK E (pure a : M α) := by
  intro st e he
  exact Except.noConfusion he

theorem errOK_throw {E : Err → Bool} {α : Type} {e0 : Err} (h : E e0 = true) :
    ErrOK E (M.throw (α := α) e0) := by
  intro st e he
  have h1 : Except.error (α := α) e0 = Except.error e := he
  injection h1 with h2
  rw [← h2]
  exact h

theorem errOK_bind {E : Err → Bool} {α β : Type} {x : M α} {f : α → M β}
    (hx : ErrOK E x) (hf : ∀ a, ErrOK E (f a)) : ErrOK E (x >>= f) := by
  intro st e he
  cases hxs : x st with
  | mk r rest =>
    obtain ⟨st1, tr1⟩ := rest
    cases r with
    | ok a =>
      rw [show (x >>= f) st = M.bind x f st from rfl, bind_ok_eq f hxs] at he
      exact hf a st1 e he
    | error e1 =>
      rw [show (x >>= f) st = M.bind x f st from rfl, bind_error_eq f hxs] at he
      have h1 : Except.error (α := β) e1 = Except.error e := he
      injection h1 with h2
      rw [← h2]
      exact hx st e1 (by rw [hxs])

theorem errOK_tryCatch {E E2 : Err → Bool} {α : Type} {x : M α} {h : Err → M α}
    (hx : ErrOK E x) (hh : ∀ e0, E e0 = true → ErrOK E2 (h e0)) :
    ErrOK E2 (M.tryCatch x h) := by
  intro st e he
  cases hxs : x st with
  | mk r rest =>
    obtain ⟨st1, tr1⟩ := rest
    cases r with
    | ok a =>
      rw [tryCatch_ok_eq h hxs] at he
      exact Except.noConfusion he
    | error e1 =>
      rw [tryCatch_error_eq h hxs] at he
      exact hh e1 (hx st e1 (by rw [hxs])) st1 e he

theorem errOK_lock_notNF {α : Type} (n : String) {f : M α} (hf : ErrOK notNF f) :
    ErrOK notNF (_run_with_process_lock n f) := by
  intro st e he
  cases hfs : f st with
  | mk r rest =>
    obtain ⟨st1, tr⟩ := rest
    cases r with
    | ok a =>
      rw [lock_ok_eq n hfs] at he
      exact Except.noConfusion he
    | error e1 =>
      by_cases hT : isTaskFlowExc e1 = true
      · rw [lock_error_tfe_eq n hfs hT] at he
        have h1 : Except.error (α := α) e1 = Except.error e := he
        injection h1 with h2
        rw [← h2]
        exact hf st e1 (by rw [hfs])
      · rw [lock_error_wrap_eq n hfs (eq_false_of_ne_true hT)] at he
        have h1 : Except.error (α := α)
            (.storageError "Storage backend internal error" e1.asCause) = Except.error e := he
        injection h1 with h2
        rw [← h2]
        rfl

theorem errOK_foldlM {E : Err → Bool} {α β : Type} (f : β → α → M β) (l : List α)
    (hf : ∀ b a, ErrOK E (f b a)) : ∀ b, ErrOK E (l.foldlM f b) := by
  induction l with
  | nil => exact fun b => errOK_pure b
  | cons a as ih => exact fun b => errOK_bind (hf b a) (fun b2 => ih b2)


/-! ### C10: get_logbooks -/

theorem retP_unformatLogbook (u : String) (c : Content) :
    RetP (fun lb => lb.uuid = u) (mLift (unformatLogbook u c)) := by
  intro st b st1 tr hb
  cases c with
  | bookC bm =>
    have h1 : Except.ok (ε := Err)
        ({ uuid := u, meta := bm.meta, created_at := bm.created_at, flows := [] } : LogBook) =
        Except.ok b := congrArg Prod.fst hb
    injection h1 with h2
    rw [← h2]
  | raw s2 => exact Except.noConfusion (congrArg Prod.fst hb)
  | taskC d => exact Except.noConfusion (congrArg Prod.fst hb)
  | flowC m2 => exact Except.noConfusion (congrArg Prod.fst hb)

/-- A loaded logbook's uuid is the uuid it was requested under. -/
theorem get_logbook_ok_uuid (u : String) :
    RetP (fun b => b.uuid = u) (_get_logbook u) := by
  unfold _get_logbook
  apply retP_bind (Q := fun b : LogBook => b.uuid = u) (R := fun _ => True) (retP_trivial _)
  intro c _
  apply retP_bind (Q := fun b : LogBook => b.uuid = u) (R := fun lb : LogBook => lb.uuid = u)
    (retP_unformatLogbook u c)
  intro lb hlb
  apply retP_bind (Q := fun b : LogBook => b.uuid = u) (R := fun _ => True) (retP_trivial _)
  intro names _
  exact retP_foldlM (Q := fun b : LogBook => b.uuid = u)
    (fun lb fdUuid => do
      let fd ← _get_flow_details fdUuid true
      pure (lb.add fd)) names
    (fun b a hQ => retP_bind (R := fun _ => True) (retP_trivial _)
      (fun fd _ => retP_pure (a := b.add fd) hQ)) lb hlb

theorem errOK_osListSubdirs (p : Path) : ErrOK isEnvB (osListSubdirs p) := by
  intro st e he
  show isEnvB e = true
  unfold osListSubdirs mk at he
  dsimp only at he
  cases hf : st.fs.find p with
  | none =>
    rw [hf] at he
    have h1 : Except.error (α := List String) (Err.envError ENOENT) = Except.error e := he
    injection h1 with h2
    rw [← h2]
    rfl
  | some n =>
    rw [hf] at he
    cases n with
    | file d m =>
      have h1 : Except.error (α := List String) (Err.envError ENOTDIR) = Except.error e := he
      injection h1 with h2
      rw [← h2]
      rfl
    | dir => exact Except.noConfusion he
    | link t =>
      have h1 : Except.error (α := List String) (Err.envError ENOTDIR) = Except.error e := he
      injection h1 with h2
      rw [← h2]
      rfl

theorem errOK_get_logbooks_inner : ErrOK notNF _get_logbooks := by
  unfold _get_logbooks
  apply errOK_bind
  · apply errOK_tryCatch (errOK_osListSubdirs _)
    intro e0 he0
    cases e0 with
    | envError c =>
      dsimp only
      split
      · exact errOK_pure _
      · exact errOK_throw rfl
    | notFound m => simp [isEnvB] at he0
    | storageError m c => simp [isEnvB] at he0
    | valueError m => simp [isEnvB] at he0
  · intro names
    apply errOK_foldlM
    intro b a
    unfold _get_logbooks.step
    apply errOK_tryCatch (E := fun _ => true) (fun st e he => rfl)
    intro e0 he0
    cases e0 with
    | notFound m => exact errOK_pure _
    | envError c => exact errOK_throw rfl
    | storageError m c => exact errOK_throw rfl
    | valueError m => exact errOK_throw rfl

theorem errOK_get_logbooks : ErrOK notNF get_logbooks := by
  unfold get_logbooks
  apply errOK_tryCatch errOK_get_logbooks_inner
  intro e0 he0
  cases e0 with
  | envError c => exact errOK_throw rfl
  | notFound m => simp [notNF] at he0
  | storageError m c => exact errOK_throw rfl
  | valueError m => exact errOK_throw rfl

theorem step_omits (u a : String) (acc : List LogBook) (st : St)
    {acc1 : List LogBook} {st1 : St} {tr1 : List Event}
    (hmeta : st.fs.find (bookPath ++ [u, "metadata"]) = none)
    (hacc : ∀ b ∈ acc, b.uuid ≠ u)
    (hs : _get_logbooks.step acc a st = (.ok acc1, st1, tr1)) :
    ∀ b ∈ acc1, b.uuid ≠ u := by
  unfold _get_logbooks.step at hs
  cases hb : (_get_logbook a >>= fun b => pure (acc ++ [b])) st with
  | mk rb restb =>
    obtain ⟨stb, trb⟩ := restb
    cases rb with
    | ok accb =>
      rw [tryCatch_ok_eq _ hb] at hs
      have h1 : Except.ok (ε := Err) accb = Except.ok acc1 := congrArg Prod.fst hs
      injection h1 with h2
      subst h2
      cases hg : _get_logbook a st with
      | mk rg restg =>
        obtain ⟨stg, trg⟩ := restg
        cases rg with
        | ok b0 =>
          rw [show (_get_logbook a >>= fun b => pure (acc ++ [b])) st =
              M.bind (_get_logbook a) (fun b => pure (acc ++ [b])) st from rfl,
            bind_ok_eq _ hg] at hb
          have h3 : Except.ok (ε := Err) (acc ++ [b0]) = Except.ok accb :=
            congrArg Prod.fst hb
          injection h3 with h4
          rw [← h4]
          intro b hbmem
          rcases List.mem_append.mp hbmem with hbm | hbm
          · exact hacc b hbm
          · have hb0 : b = b0 := by simpa using hbm
            subst hb0
            have huuid : b.uuid = a := get_logbook_ok_uuid a st b stg trg hg
            intro hbu
            have hau : a = u := by rw [← huuid, hbu]
            rw [hau] at hg
            rw [get_logbook_notFound_of_missing u st hmeta] at hg
            exact Except.noConfusion (congrArg Prod.fst hg)
        | error e =>
          rw [show (_get_logbook a >>= fun b => pure (acc ++ [b])) st =
              M.bind (_get_logbook a) (fun b => pure (acc ++ [b])) st from rfl,
            bind_error_eq _ hg] at hb
          exact Except.noConfusion (congrArg Prod.fst hb)
    | error e =>
      rw [tryCatch_error_eq _ hb] at hs
      cases e with
      | notFound m =>
        have h1 : Except.ok (ε := Err) acc = Except.ok acc1 := congrArg Prod.fst hs
        injection h1 with h2
        rw [← h2]
        exact hacc
      | envError c => exact Except.noConfusion (congrArg Prod.fst hs)
      | storageError m c => exact Except.noConfusion (congrArg Prod.fst hs)
      | valueError m => exact Except.noConfusion (congrArg Prod.fst hs)

theorem fold_omits (u : String) (names : List String) :
    ∀ (acc : List LogBook) (st : St) (r : List LogBook) (st2 : St) (tr2 : List Event),
      st.fs.find (bookPath ++ [u, "metadata"]) = none →
      (∀ b ∈ acc, b.uuid ≠ u) →
      (names.foldlM _get_logbooks.step acc) st = (.ok r, st2, tr2) →
      ∀ b ∈ r, b.uuid ≠ u := by
  induction names with
  | nil =>
    intro acc st r st2 tr2 hmeta hacc hr
    have h1 : Except.ok (ε := Err) acc = Except.ok r := congrArg Prod.fst hr
    injection h1 with h2
    rw [← h2]
    exact hacc
  | cons a as ih =>
    intro acc st r st2 tr2 hmeta hacc hr
    rw [List.foldlM_cons] at hr
    cases hxs : _get_logbooks.step acc a st with
    | mk r1 rest =>
      obtain ⟨st1, tr1⟩ := rest
      cases r1 with
      | ok acc1 =>
        rw [show (_get_logbooks.step acc a >>= as.foldlM _get_logbooks.step) st =
            M.bind (_get_logbooks.step acc a) (as.foldlM _get_logbooks.step) st from rfl,
          bind_ok_eq _ hxs] at hr
        have hfs1 : st1.fs = st.fs := by
          have := fsConst_get_logbooks_step acc a st
          rw [hxs] at this
          exact this
        have hmeta1 : st1.fs.find (bookPath ++ [u, "metadata"]) = none := by
          rw [hfs1]
          exact hmeta
        have hacc1 : ∀ b ∈ acc1, b.uuid ≠ u := step_omits u a acc st hmeta hacc hxs
        have h2 : ((as.foldlM _get_logbooks.step acc1) st1).1 = .ok r :=
          congrArg Prod.fst hr
        have h3 : (as.foldlM _get_logbooks.step acc1) st1 =
            (.ok r, ((as.foldlM _get_logbooks.step acc1) st1).2.1,
              ((as.foldlM _get_logbooks.step acc1) st1).2.2) := by
          rw [← h2]
        exact ih acc1 st1 r _ _ hmeta1 hacc1 h3
      | error e =>
        rw [show (_get_logbooks.step acc a >>= as.foldlM _get_logbooks.step) st =
            M.bind (_get_logbooks.step acc a) (as.foldlM _get_logbooks.step) st from rfl,
          bind_error_eq _ hxs] at hr
        exact Except.noConfusion (congrArg Prod.fst hr)

theorem fsConst_listUuids : FsConst _get_logbooks.listUuids := by
  unfold _get_logbooks.listUuids
  apply fsConst_tryCatch (fsConst_osListSubdirs _)
  intro e
  cases e with
  | envError c =>
    dsimp only
    split
    · exact fsConst_pure _
    · exact fsConst_throw _
  | notFound m => exact fsConst_throw _
  | storageError m c => exact fsConst_throw _
  | valueError m => exact fsConst_throw _

theorem get_logbooks_missing_root (st : St) (h : st.fs.find bookPath = none) :
    get_logbooks st = (.ok [], st, []) := by
  simp [get_logbooks, _get_logbooks, _get_logbooks.listUuids, bind_eq, M.bind,
    M.tryCatch, osListSubdirs, mk, h, pure_eq, M.pure, List.foldlM_nil]

theorem get_logbooks_root_not_dir (st : St) (d : Content) (m : Nat)
    (h : st.fs.find bookPath = some (.file d m)) :
    (get_logbooks st).1 =
      .error (.storageError "Unable to fetch logbooks" (some (.envErrorP ENOTDIR))) := by
  simp [get_logbooks, _get_logbooks, _get_logbooks.listUuids, bind_eq, M.bind,
    M.tryCatch, M.throw, osListSubdirs, mk, h, ENOENT, ENOTDIR]

/-- Amended **C10**: `get_logbooks` never raises `NotFound`; a missing books
root yields the empty sequence with no state change and no lock events;
a books root that is not a directory surfaces as a `StorageError` wrapping
the original environment error; any book whose metadata file is absent (so
its per-book load raises `NotFound`) is silently omitted from the result;
and the enumeration acquires no book or init lock — but it does take the
`flow` (and `task`) tier locks while loading each listed book's children,
so "acquires no tier lock" as claimed is too strong. -/
theorem get_logbooks_contract :
    (∀ st e, (get_logbooks st).1 = .error e → notNF e = true) ∧
    (∀ st, st.fs.find bookPath = none → get_logbooks st = (.ok [], st, [])) ∧
    (∀ st d m, st.fs.find bookPath = some (.file d m) →
      (get_logbooks st).1 =
        .error (.storageError "Unable to fetch logbooks" (some (.envErrorP ENOTDIR)))) ∧
    (∀ st u r st2 tr2, st.fs.find (bookPath ++ [u, "metadata"]) = none →
      get_logbooks st = (.ok r, st2, tr2) → ∀ b ∈ r, b.uuid ≠ u) ∧
    (∀ st, chainOK flowTaskOnly [] (get_logbooks st).2.2 = true) := by
  refine ⟨errOK_get_logbooks, get_logbooks_missing_root, get_logbooks_root_not_dir, ?_, ?_⟩
  · intro st u r st2 tr2 hmeta hok
    unfold get_logbooks at hok
    cases hxs : _get_logbooks st with
    | mk r1 rest =>
      obtain ⟨st1, tr1⟩ := rest
      cases r1 with
      | ok rr =>
        rw [tryCatch_ok_eq _ hxs] at hok
        have h1 : Except.ok (ε := Err) rr = Except.ok r := congrArg Prod.fst hok
        injection h1 with h2
        subst h2
        unfold _get_logbooks at hxs
        cases hg : _get_logbooks.listUuids st with
        | mk rg restg =>
          obtain ⟨stg, trg⟩ := restg
          cases rg with
          | ok names =>
            rw [show (_get_logbooks.listUuids >>= fun l =>
                l.foldlM _get_logbooks.step []) st =
                M.bind _get_logbooks.listUuids
                  (fun l => l.foldlM _get_logbooks.step []) st from rfl,
              bind_ok_eq _ hg] at hxs
            have hfsg : stg.fs = st.fs := by
              have := fsConst_listUuids st
              rw [hg] at this
              exact this
            have hmetag : stg.fs.find (bookPath ++ [u, "metadata"]) = none := by
              rw [hfsg]
              exact hmeta
            have h3 : ((names.foldlM _get_logbooks.step []) stg).1 = .ok rr :=
              congrArg Prod.fst hxs
            have h4 : (names.foldlM _get_logbooks.step []) stg =
                (.ok rr, ((names.foldlM _get_logbooks.step []) stg).2.1,
                  ((names.foldlM _get_logbooks.step []) stg).2.2) := by
              rw [← h3]
            exact fold_omits u names [] stg rr _ _ hmetag
              (fun b hb => absurd hb (List.not_mem_nil b)) h4
          | error e =>
            rw [show (_get_logbooks.listUuids >>= fun l =>
                l.foldlM _get_logbooks.step []) st =
                M.bind _get_logbooks.listUuids
                  (fun l => l.foldlM _get_logbooks.step []) st from rfl,
              bind_error_eq _ hg] at hxs
            exact Except.noConfusion (congrArg Prod.fst hxs)
      | error e =>
        rw [tryCatch_error_eq _ hxs] at hok
        cases e with
        | envError c => exact Except.noConfusion (congrArg Prod.fst hok)
        | notFound m => exact Except.noConfusion (congrArg Prod.fst hok)
        | storageError m c => exact Except.noConfusion (congrArg Prod.fst hok)
        | valueError m => exact Except.noConfusion (congrArg Prod.fst hok)
  · intro st
    exact (trOK_get_logbooks flowTaskOnly [] (by decide) (by decide) st).1

/-- Counterexample to **C10** as claimed: on a populated store the
enumeration does acquire tier locks — loading book `B1`'s flow takes the
`flow` lock and its tasks take the `task` lock. -/
theorem get_logbooks_lock_counterexample :
    Event.acq "flow" ∈ (get_logbooks stBook).2.2 ∧
    Event.acq "task" ∈ (get_logbooks stBook).2.2 :=
  ⟨by decide, by decide⟩

/-- Witness for the amended C10 at a concrete input: on the empty store the
enumeration returns the empty list unchanged. -/
theorem get_logbooks_contract_w :
    st0.fs.find bookPath = none ∧ get_logbooks st0 = (.ok [], st0, []) :=
  ⟨rfl, get_logbooks_contract.2.1 st0 rfl⟩

/-! ### Inversion lemmas for successful runs -/

theorem bind_ok_inv {α β : Type} {x : M α} {f : α → M β} {st : St} {r : β}
    {st2 : St} {tr : List Event} (h : M.bind x f st = (.ok r, st2, tr)) :
    ∃ a st1 tr1 tr2, x st = (.ok a, st1, tr1) ∧ f a st1 = (.ok r, st2, tr2) ∧
      tr = tr1 ++ tr2 := by
  cases hxs : x st with
  | mk r1 rest =>
    obtain ⟨st1, tr1⟩ := rest
    cases r1 with
    | ok a =>
      rw [bind_ok_eq f hxs] at h
      have h1 : (f a st1).1 = .ok r := congrArg Prod.fst h
      have h2 : (f a st1).2.1 = st2 := congrArg (fun z => z.2.1) h
      have h3 : tr1 ++ (f a st1).2.2 = tr := congrArg (fun z => z.2.2) h
      refine ⟨a, st1, tr1, (f a st1).2.2, rfl, ?_, h3.symm⟩
      rw [← h1, ← h2]
    | error e =>
      rw [bind_error_eq f hxs] at h
      exact Except.noConfusion (congrArg Prod.fst h)

theorem bind_error_inv {α β : Type} {x : M α} {f : α → M β} {st : St} {e : Err}
    {st2 : St} {tr : List Event} (h : M.bind x f st = (.error e, st2, tr)) :
    (x st = (.error e, st2, tr)) ∨
    ∃ a st1 tr1 tr2, x st = (.ok a, st1, tr1) ∧ f a st1 = (.error e, st2, tr2) ∧
      tr = tr1 ++ tr2 := by
  cases hxs : x st with
  | mk r1 rest =>
    obtain ⟨st1, tr1⟩ := rest
    cases r1 with
    | ok a =>
      rw [bind_ok_eq f hxs] at h
      have h1 : (f a st1).1 = .error e := congrArg Prod.fst h
      have h2 : (f a st1).2.1 = st2 := congrArg (fun z => z.2.1) h
      have h3 : tr1 ++ (f a st1).2.2 = tr := congrArg (fun z => z.2.2) h
      refine Or.inr ⟨a, st1, tr1, (f a st1).2.2, rfl, ?_, h3.symm⟩
      rw [← h1, ← h2]
    | error e1 =>
      rw [bind_error_eq f hxs] at h
      have h1 : Except.error (α := β) e1 = Except.error e := congrArg Prod.fst h
      injection h1 with h2
      have h3 : st1 = st2 := congrArg (fun z => z.2.1) h
      have h4 : tr1 = tr := congrArg (fun z => z.2.2) h
      subst h2
      subst h3
      subst h4
      exact Or.inl rfl

theorem tryCatch_ok_inv {α : Type} {x : M α} {h : Err → M α} {st : St} {a : α}
    {st2 : St} {tr : List Event} (hr : M.tryCatch x h st = (.ok a, st2, tr)) :
    (x st = (.ok a, st2, tr)) ∨
    ∃ e st1 tr1 tr2, x st = (.error e, st1, tr1) ∧ h e st1 = (.ok a, st2, tr2) ∧
      tr = tr1 ++ tr2 := by
  cases hxs : x st with
  | mk r1 rest =>
    obtain ⟨st1, tr1⟩ := rest
    cases r1 with
    | ok a1 =>
      rw [tryCatch_ok_eq h hxs] at hr
      exact Or.inl hr
    | error e =>
      rw [tryCatch_error_eq h hxs] at hr
      have h1 : (h e st1).1 = .ok a := congrArg Prod.fst hr
      have h2 : (h e st1).2.1 = st2 := congrArg (fun z => z.2.1) hr
      have h3 : tr1 ++ (h e st1).2.2 = tr := congrArg (fun z => z.2.2) hr
      refine Or.inr ⟨e, st1, tr1, (h e st1).2.2, rfl, ?_, h3.symm⟩
      rw [← h1, ← h2]

theorem lock_ok_inv {α : Type} {n : String} {f : M α} {st : St} {a : α}
    {st2 : St} {tr : List Event} (h : _run_with_process_lock n f st = (.ok a, st2, tr)) :
    ∃ tr1, f st = (.ok a, st2, tr1) ∧ tr = .acq n :: (tr1 ++ [.rel n]) := by
  cases hfs : f st with
  | mk r1 rest =>
    obtain ⟨st1, tr1⟩ := rest
    cases r1 with
    | ok a1 =>
      rw [lock_ok_eq n hfs] at h
      have h1 : Except.ok (ε := Err) a1 = Except.ok a := congrArg Prod.fst h
      injection h1 with h2
      subst h2
      have h3 : st1 = st2 := congrArg (fun z => z.2.1) h
      subst h3
      have h4 : Event.acq n :: (tr1 ++ [Event.rel n]) = tr := congrArg (fun z => z.2.2) h
      exact ⟨tr1, rfl, h4.symm⟩
    | error e =>
      by_cases hT : isTaskFlowExc e = true
      · rw [lock_error_tfe_eq n hfs hT] at h
        exact Except.noConfusion (congrArg Prod.fst h)
      · rw [lock_error_wrap_eq n hfs (eq_false_of_ne_true hT)] at h
        exact Except.noConfusion (congrArg Prod.fst h)

/-! ### Frame predicates: preservation at a path, and monotone growth -/

/-- `PreservesAt q c`: running `c` never changes what the filesystem stores
at `q`. -/
def PreservesAt (q : Path) {α : Type} (c : M α) : Prop :=
  ∀ st, (c st).2.1.fs.find q = st.fs.find q

/-- `Growing c`: running `c` never removes a filesystem entry (it may
overwrite or add). -/
def Growing {α : Type} (c : M α) : Prop :=
  ∀ st q, st.fs.find q ≠ none → (c st).2.1.fs.find q ≠ none

theorem preservesAt_of_fsConst {q : Path} {α : Type} {c : M α} (h : FsConst c) :
    PreservesAt q c := by
  intro st
  rw [h st]

theorem growing_of_fsConst {α : Type} {c : M α} (h : FsConst c) : Growing c := by
  intro st q hq
  rw [h st]
  exact hq

theorem preservesAt_bind {q : Path} {α β : Type} {x : M α} {f : α → M β}
    (hx : PreservesAt q x) (hf : ∀ a, PreservesAt q (f a)) : PreservesAt q (x >>= f) := by
  intro st
  show ((M.bind x f) st).2.1.fs.find q = st.fs.find q
  cases hxs : x st with
  | mk r rest =>
    obtain ⟨st1, tr1⟩ := rest
    have h1 : st1.fs.find q = st.fs.find q := by
      have := hx st
      rw [hxs] at this
      exact this
    cases r with
    | ok a =>
      rw [bind_ok_eq f hxs]
      show (f a st1).2.1.fs.find q = st.fs.find q
      rw [hf a st1]
      exact h1
    | error e =>
      rw [bind_error_eq f hxs]
      exact h1

theorem preservesAt_tryCatch {q : Path} {α : Type} {x : M α} {h : Err → M α}
    (hx : PreservesAt q x) (hh : ∀ e, PreservesAt q (h e)) :
    PreservesAt q (M.tryCatch x h) := by
  intro st
  cases hxs : x st with
  | mk r rest =>
    obtain ⟨st1, tr1⟩ := rest
    have h1 : st1.fs.find q = st.fs.find q := by
      have := hx st
      rw [hxs] at this
      exact this
    cases r with
    | ok a =>
      rw [tryCatch_ok_eq h hxs]
      exact h1
    | error e =>
      rw [tryCatch_error_eq h hxs]
      show (h e st1).2.1.fs.find q = st.fs.find q
      rw [hh e st1]
      exact h1

theorem preservesAt_lock {q : Path} {α : Type} (n : String) {f : M α}
    (hf : PreservesAt q f) : PreservesAt q (_run_with_process_lock n f) := by
  intro st
  cases hfs : f st with
  | mk r rest =>
    obtain ⟨st1, tr⟩ := rest
    have h1 : st1.fs.find q = st.fs.find q := by
      have := hf st
      rw [hfs] at this
      exact this
    cases r with
    | ok a =>
      rw [lock_ok_eq n hfs]
      exact h1
    | error e =>
      by_cases hT : isTaskFlowExc e = true
      · rw [lock_error_tfe_eq n hfs hT]
        exact h1
      · rw [lock_error_wrap_eq n hfs (eq_false_of_ne_true hT)]
        exact h1

theorem preservesAt_forM {q : Path} {α : Type} (f : α → M PUnit) (l : List α)
    (hf : ∀ a, PreservesAt q (f a)) : PreservesAt q (l.forM f) := by
  induction l with
  | nil => exact preservesAt_of_fsConst (fsConst_pure _)
  | cons a as ih => exact preservesAt_bind (hf a) (fun _ => ih)

theorem preservesAt_foldlM {q : Path} {α β : Type} (f : β → α → M β) (l : List α)
    (hf : ∀ b a, PreservesAt q (f b a)) : ∀ b, PreservesAt q (l.foldlM f b) := by
  induction l with
  | nil => exact fun b => preservesAt_of_fsConst (fsConst_pure _)
  | cons a as ih => exact fun b => preservesAt_bind (hf b a) (fun b2 => ih b2)

theorem preservesAt_write {q fn : Path} (c : Content) (h : q ≠ fn) :
    PreservesAt q (_write_to fn c) := by
  intro st
  rw [write_to_eq]
  exact find_set_ne st.fs fn q _ h

theorem preservesAt_osSymlink {q : Path} (src tgt : Path) (h : q ≠ tgt) :
    PreservesAt q (osSymlink src tgt) := by
  intro st
  unfold osSymlink mk
  dsimp only
  cases hf : st.fs.find tgt with
  | none => exact find_set_ne st.fs tgt q _ h
  | some n => rfl

theorem growing_bind {α β : Type} {x : M α} {f : α → M β}
    (hx : Growing x) (hf : ∀ a, Growing (f a)) : Growing (x >>= f) := by
  intro st q hq
  show ((M.bind x f) st).2.1.fs.find q ≠ none
  cases hxs : x st with
  | mk r rest =>
    obtain ⟨st1, tr1⟩ := rest
    have h1 : st1.fs.find q ≠ none := by
      have := hx st q hq
      rw [hxs] at this
      exact this
    cases r with
    | ok a =>
      rw [bind_ok_eq f hxs]
      exact hf a st1 q h1
    | error e =>
      rw [bind_error_eq f hxs]
      exact h1

theorem growing_tryCatch {α : Type} {x : M α} {h : Err → M α}
    (hx : Growing x) (hh : ∀ e, Growing (h e)) : Growing (M.tryCatch x h) := by
  intro st q hq
  cases hxs : x st with
  | mk r rest =>
    obtain ⟨st1, tr1⟩ := rest
    have h1 : st1.fs.find q ≠ none := by
      have := hx st q hq
      rw [hxs] at this
      exact this
    cases r with
    | ok a =>
      rw [tryCatch_ok_eq h hxs]
      exact h1
    | error e =>
      rw [tryCatch_error_eq h hxs]
      exact hh e st1 q h1

theorem growing_lock {α : Type} (n : String) {f : M α} (hf : Growing f) :
    Growing (_run_with_process_lock n f) := by
  intro st q hq
  cases hfs : f st with
  | mk r rest =>
    obtain ⟨st1, tr⟩ := rest
    have h1 : st1.fs.find q ≠ none := by
      have := hf st q hq
      rw [hfs] at this
      exact this
    cases r with
    | ok a =>
      rw [lock_ok_eq n hfs]
      exact h1
    | error e =>
      by_cases hT : isTaskFlowExc e = true
      · rw [lock_error_tfe_eq n hfs hT]
        exact h1
      · rw [lock_error_wrap_eq n hfs (eq_false_of_ne_true hT)]
        exact h1

theorem growing_forM {α : Type} (f : α → M PUnit) (l : List α)
    (hf : ∀ a, Growing (f a)) : Growing (l.forM f) := by
  induction l with
  | nil => exact growing_of_fsConst (fsConst_pure _)
  | cons a as ih => exact growing_bind (hf a) (fun _ => ih)

theorem growing_write (fn : Path) (c : Content) : Growing (_write_to fn c) := by
  intro st q hq
  rw [write_to_eq]
  by_cases hqf : q = fn
  · subst hqf
    rw [find_set_self]
    exact fun hh => Option.noConfusion hh
  · rw [find_set_ne st.fs fn q _ hqf]
    exact hq

theorem growing_osSymlink (src tgt : Path) : Growing (osSymlink src tgt) := by
  intro st q hq
  unfold osSymlink mk
  dsimp only
  cases hf : st.fs.find tgt with
  | none =>
    by_cases hqf : q = tgt
    · subst hqf
      rw [find_set_self]
      exact fun hh => Option.noConfusion hh
    · rw [find_set_ne st.fs tgt q _ hqf]
      exact hq
  | some n => exact hq

/-! ### ensureTree lemmas -/

theorem isUnder_append (x y : Path) : isUnder x (x ++ y) = true := by
  induction x with
  | nil => rfl
  | cons a as ih => simp [isUnder, ih]

theorem ensureTreeGo_ok_find (cs : List String) :
    ∀ (fs : FS) (acc : Path) (fs' : FS) (q : Path),
      ensureTreeGo fs acc cs = .ok fs' →
      (isUnder q (acc ++ cs) = false ∨ q.length ≤ acc.length) →
      fs'.find q = fs.find q := by
  induction cs with
  | nil =>
    intro fs acc fs' q hgo hq
    unfold ensureTreeGo at hgo
    injection hgo with h1
    rw [← h1]
  | cons c cs2 ih =>
    intro fs acc fs' q hgo hq
    unfold ensureTreeGo at hgo
    have hassoc : (acc ++ [c]) ++ cs2 = acc ++ (c :: cs2) := by simp
    cases hf : fs.find (acc ++ [c]) with
    | some n =>
      cases n with
      | dir =>
        rw [hf] at hgo
        exact ih fs (acc ++ [c]) fs' q hgo (by
          rcases hq with hq | hq
          · left
            rw [hassoc]
            exact hq
          · right
            calc q.length ≤ acc.length := hq
              _ ≤ (acc ++ [c]).length := by simp
          )
      | file d m =>
        rw [hf] at hgo
        exact Except.noConfusion hgo
      | link t =>
        rw [hf] at hgo
        exact Except.noConfusion hgo
    | none =>
      rw [hf] at hgo
      have hqne : q ≠ acc ++ [c] := by
        intro hqe
        rcases hq with hq | hq
        · rw [hqe, hassoc.symm] at hq
          rw [isUnder_append (acc ++ [c]) cs2] at hq
          exact Bool.noConfusion hq
        · rw [hqe] at hq
          simp at hq
      have := ih (fs.set (acc ++ [c]) .dir) (acc ++ [c]) fs' q hgo (by
        rcases hq with hq | hq
        · left
          rw [hassoc]
          exact hq
        · right
          calc q.length ≤ acc.length := hq
            _ ≤ (acc ++ [c]).length := by simp)
      rw [this]
      exact find_set_ne fs (acc ++ [c]) q _ hqne

theorem ensureTreeGo_grow (cs : List String) :
    ∀ (fs : FS) (acc : Path) (fs' : FS) (q : Path),
      ensureTreeGo fs acc cs = .ok fs' →
      fs.find q ≠ none → fs'.find q ≠ none := by
  induction cs with
  | nil =>
    intro fs acc fs' q hgo hq
    unfold ensureTreeGo at hgo
    injection hgo with h1
    rw [← h1]
    exact hq
  | cons c cs2 ih =>
    intro fs acc fs' q hgo hq
    unfold ensureTreeGo at hgo
    cases hf : fs.find (acc ++ [c]) with
    | some n =>
      cases n with
      | dir =>
        rw [hf] at hgo
        exact ih fs (acc ++ [c]) fs' q hgo hq
      | file d m =>
        rw [hf] at hgo
        exact Except.noConfusion hgo
      | link t =>
        rw [hf] at hgo
        exact Except.noConfusion hgo
    | none =>
      rw [hf] at hgo
      refine ih (fs.set (acc ++ [c]) .dir) (acc ++ [c]) fs' q hgo ?_
      by_cases hqf : q = acc ++ [c]
      · subst hqf
        rw [find_set_self]
        exact fun hh => Option.noConfusion hh
      · rw [find_set_ne fs (acc ++ [c]) q _ hqf]
        exact hq

theorem ensureTreeGo_dir (cs : List String) :
    ∀ (fs : FS) (acc : Path) (fs' : FS),
      ensureTreeGo fs acc cs = .ok fs' → cs ≠ [] →
      fs'.find (acc ++ cs) = some .dir := by
  induction cs with
  | nil => intro fs acc fs' hgo hne; exact absurd rfl hne
  | cons c cs2 ih =>
    intro fs acc fs' hgo hne
    unfold ensureTreeGo at hgo
    have hassoc : (acc ++ [c]) ++ cs2 = acc ++ (c :: cs2) := by simp
    by_cases hcs2 : cs2 = []
    · subst hcs2
      cases hf : fs.find (acc ++ [c]) with
      | some n =>
        cases n with
        | dir =>
          rw [hf] at hgo
          unfold ensureTreeGo at hgo
          injection hgo with h1
          rw [← h1]
          simpa using hf
        | file d m =>
          rw [hf] at hgo
          exact Except.noConfusion hgo
        | link t =>
          rw [hf] at hgo
          exact Except.noConfusion hgo
      | none =>
        rw [hf] at hgo
        unfold ensureTreeGo at hgo
        injection hgo with h1
        rw [← h1]
        have := find_set_self fs (acc ++ [c]) .dir
        simpa using this
    · cases hf : fs.find (acc ++ [c]) with
      | some n =>
        cases n with
        | dir =>
          rw [hf] at hgo
          have := ih fs (acc ++ [c]) fs' hgo hcs2
          rw [hassoc] at this
          exact this
        | file d m =>
          rw [hf] at hgo
          exact Except.noConfusion hgo
        | link t =>
          rw [hf] at hgo
          exact Except.noConfusion hgo
      | none =>
        rw [hf] at hgo
        have := ih (fs.set (acc ++ [c]) .dir) (acc ++ [c]) fs' hgo hcs2
        rw [hassoc] at this
        exact this

theorem preservesAt_ensureTree (p q : Path) (h : isUnder q p = false ∨ q = []) :
    PreservesAt q (ensureTree p) := by
  intro st
  unfold ensureTree
  cases het : ensureTreeGo st.fs [] p with
  | ok fs2 =>
    exact ensureTreeGo_ok_find p st.fs [] fs2 q het (by
      rcases h with h | h
      · exact Or.inl h
      · right
        rw [h])
  | error e => rfl

theorem growing_ensureTree (p : Path) : Growing (ensureTree p) := by
  intro st q hq
  unfold ensureTree
  cases het : ensureTreeGo st.fs [] p with
  | ok fs2 => exact ensureTreeGo_grow p st.fs [] fs2 q het hq
  | error e => exact hq

theorem ensureTree_ok_inv {p : Path} {st : St} {st2 : St} {tr : List Event}
    (h : ensureTree p st = (.ok (), st2, tr)) :
    ∃ fs2, ensureTreeGo st.fs [] p = .ok fs2 ∧ st2 = { st with fs := fs2 } ∧ tr = [] := by
  unfold ensureTree at h
  cases het : ensureTreeGo st.fs [] p with
  | ok fs2 =>
    rw [het] at h
    have h2 : ({ st with fs := fs2 } : St) = st2 := congrArg (fun z => z.2.1) h
    have h3 : ([] : List Event) = tr := congrArg (fun z => z.2.2) h
    exact ⟨fs2, rfl, h2.symm, h3.symm⟩
  | error e =>
    rw [het] at h
    exact Except.noConfusion (congrArg Prod.fst h)

/-! ### Pure facts about the merge folds -/

theorem mergeFold_keeps (l : List TaskDetail) :
    ∀ (acc : FlowDetail) (td0 : TaskDetail), td0 ∈ acc.tasks →
      td0 ∈ (l.foldl (fun acc td =>
        if (acc.find td.uuid).isNone then acc.add td else acc) acc).tasks := by
  induction l with
  | nil => exact fun acc td0 h => h
  | cons td l ih =>
    intro acc td0 h
    rw [List.foldl_cons]
    by_cases hf : (acc.find td.uuid).isNone = true
    · rw [if_pos hf]
      exact ih _ td0 (List.mem_append_left _ h)
    · rw [if_neg hf]
      exact ih _ td0 h

theorem mergeFold_adds (l : List TaskDetail) :
    ∀ (acc : FlowDetail) (u2 : String), (∃ td ∈ l, td.uuid = u2) →
      ∃ td2 ∈ (l.foldl (fun acc td =>
        if (acc.find td.uuid).isNone then acc.add td else acc) acc).tasks,
        td2.uuid = u2 := by
  induction l with
  | nil =>
    intro acc u2 h
    obtain ⟨td, htd, _⟩ := h
    exact absurd htd (List.not_mem_nil td)
  | cons td l ih =>
    intro acc u2 h
    obtain ⟨td1, htd1, hu⟩ := h
    rw [List.foldl_cons]
    rcases List.mem_cons.mp htd1 with he | hm
    · subst he
      by_cases hf : (acc.find td1.uuid).isNone = true
      · rw [if_pos hf]
        refine ⟨td1, mergeFold_keeps l _ td1 ?_, hu⟩
        exact List.mem_append_right _ (List.mem_singleton.mpr rfl)
      · rw [if_neg hf]
        have hne : acc.find td1.uuid ≠ none := by
          intro hnone
          rw [hnone] at hf
          exact hf rfl
        obtain ⟨td2, hsome⟩ := Option.ne_none_iff_exists'.mp hne
        have hsome2 : acc.tasks.find? (fun x => x.uuid == td1.uuid) = some td2 := hsome
        have hmem : td2 ∈ acc.tasks := List.mem_of_find?_eq_some hsome2
        have hbeq := List.find?_some (p := fun x : TaskDetail => x.uuid == td1.uuid) hsome2
        have hequ : td2.uuid = td1.uuid := eq_of_beq hbeq
        exact ⟨td2, mergeFold_keeps l acc td2 hmem, by rw [hequ, hu]⟩
    · by_cases hf : (acc.find td.uuid).isNone = true
      · rw [if_pos hf]
        exact ih _ u2 ⟨td1, hm, hu⟩
      · rw [if_neg hf]
        exact ih _ u2 ⟨td1, hm, hu⟩

theorem mergeFold_uuid (l : List TaskDetail) :
    ∀ acc : FlowDetail, (l.foldl (fun acc td =>
      if (acc.find td.uuid).isNone then acc.add td else acc) acc).uuid = acc.uuid := by
  induction l with
  | nil => exact fun acc => rfl
  | cons td l ih =>
    intro acc
    rw [List.foldl_cons]
    by_cases hf : (acc.find td.uuid).isNone = true
    · rw [if_pos hf]
      exact ih _
    · rw [if_neg hf]
      exact ih _

theorem bookFold_keeps (l : List FlowDetail) :
    ∀ (acc : LogBook) (fd0 : FlowDetail), fd0 ∈ acc.flows →
      fd0 ∈ (l.foldl (fun acc fd =>
        if (acc.find fd.uuid).isNone then acc.add fd else acc) acc).flows := by
  induction l with
  | nil => exact fun acc fd0 h => h
  | cons fd l ih =>
    intro acc fd0 h
    rw [List.foldl_cons]
    by_cases hf : (acc.find fd.uuid).isNone = true
    · rw [if_pos hf]
      exact ih _ fd0 (List.mem_append_left _ h)
    · rw [if_neg hf]
      exact ih _ fd0 h

theorem bookFold_adds (l : List FlowDetail) :
    ∀ (acc : LogBook) (u2 : String), (∃ fd ∈ l, fd.uuid = u2) →
      ∃ fd2 ∈ (l.foldl (fun acc fd =>
        if (acc.find fd.uuid).isNone then acc.add fd else acc) acc).flows,
        fd2.uuid = u2 := by
  induction l with
  | nil =>
    intro acc u2 h
    obtain ⟨fd, hfd, _⟩ := h
    exact absurd hfd (List.not_mem_nil fd)
  | cons fd l ih =>
    intro acc u2 h
    obtain ⟨fd1, hfd1, hu⟩ := h
    rw [List.foldl_cons]
    rcases List.mem_cons.mp hfd1 with he | hm
    · subst he
      by_cases hf : (acc.find fd1.uuid).isNone = true
      · rw [if_pos hf]
        refine ⟨fd1, bookFold_keeps l _ fd1 ?_, hu⟩
        exact List.mem_append_right _ (List.mem_singleton.mpr rfl)
      · rw [if_neg hf]
        have hne : acc.find fd1.uuid ≠ none := by
          intro hnone
          rw [hnone] at hf
          exact hf rfl
        obtain ⟨fd2, hsome⟩ := Option.ne_none_iff_exists'.mp hne
        have hsome2 : acc.flows.find? (fun x => x.uuid == fd1.uuid) = some fd2 := hsome
        have hmem : fd2 ∈ acc.flows := List.mem_of_find?_eq_some hsome2
        have hbeq := List.find?_some (p := fun x : FlowDetail => x.uuid == fd1.uuid) hsome2
        have hequ : fd2.uuid = fd1.uuid := eq_of_beq hbeq
        exact ⟨fd2, bookFold_keeps l acc fd2 hmem, by rw [hequ, hu]⟩
    · by_cases hf : (acc.find fd.uuid).isNone = true
      · rw [if_pos hf]
        exact ih _ u2 ⟨fd1, hm, hu⟩
      · rw [if_neg hf]
        exact ih _ u2 ⟨fd1, hm, hu⟩

theorem bookFold_uuid (l : List FlowDetail) :
    ∀ acc : LogBook, (l.foldl (fun acc fd =>
      if (acc.find fd.uuid).isNone then acc.add fd else acc) acc).uuid = acc.uuid := by
  induction l with
  | nil => exact fun acc => rfl
  | cons fd l ih =>
    intro acc
    rw [List.foldl_cons]
    by_cases hf : (acc.find fd.uuid).isNone = true
    · rw [if_pos hf]
      exact ih _
    · rw [if_neg hf]
      exact ih _

theorem retP_unformatFlowDetail (u : String) (c : Content) :
    RetP (fun fd => fd.uuid = u) (mLift (unformatFlowDetail u c)) := by
  intro st b st1 tr hb
  cases c with
  | flowC m2 =>
    have h1 : Except.ok (ε := Err) ({ uuid := u, meta := m2, tasks := [] } : FlowDetail) =
        Except.ok b := congrArg Prod.fst hb
    injection h1 with h2
    rw [← h2]
  | raw s2 => exact Except.noConfusion (congrArg Prod.fst hb)
  | taskC d => exact Except.noConfusion (congrArg Prod.fst hb)
  | bookC bm => exact Except.noConfusion (congrArg Prod.fst hb)

/-- A loaded flow's uuid is the uuid it was requested under. -/
theorem get_flow_details_ok_uuid (u : String) (lk : Bool) :
    RetP (fun f => f.uuid = u) (_get_flow_details u lk) := by
  have hgo : RetP (fun f : FlowDetail => f.uuid = u) (_get_flow_details._get u) := by
    unfold _get_flow_details._get
    apply retP_bind (Q := fun f : FlowDetail => f.uuid = u) (R := fun _ => True)
      (retP_trivial _)
    intro metaC _
    apply retP_bind (Q := fun f : FlowDetail => f.uuid = u) (R := fun _ => True)
      (retP_trivial _)
    intro c _
    apply retP_bind (Q := fun f : FlowDetail => f.uuid = u)
      (R := fun f : FlowDetail => f.uuid = u) (retP_unformatFlowDetail u c)
    intro fd hfd
    apply retP_bind (Q := fun f : FlowDetail => f.uuid = u) (R := fun _ => True)
      (retP_trivial _)
    intro names _
    exact retP_foldlM (Q := fun f : FlowDetail => f.uuid = u)
      (fun fd tUuid => do
        let td ← _get_task_details tUuid true
        pure (fd.add td)) names
      (fun b a hQ => retP_bind (R := fun _ => True) (retP_trivial _)
        (fun td _ => retP_pure (a := b.add td) hQ)) fd hfd
  cases lk with
  | false => exact hgo
  | true => exact retP_lock "flow" hgo

/-! ### Growing facts for the save helpers -/

theorem growing_save_task_details (td : TaskDetail) (im : Bool) :
    Growing (_save_task_details td im) := by
  unfold _save_task_details
  apply growing_bind
  · apply growing_tryCatch
    · exact growing_of_fsConst (fsConst_bind (fsConst_get_task_details _ false)
        (fun t => fsConst_pure _))
    · intro e
      apply growing_of_fsConst
      cases e with
      | envError c =>
        dsimp only
        cases im with
        | true => exact fsConst_pure _
        | false => exact fsConst_throw _
      | notFound m => exact fsConst_throw _
      | storageError m c => exact fsConst_throw _
      | valueError m => exact fsConst_throw _
  · intro e_td
    exact growing_bind (growing_write _ _) (fun _ => growing_of_fsConst (fsConst_pure _))

theorem growing_linkErrHandler (e : Err) : Growing (linkErrHandler e) := by
  apply growing_of_fsConst
  intro st
  cases e with
  | envError c =>
    show ((if c = EEXIST then M.pure () else M.throw (Err.envError c)) st).2.1.fs = st.fs
    by_cases hc : c = EEXIST
    · rw [if_pos hc]
      rfl
    · rw [if_neg hc]
      rfl
  | notFound m => rfl
  | storageError m c => rfl
  | valueError m => rfl

theorem growing_save_tasks_and_link (tds : List TaskDetail) (lp : Path) :
    Growing (_save_tasks_and_link tds lp) := by
  apply growing_forM
  intro td
  apply growing_bind (growing_save_task_details _ _)
  intro x
  exact growing_tryCatch (growing_osSymlink _ _) growing_linkErrHandler

theorem growing_save_flow_details (fd : FlowDetail) (im : Bool) :
    Growing (_save_flow_details fd im) := by
  unfold _save_flow_details
  apply growing_bind
  · apply growing_tryCatch
    · exact growing_of_fsConst (fsConst_bind (fsConst_get_flow_details _ false)
        (fun f => fsConst_pure _))
    · intro e
      apply growing_of_fsConst
      cases e with
      | envError c =>
        dsimp only
        cases im with
        | true => exact fsConst_pure _
        | false => exact fsConst_throw _
      | notFound m => exact fsConst_throw _
      | storageError m c => exact fsConst_throw _
      | valueError m => exact fsConst_throw _
  · intro e_fd
    apply growing_bind (growing_ensureTree _)
    intro x1
    apply growing_bind (growing_write _ _)
    intro x2
    dsimp only
    split
    · exact growing_bind (growing_of_fsConst (fsConst_pure _))
        (fun y => growing_of_fsConst (fsConst_pure _))
    · apply growing_bind (growing_ensureTree _)
      intro x3
      apply growing_bind (growing_lock "task" (growing_save_tasks_and_link _ _))
      intro y
      exact growing_of_fsConst (fsConst_pure _)

/-! ### Links present after the link helpers -/

theorem save_tasks_and_link_links (lp : Path) : ∀ (tds : List TaskDetail) (st st2 : St)
    (tr : List Event), _save_tasks_and_link tds lp st = (.ok (), st2, tr) →
      ∀ td ∈ tds, st2.fs.find (lp ++ [td.uuid]) ≠ none := by
  intro tds
  induction tds with
  | nil =>
    intro st st2 tr h td htd
    exact absurd htd (List.not_mem_nil td)
  | cons td0 rest ih =>
    intro st st2 tr h td htd
    have h1 : M.bind (M.bind (_save_task_details td0 true)
        (fun x => M.tryCatch (osSymlink (taskPath ++ [td0.uuid]) (lp ++ [td0.uuid]))
          linkErrHandler))
        (fun x => _save_tasks_and_link rest lp) st = (.ok (), st2, tr) := h
    obtain ⟨x, stA, trA, trB, hbody, hrest, _⟩ := bind_ok_inv h1
    obtain ⟨td0s, stT, trT1, trT2, hsave, hlink, _⟩ := bind_ok_inv hbody
    have hlinkA : stA.fs.find (lp ++ [td0.uuid]) ≠ none := by
      cases hfind : stT.fs.find (lp ++ [td0.uuid]) with
      | none =>
        rw [tryLink_absent _ _ _ hfind] at hlink
        have hA : ({ stT with fs := stT.fs.set (lp ++ [td0.uuid]) (.link (taskPath ++ [td0.uuid])) } : St) = stA :=
          congrArg (fun z => z.2.1) hlink
        rw [← hA]
        show (stT.fs.set (lp ++ [td0.uuid]) (.link (taskPath ++ [td0.uuid]))).find
          (lp ++ [td0.uuid]) ≠ none
        rw [find_set_self]
        exact fun hh => Option.noConfusion hh
      | some n =>
        rw [tryLink_existing _ _ _ n hfind] at hlink
        have hA : stT = stA := congrArg (fun z => z.2.1) hlink
        rw [← hA, hfind]
        exact fun hh => Option.noConfusion hh
    rcases List.mem_cons.mp htd with he | hm
    · subst he
      have hrest2 : List.forM rest (fun td1 => M.bind (_save_task_details td1 true)
          (fun x => M.tryCatch (osSymlink (taskPath ++ [td1.uuid]) (lp ++ [td1.uuid]))
            linkErrHandler)) stA = (.ok (), st2, trB) := hrest
      have hg := growing_forM (fun td1 => M.bind (_save_task_details td1 true)
          (fun x => M.tryCatch (osSymlink (taskPath ++ [td1.uuid]) (lp ++ [td1.uuid]))
            linkErrHandler)) rest
        (fun a => growing_bind (growing_save_task_details _ _)
          (fun x => growing_tryCatch (growing_osSymlink _ _) growing_linkErrHandler))
        stA (lp ++ [td.uuid]) hlinkA
      rw [hrest2] at hg
      exact hg
    · exact ih stA st2 trB hrest td hm

theorem save_flows_and_link_links (lp : Path) : ∀ (fds : List FlowDetail) (st st2 : St)
    (tr : List Event), _save_flows_and_link fds lp st = (.ok (), st2, tr) →
      ∀ fd ∈ fds, st2.fs.find (lp ++ [fd.uuid]) ≠ none := by
  intro fds
  induction fds with
  | nil =>
    intro st st2 tr h fd hfd
    exact absurd hfd (List.not_mem_nil fd)
  | cons fd0 rest ih =>
    intro st st2 tr h fd hfd
    have h1 : M.bind (M.bind (_save_flow_details fd0 true)
        (fun x => M.tryCatch (osSymlink (flowPath ++ [fd0.uuid]) (lp ++ [fd0.uuid]))
          linkErrHandler))
        (fun x => _save_flows_and_link rest lp) st = (.ok (), st2, tr) := h
    obtain ⟨x, stA, trA, trB, hbody, hrest, _⟩ := bind_ok_inv h1
    obtain ⟨fd0s, stT, trT1, trT2, hsave, hlink, _⟩ := bind_ok_inv hbody
    have hlinkA : stA.fs.find (lp ++ [fd0.uuid]) ≠ none := by
      cases hfind : stT.fs.find (lp ++ [fd0.uuid]) with
      | none =>
        rw [tryLink_absent _ _ _ hfind] at hlink
        have hA : ({ stT with fs := stT.fs.set (lp ++ [fd0.uuid]) (.link (flowPath ++ [fd0.uuid])) } : St) = stA :=
          congrArg (fun z => z.2.1) hlink
        rw [← hA]
        show (stT.fs.set (lp ++ [fd0.uuid]) (.link (flowPath ++ [fd0.uuid]))).find
          (lp ++ [fd0.uuid]) ≠ none
        rw [find_set_self]
        exact fun hh => Option.noConfusion hh
      | some n =>
        rw [tryLink_existing _ _ _ n hfind] at hlink
        have hA : stT = stA := congrArg (fun z => z.2.1) hlink
        rw [← hA, hfind]
        exact fun hh => Option.noConfusion hh
    rcases List.mem_cons.mp hfd with he | hm
    · subst he
      have hrest2 : List.forM rest (fun fd1 => M.bind (_save_flow_details fd1 true)
          (fun x => M.tryCatch (osSymlink (flowPath ++ [fd1.uuid]) (lp ++ [fd1.uuid]))
            linkErrHandler)) stA = (.ok (), st2, trB) := hrest
      have hg := growing_forM (fun fd1 => M.bind (_save_flow_details fd1 true)
          (fun x => M.tryCatch (osSymlink (flowPath ++ [fd1.uuid]) (lp ++ [fd1.uuid]))
            linkErrHandler)) rest
        (fun a => growing_bind (growing_save_flow_details _ _)
          (fun x => growing_tryCatch (growing_osSymlink _ _) growing_linkErrHandler))
        stA (lp ++ [fd.uuid]) hlinkA
      rw [hrest2] at hg
      exact hg
    · exact ih stA st2 trB hrest fd hm

/-! ### Frame lemmas: the flow/task phases never touch book-tier paths -/

theorem fsConst_linkErrHandler (e : Err) : FsConst (linkErrHandler e) := by
  intro st
  cases e with
  | envError c =>
    show ((if c = EEXIST then M.pure () else M.throw (Err.envError c)) st).2.1.fs = st.fs
    by_cases hc : c = EEXIST
    · rw [if_pos hc]
      rfl
    · rw [if_neg hc]
      rfl
  | notFound m => rfl
  | storageError m c => rfl
  | valueError m => rfl

theorem books_head_elim (q : Path) (hq : q.head? = some "books") :
    ∃ qt, q = "books" :: qt := by
  cases q with
  | nil => exact Option.noConfusion hq
  | cons a qt =>
    have h1 : some a = some "books" := hq
    injection h1 with h2
    exact ⟨qt, by rw [h2]⟩

theorem books_ne_taskPath (q : Path) (hq : q.head? = some "books") :
    ∀ t : String, q ≠ taskPath ++ [t] := by
  intro t h
  rw [h] at hq
  have h1 : some "tasks" = some "books" := hq
  injection h1 with h2
  exact absurd h2 (by decide)

theorem books_ne_under_flowPath (q : Path) (hq : q.head? = some "books") (p : Path) :
    isUnder q (flowPath ++ p) = false := by
  obtain ⟨qt, hqt⟩ := books_head_elim q hq
  rw [hqt]
  show (("books" == "flows") && isUnder qt p) = false
  rw [show ("books" == "flows") = false from by decide]
  rfl

theorem books_ne_flow_paths (q : Path) (hq : q.head? = some "books") (p : Path) :
    q ≠ flowPath ++ p := by
  intro h
  rw [h] at hq
  have h1 : some "flows" = some "books" := hq
  injection h1 with h2
  exact absurd h2 (by decide)

theorem books_ne_flow_sub_paths (q : Path) (hq : q.head? = some "books") (p : Path)
    (t : String) : q ≠ (flowPath ++ p) ++ [t] := by
  intro h
  rw [h] at hq
  have h1 : some "flows" = some "books" := hq
  injection h1 with h2
  exact absurd h2 (by decide)

theorem preservesAt_save_task_details (q : Path) (td : TaskDetail) (im : Bool)
    (h : ∀ t : String, q ≠ taskPath ++ [t]) :
    PreservesAt q (_save_task_details td im) := by
  unfold _save_task_details
  apply preservesAt_bind
  · apply preservesAt_tryCatch
    · exact preservesAt_of_fsConst (fsConst_bind (fsConst_get_task_details _ false)
        (fun t => fsConst_pure _))
    · intro e
      apply preservesAt_of_fsConst
      cases e with
      | envError c =>
        dsimp only
        cases im with
        | true => exact fsConst_pure _
        | false => exact fsConst_throw _
      | notFound m => exact fsConst_throw _
      | storageError m c => exact fsConst_throw _
      | valueError m => exact fsConst_throw _
  · intro e_td
    exact preservesAt_bind (preservesAt_write _ (h _))
      (fun x => preservesAt_of_fsConst (fsConst_pure _))

theorem preservesAt_save_tasks_and_link (q : Path) (tds : List TaskDetail) (lp : Path)
    (h1 : ∀ t : String, q ≠ taskPath ++ [t]) (h2 : ∀ t : String, q ≠ lp ++ [t]) :
    PreservesAt q (_save_tasks_and_link tds lp) := by
  apply preservesAt_forM
  intro td
  apply preservesAt_bind (preservesAt_save_task_details q _ _ h1)
  intro x
  exact preservesAt_tryCatch (preservesAt_osSymlink _ _ (h2 _))
    (fun e => preservesAt_of_fsConst (fsConst_linkErrHandler e))

theorem preservesAt_books_save_flow_details (q : Path) (fd : FlowDetail) (im : Bool)
    (hq : q.head? = some "books") :
    PreservesAt q (_save_flow_details fd im) := by
  unfold _save_flow_details
  apply preservesAt_bind
  · apply preservesAt_tryCatch
    · exact preservesAt_of_fsConst (fsConst_bind (fsConst_get_flow_details _ false)
        (fun f => fsConst_pure _))
    · intro e
      apply preservesAt_of_fsConst
      cases e with
      | envError c =>
        dsimp only
        cases im with
        | true => exact fsConst_pure _
        | false => exact fsConst_throw _
      | notFound m => exact fsConst_throw _
      | storageError m c => exact fsConst_throw _
      | valueError m => exact fsConst_throw _
  · intro e_fd
    apply preservesAt_bind (preservesAt_ensureTree _ _
      (Or.inl (books_ne_under_flowPath q hq _)))
    intro x1
    apply preservesAt_bind (preservesAt_write _ (books_ne_flow_paths q hq _))
    intro x2
    dsimp only
    split
    · exact preservesAt_bind (preservesAt_of_fsConst (fsConst_pure _))
        (fun y => preservesAt_of_fsConst (fsConst_pure _))
    · apply preservesAt_bind (preservesAt_ensureTree _ _
        (Or.inl (books_ne_under_flowPath q hq _)))
      intro x3
      apply preservesAt_bind (preservesAt_lock "task"
        (preservesAt_save_tasks_and_link q _ _ (books_ne_taskPath q hq)
          (fun t => books_ne_flow_sub_paths q hq _ t)))
      intro y
      exact preservesAt_of_fsConst (fsConst_pure _)

theorem preservesAt_save_flows_and_link (q : Path) (fds : List FlowDetail) (lp : Path)
    (hq : q.head? = some "books") (h2 : ∀ f : String, q ≠ lp ++ [f]) :
    PreservesAt q (_save_flows_and_link fds lp) := by
  apply preservesAt_forM
  intro fd
  apply preservesAt_bind (preservesAt_books_save_flow_details q _ _ hq)
  intro x
  exact preservesAt_tryCatch (preservesAt_osSymlink _ _ (h2 _))
    (fun e => preservesAt_of_fsConst (fsConst_linkErrHandler e))

/-! ### Path disequality helpers -/

theorem append_last_ne (p : Path) (u a b : String) (hab : a ≠ b) :
    (p ++ [u, a] : Path) ≠ p ++ [u, b] := by
  intro h
  induction p with
  | nil =>
    injection h with h1 h2
    injection h2 with h3 _
    exact hab h3
  | cons x xs ih =>
    injection h with _ h2
    exact ih h2

theorem ne_append_singleton (p : Path) (t : String) : p ≠ p ++ [t] := by
  intro h
  have h2 := congrArg List.length h
  simp at h2

theorem isUnder_child_false (r u c : String) :
    isUnder ([r] ++ [u, c]) ([r] ++ [u]) = false := by
  show ((r == r) && ((u == u) && false)) = false
  simp

theorem flowsub_ne_taskPath (u c : String) :
    ∀ t : String, (flowPath ++ [u, c] : Path) ≠ taskPath ++ [t] := by
  intro t h
  have h2 := congrArg List.length h
  simp [flowPath, taskPath] at h2

/-- Everything a successful `_save_flow_details` run guarantees, given that
the preliminary (lockless) load of the stored flow succeeds: the returned
flow is the task-union merge of stored and incoming versions; every merged
task has its child-index link present afterwards; with no merged tasks the
run adds no trace beyond the load's and leaves the child-index directory
entry untouched; with merged tasks it acquires the task lock and leaves the
child-index directory in place. -/
theorem save_flow_details_ok_extract (fd : FlowDetail) (im : Bool) (st : St)
    (efd : FlowDetail) (st1 : St) (tr1 : List Event)
    (fd2 : FlowDetail) (st2 : St) (tr2 : List Event)
    (hg : _get_flow_details fd.uuid false st = (.ok efd, st1, tr1))
    (hs : _save_flow_details fd im st = (.ok fd2, st2, tr2)) :
    fd2 = fd.tasks.foldl (fun acc td =>
        if (acc.find td.uuid).isNone then acc.add td else acc)
      (flow_details_merge efd fd) ∧
    (∀ td ∈ fd2.tasks,
      st2.fs.find ((flowPath ++ [fd2.uuid, "tasks"]) ++ [td.uuid]) ≠ none) ∧
    (fd2.tasks = [] → tr2 = tr1 ∧
      st2.fs.find (flowPath ++ [fd2.uuid, "tasks"]) =
        st1.fs.find (flowPath ++ [fd2.uuid, "tasks"])) ∧
    (fd2.tasks ≠ [] → Event.acq "task" ∈ tr2 ∧
      st2.fs.find (flowPath ++ [fd2.uuid, "tasks"]) = some .dir) := by
  unfold _save_flow_details at hs
  obtain ⟨eOpt, stA, trA, trB, hA, hB, htr⟩ := bind_ok_inv hs
  have hbody : (M.bind (_get_flow_details fd.uuid false) (fun f => M.pure (some f))) st
      = (.ok (some efd), st1, tr1 ++ []) := by
    rw [bind_ok_eq _ hg]
    rfl
  have hA2 : (Except.ok (ε := Err) (some efd), st1, tr1 ++ ([] : List Event))
      = (.ok eOpt, stA, trA) := by
    rcases tryCatch_ok_inv hA with hcase | ⟨e, stE0, trE0, trE1, herr, _, _⟩
    · exact hbody.symm.trans hcase
    · exact absurd (congrArg Prod.fst (hbody.symm.trans herr))
        (fun hh => Except.noConfusion hh)
  have heOpt : some efd = eOpt := by
    have h1 : Except.ok (ε := Err) (some efd) = Except.ok eOpt := congrArg Prod.fst hA2
    injection h1
  have hstA : st1 = stA := congrArg (fun z => z.2.1) hA2
  have htrA : tr1 ++ ([] : List Event) = trA := congrArg (fun z => z.2.2) hA2
  subst heOpt
  subst hstA
  obtain ⟨x1, stC, trC1, trC2, hEns, hB2, htrB⟩ := bind_ok_inv hB
  obtain ⟨x2, stD, trD1, trD2, hWr, hB3, htrC⟩ := bind_ok_inv hB2
  obtain ⟨fsC, hgoC, hstC, htrEns⟩ := ensureTree_ok_inv hEns
  have htrWr : trD1 = [] := by
    have h1 := congrArg (fun z => z.2.2) hWr
    exact h1.symm.trans ((congrArg (fun z => z.2.2) (write_to_eq _ _ stC)))
  by_cases hlen : (fd.tasks.foldl (fun acc td =>
      if (acc.find td.uuid).isNone then acc.add td else acc)
    (flow_details_merge efd fd)).tasks.length = 0
  · rw [if_pos hlen] at hB3
    have hthen : (M.bind (M.pure ()) (fun y => M.pure (fd.tasks.foldl (fun acc td =>
        if (acc.find td.uuid).isNone then acc.add td else acc)
      (flow_details_merge efd fd)))) stD = (.ok (fd.tasks.foldl (fun acc td =>
        if (acc.find td.uuid).isNone then acc.add td else acc)
      (flow_details_merge efd fd)), stD, ([] : List Event)) := rfl
    have h6 := hthen.symm.trans hB3
    have hfd2 : Except.ok (ε := Err) (fd.tasks.foldl (fun acc td =>
        if (acc.find td.uuid).isNone then acc.add td else acc)
      (flow_details_merge efd fd)) = Except.ok fd2 := congrArg Prod.fst h6
    injection hfd2 with hfd2e
    have hstD : stD = st2 := congrArg (fun z => z.2.1) h6
    have htrD : ([] : List Event) = trD2 := congrArg (fun z => z.2.2) h6
    have htasks : fd2.tasks = [] := by
      rw [← hfd2e]
      exact List.eq_nil_of_length_eq_zero hlen
    refine ⟨hfd2e.symm, ?_, ?_, ?_⟩
    · intro td htd
      rw [htasks] at htd
      exact absurd htd (List.not_mem_nil td)
    · intro _
      constructor
      · rw [htr, htrB, htrC, ← htrA, htrEns, htrWr, ← htrD]
        simp
      · have hq1 : stC.fs.find (flowPath ++ [fd2.uuid, "tasks"]) =
            st1.fs.find (flowPath ++ [fd2.uuid, "tasks"]) := by
          rw [hstC]
          show fsC.find (flowPath ++ [fd2.uuid, "tasks"]) =
            st1.fs.find (flowPath ++ [fd2.uuid, "tasks"])
          refine ensureTreeGo_ok_find _ _ _ _ _ hgoC (Or.inl ?_)
          rw [← hfd2e, mergeFold_uuid]
          show isUnder (flowPath ++ [efd.uuid, "tasks"])
            ([] ++ (flowPath ++ [efd.uuid])) = false
          rw [List.nil_append]
          exact isUnder_child_false "flows" efd.uuid "tasks"
        have hq2 : stD.fs.find (flowPath ++ [fd2.uuid, "tasks"]) =
            stC.fs.find (flowPath ++ [fd2.uuid, "tasks"]) := by
          have hne2 : (flowPath ++ [fd2.uuid, "tasks"] : Path) ≠
              flowPath ++ [(fd.tasks.foldl (fun acc td =>
                if (acc.find td.uuid).isNone then acc.add td else acc)
              (flow_details_merge efd fd)).uuid, "metadata"] := by
            rw [← hfd2e, mergeFold_uuid]
            exact append_last_ne flowPath (flow_details_merge efd fd).uuid
              "tasks" "metadata" (by decide)
          have h7 := preservesAt_write (q := flowPath ++ [fd2.uuid, "tasks"])
            (formatFlowDetail (fd.tasks.foldl (fun acc td =>
              if (acc.find td.uuid).isNone then acc.add td else acc)
            (flow_details_merge efd fd))) hne2 stC
          rw [hWr] at h7
          exact h7
        rw [← hstD, hq2, hq1]
    · intro hne
      exact absurd htasks hne
  · rw [if_neg hlen] at hB3
    obtain ⟨x3, stE, trE1, trE2, hEns2, hB4, htrD⟩ := bind_ok_inv hB3
    obtain ⟨y, stF, trF1, trF2, hLock, hJp, htrE⟩ := bind_ok_inv hB4
    obtain ⟨trL, hSTL, htrLk⟩ := lock_ok_inv hLock
    cases y
    have hfd2 : Except.ok (ε := Err) (fd.tasks.foldl (fun acc td =>
        if (acc.find td.uuid).isNone then acc.add td else acc)
      (flow_details_merge efd fd)) = Except.ok fd2 := congrArg Prod.fst hJp
    injection hfd2 with hfd2e
    have hstF : stF = st2 := congrArg (fun z => z.2.1) hJp
    obtain ⟨fsE, hgoE, hstE, htrEns2⟩ := ensureTree_ok_inv hEns2
    have hdirE : stE.fs.find (flowPath ++ [fd2.uuid, "tasks"]) = some .dir := by
      rw [hstE]
      show fsE.find (flowPath ++ [fd2.uuid, "tasks"]) = some Node.dir
      rw [← hfd2e, mergeFold_uuid]
      have h8 := ensureTreeGo_dir _ _ _ _ hgoE (by
        intro hh
        have h9 := congrArg List.length hh
        simp [flowPath] at h9)
      rw [List.nil_append] at h8
      rw [mergeFold_uuid] at h8
      exact h8
    have hpres : stF.fs.find (flowPath ++ [fd2.uuid, "tasks"]) =
        stE.fs.find (flowPath ++ [fd2.uuid, "tasks"]) := by
      have h7 := preservesAt_save_tasks_and_link (flowPath ++ [fd2.uuid, "tasks"])
        ((fd.tasks.foldl (fun acc td =>
          if (acc.find td.uuid).isNone then acc.add td else acc)
        (flow_details_merge efd fd)).tasks)
        (flowPath ++ [(fd.tasks.foldl (fun acc td =>
          if (acc.find td.uuid).isNone then acc.add td else acc)
        (flow_details_merge efd fd)).uuid, "tasks"])
        (flowsub_ne_taskPath fd2.uuid "tasks")
        (by
          rw [← hfd2e, mergeFold_uuid]
          intro t
          show (flowPath ++ [efd.uuid, "tasks"] : Path) ≠
            (flowPath ++ [efd.uuid, "tasks"]) ++ [t]
          exact ne_append_singleton _ t) stE
      rw [hSTL] at h7
      exact h7
    have hlinks := save_tasks_and_link_links
      (flowPath ++ [(fd.tasks.foldl (fun acc td =>
        if (acc.find td.uuid).isNone then acc.add td else acc)
      (flow_details_merge efd fd)).uuid, "tasks"])
      ((fd.tasks.foldl (fun acc td =>
        if (acc.find td.uuid).isNone then acc.add td else acc)
      (flow_details_merge efd fd)).tasks) stE stF trL hSTL
    refine ⟨hfd2e.symm, ?_, ?_, ?_⟩
    · intro td htd
      have h10 := hlinks td (by rw [hfd2e]; exact htd)
      rw [hstF] at h10
      have h11 : (flowPath ++ [(fd.tasks.foldl (fun acc td =>
          if (acc.find td.uuid).isNone then acc.add td else acc)
        (flow_details_merge efd fd)).uuid, "tasks"] : Path) =
          flowPath ++ [fd2.uuid, "tasks"] := by
        rw [← hfd2e]
      rw [h11] at h10
      exact h10
    · intro hnil
      rw [← hfd2e] at hnil
      exact absurd (by rw [hnil]; rfl) hlen
    · intro _
      constructor
      · rw [htr, htrB, htrC, htrD, htrE, htrLk]
        simp
      · rw [← hstF, hpres, hdirE]

theorem isUnder_sibling_false (r u a b : String) (hab : (a == b) = false) :
    isUnder ([r] ++ [u, a]) ([r] ++ [u, b]) = false := by
  show ((r == r) && ((u == u) && ((a == b) && true))) = false
  rw [hab]
  simp

theorem bookmeta_ne_flowlink (u : String) :
    ∀ f : String, (bookPath ++ [u, "metadata"] : Path) ≠ (bookPath ++ [u, "flows"]) ++ [f] := by
  intro f h
  have h2 := congrArg List.length h
  simp [bookPath] at h2

set_option maxHeartbeats 1600000 in
/-- Everything a successful `_save_logbook` run guarantees, given that the
preliminary load of the stored book succeeds: the returned book is the
flow-union merge of stored and incoming versions; every merged flow has its
child-index link present afterwards; the metadata written to disk carries
the stored book's creation timestamp (via the `format_logbook` override),
not the incoming one; with no merged flows the run adds no trace beyond the
load's and leaves the child-index directory entry untouched; with merged
flows it acquires the flow lock and leaves the child-index directory in
place. -/
theorem save_logbook_inner_ok_extract (bk : LogBook) (st : St)
    (elb : LogBook) (st1 : St) (tr1 : List Event)
    (bk2 : LogBook) (st2 : St) (tr2 : List Event)
    (hg : _get_logbook bk.uuid st = (.ok elb, st1, tr1))
    (hs : _save_logbook bk st = (.ok bk2, st2, tr2)) :
    bk2 = bk.flows.foldl (fun acc fd =>
        if (acc.find fd.uuid).isNone then acc.add fd else acc) (logbook_merge elb bk) ∧
    (∀ fdd ∈ bk2.flows,
      st2.fs.find ((bookPath ++ [bk2.uuid, "flows"]) ++ [fdd.uuid]) ≠ none) ∧
    (∃ mt, st2.fs.find (bookPath ++ [bk2.uuid, "metadata"]) =
      some (.file (formatLogbook bk2 (some elb.created_at)) mt)) ∧
    (bk2.flows = [] → tr2 = tr1 ∧
      st2.fs.find (bookPath ++ [bk2.uuid, "flows"]) =
        st1.fs.find (bookPath ++ [bk2.uuid, "flows"])) ∧
    (bk2.flows ≠ [] → Event.acq "flow" ∈ tr2 ∧
      st2.fs.find (bookPath ++ [bk2.uuid, "flows"]) = some .dir) := by
  unfold _save_logbook at hs
  obtain ⟨eOpt, stA, trA, trB, hA, hB, htr⟩ := bind_ok_inv hs
  have hbody : (M.bind (_get_logbook bk.uuid) (fun b => M.pure (some b))) st
      = (.ok (some elb), st1, tr1 ++ []) := by
    rw [bind_ok_eq _ hg]
    rfl
  have hA2 : (Except.ok (ε := Err) (some elb), st1, tr1 ++ ([] : List Event))
      = (.ok eOpt, stA, trA) := by
    rcases tryCatch_ok_inv hA with hcase | ⟨e, stE0, trE0, trE1, herr, _, _⟩
    · exact hbody.symm.trans hcase
    · exact absurd (congrArg Prod.fst (hbody.symm.trans herr))
        (fun hh => Except.noConfusion hh)
  have heOpt : some elb = eOpt := by
    have h1 : Except.ok (ε := Err) (some elb) = Except.ok eOpt := congrArg Prod.fst hA2
    injection h1
  have hstA : st1 = stA := congrArg (fun z => z.2.1) hA2
  have htrA : tr1 ++ ([] : List Event) = trA := congrArg (fun z => z.2.2) hA2
  subst heOpt
  subst hstA
  obtain ⟨x1, stC, trC1, trC2, hEns, hB2, htrB⟩ := bind_ok_inv hB
  obtain ⟨x2, stD, trD1, trD2, hWr, hB3, htrC⟩ := bind_ok_inv hB2
  obtain ⟨fsC, hgoC, hstC, htrEns⟩ := ensureTree_ok_inv hEns
  have htrWr : trD1 = [] := by
    have h1 := congrArg (fun z => z.2.2) hWr
    exact h1.symm.trans ((congrArg (fun z => z.2.2) (write_to_eq _ _ stC)))
  have hmetaD : stD.fs.find (bookPath ++ [(bk.flows.foldl (fun acc fd =>
      if (acc.find fd.uuid).isNone then acc.add fd else acc)
    (logbook_merge elb bk)).uuid, "metadata"]) =
      some (.file (formatLogbook (bk.flows.foldl (fun acc fd =>
        if (acc.find fd.uuid).isNone then acc.add fd else acc)
      (logbook_merge elb bk)) (some elb.created_at)) (stC.clock + 1)) := by
    have h12 : _write_to (bookPath ++ [(bk.flows.foldl (fun acc fd =>
        if (acc.find fd.uuid).isNone then acc.add fd else acc)
      (logbook_merge elb bk)).uuid, "metadata"]) (formatLogbook (bk.flows.foldl (fun acc fd =>
        if (acc.find fd.uuid).isNone then acc.add fd else acc)
      (logbook_merge elb bk)) (some elb.created_at)) stC = (.ok x2, stD, trD1) := hWr
    have h13 := (write_to_eq (bookPath ++ [(bk.flows.foldl (fun acc fd =>
        if (acc.find fd.uuid).isNone then acc.add fd else acc)
      (logbook_merge elb bk)).uuid, "metadata"]) (formatLogbook (bk.flows.foldl (fun acc fd =>
        if (acc.find fd.uuid).isNone then acc.add fd else acc)
      (logbook_merge elb bk)) (some elb.created_at)) stC).symm.trans h12
    have h14 : (⟨stC.fs.set (bookPath ++ [(bk.flows.foldl (fun acc fd =>
          if (acc.find fd.uuid).isNone then acc.add fd else acc)
        (logbook_merge elb bk)).uuid, "metadata"]) (.file (formatLogbook (bk.flows.foldl (fun acc fd =>
          if (acc.find fd.uuid).isNone then acc.add fd else acc)
        (logbook_merge elb bk)) (some elb.created_at)) (stC.clock + 1)),
        aerase stC.cache (bookPath ++ [(bk.flows.foldl (fun acc fd =>
          if (acc.find fd.uuid).isNone then acc.add fd else acc)
        (logbook_merge elb bk)).uuid, "metadata"]),
        stC.clock + 1⟩ : St) = stD := congrArg (fun z => z.2.1) h13
    rw [← h14]
    exact find_set_self _ _ _
  by_cases hlen : (bk.flows.foldl (fun acc fd =>
      if (acc.find fd.uuid).isNone then acc.add fd else acc)
    (logbook_merge elb bk)).flows.length = 0
  · rw [if_pos hlen] at hB3
    have hthen : (M.bind (M.pure ()) (fun y => M.pure (bk.flows.foldl (fun acc fd =>
        if (acc.find fd.uuid).isNone then acc.add fd else acc)
      (logbook_merge elb bk)))) stD = (.ok (bk.flows.foldl (fun acc fd =>
        if (acc.find fd.uuid).isNone then acc.add fd else acc)
      (logbook_merge elb bk)), stD, ([] : List Event)) := rfl
    have h6 := hthen.symm.trans hB3
    have hbk2 : Except.ok (ε := Err) (bk.flows.foldl (fun acc fd =>
        if (acc.find fd.uuid).isNone then acc.add fd else acc)
      (logbook_merge elb bk)) = Except.ok bk2 := congrArg Prod.fst h6
    injection hbk2 with hbk2e
    have hstD : stD = st2 := congrArg (fun z => z.2.1) h6
    have htrD : ([] : List Event) = trD2 := congrArg (fun z => z.2.2) h6
    have hflows : bk2.flows = [] := by
      rw [← hbk2e]
      exact List.eq_nil_of_length_eq_zero hlen
    refine ⟨hbk2e.symm, ?_, ?_, ?_, ?_⟩
    · intro fdd hfdd
      rw [hflows] at hfdd
      exact absurd hfdd (List.not_mem_nil fdd)
    · refine ⟨stC.clock + 1, ?_⟩
      rw [← hstD, ← hbk2e]
      exact hmetaD
    · intro _
      constructor
      · rw [htr, htrB, htrC, ← htrA, htrEns, htrWr, ← htrD]
        simp
      · have hq1 : stC.fs.find (bookPath ++ [bk2.uuid, "flows"]) =
            st1.fs.find (bookPath ++ [bk2.uuid, "flows"]) := by
          rw [hstC]
          show fsC.find (bookPath ++ [bk2.uuid, "flows"]) =
            st1.fs.find (bookPath ++ [bk2.uuid, "flows"])
          refine ensureTreeGo_ok_find _ _ _ _ _ hgoC (Or.inl ?_)
          rw [← hbk2e]
          show isUnder (bookPath ++ [(bk.flows.foldl (fun acc fd =>
            if (acc.find fd.uuid).isNone then acc.add fd else acc)
          (logbook_merge elb bk)).uuid, "flows"])
            ([] ++ (bookPath ++ [(bk.flows.foldl (fun acc fd =>
              if (acc.find fd.uuid).isNone then acc.add fd else acc)
            (logbook_merge elb bk)).uuid])) = false
          rw [List.nil_append]
          exact isUnder_child_false "books" _ "flows"
        have hq2 : stD.fs.find (bookPath ++ [bk2.uuid, "flows"]) =
            stC.fs.find (bookPath ++ [bk2.uuid, "flows"]) := by
          have hne2 : (bookPath ++ [bk2.uuid, "flows"] : Path) ≠
              bookPath ++ [(bk.flows.foldl (fun acc fd =>
                if (acc.find fd.uuid).isNone then acc.add fd else acc)
              (logbook_merge elb bk)).uuid, "metadata"] := by
            rw [← hbk2e]
            exact append_last_ne bookPath _ "flows" "metadata" (by decide)
          have h12b : _write_to (bookPath ++ [(bk.flows.foldl (fun acc fd =>
              if (acc.find fd.uuid).isNone then acc.add fd else acc)
            (logbook_merge elb bk)).uuid, "metadata"]) (formatLogbook (bk.flows.foldl (fun acc fd =>
              if (acc.find fd.uuid).isNone then acc.add fd else acc)
            (logbook_merge elb bk)) (some elb.created_at)) stC = (.ok x2, stD, trD1) := hWr
          have h7 := preservesAt_write (q := bookPath ++ [bk2.uuid, "flows"])
            (formatLogbook (bk.flows.foldl (fun acc fd =>
              if (acc.find fd.uuid).isNone then acc.add fd else acc)
            (logbook_merge elb bk)) (some elb.created_at)) hne2 stC
          rw [h12b] at h7
          exact h7
        rw [← hstD, hq2, hq1]
    · intro hne
      exact absurd hflows hne
  · rw [if_neg hlen] at hB3
    obtain ⟨x3, stE, trE1, trE2, hEns2, hB4, htrD⟩ := bind_ok_inv hB3
    obtain ⟨y, stF, trF1, trF2, hLock, hJp, htrE⟩ := bind_ok_inv hB4
    obtain ⟨trL, hSTL, htrLk⟩ := lock_ok_inv hLock
    cases y
    have hbk2 : Except.ok (ε := Err) (bk.flows.foldl (fun acc fd =>
        if (acc.find fd.uuid).isNone then acc.add fd else acc)
      (logbook_merge elb bk)) = Except.ok bk2 := congrArg Prod.fst hJp
    injection hbk2 with hbk2e
    have hstF : stF = st2 := congrArg (fun z => z.2.1) hJp
    obtain ⟨fsE, hgoE, hstE, htrEns2⟩ := ensureTree_ok_inv hEns2
    have hdirE : stE.fs.find (bookPath ++ [bk2.uuid, "flows"]) = some .dir := by
      rw [hstE]
      show fsE.find (bookPath ++ [bk2.uuid, "flows"]) = some Node.dir
      rw [← hbk2e]
      have h8 := ensureTreeGo_dir _ _ _ _ hgoE (by
        intro hh
        have h9 := congrArg List.length hh
        simp [bookPath] at h9)
      rw [List.nil_append] at h8
      exact h8
    have hmetaE : stE.fs.find (bookPath ++ [(bk.flows.foldl (fun acc fd =>
        if (acc.find fd.uuid).isNone then acc.add fd else acc)
      (logbook_merge elb bk)).uuid, "metadata"]) =
        stD.fs.find (bookPath ++ [(bk.flows.foldl (fun acc fd =>
          if (acc.find fd.uuid).isNone then acc.add fd else acc)
        (logbook_merge elb bk)).uuid, "metadata"]) := by
      rw [hstE]
      show fsE.find _ = stD.fs.find _
      refine ensureTreeGo_ok_find _ _ _ _ _ hgoE (Or.inl ?_)
      show isUnder (bookPath ++ [(bk.flows.foldl (fun acc fd =>
        if (acc.find fd.uuid).isNone then acc.add fd else acc)
      (logbook_merge elb bk)).uuid, "metadata"])
        ([] ++ (bookPath ++ [(bk.flows.foldl (fun acc fd =>
          if (acc.find fd.uuid).isNone then acc.add fd else acc)
        (logbook_merge elb bk)).uuid, "flows"])) = false
      rw [List.nil_append]
      exact isUnder_sibling_false "books" _ "metadata" "flows" (by decide)
    have hmetaF : stF.fs.find (bookPath ++ [(bk.flows.foldl (fun acc fd =>
        if (acc.find fd.uuid).isNone then acc.add fd else acc)
      (logbook_merge elb bk)).uuid, "metadata"]) =
        stE.fs.find (bookPath ++ [(bk.flows.foldl (fun acc fd =>
          if (acc.find fd.uuid).isNone then acc.add fd else acc)
        (logbook_merge elb bk)).uuid, "metadata"]) := by
      have h7 := preservesAt_save_flows_and_link (bookPath ++ [(bk.flows.foldl (fun acc fd =>
          if (acc.find fd.uuid).isNone then acc.add fd else acc)
        (logbook_merge elb bk)).uuid, "metadata"])
        ((bk.flows.foldl (fun acc fd =>
          if (acc.find fd.uuid).isNone then acc.add fd else acc)
        (logbook_merge elb bk)).flows)
        (bookPath ++ [(bk.flows.foldl (fun acc fd =>
          if (acc.find fd.uuid).isNone then acc.add fd else acc)
        (logbook_merge elb bk)).uuid, "flows"]) rfl
        (bookmeta_ne_flowlink _) stE
      rw [hSTL] at h7
      exact h7
    have hpres : stF.fs.find (bookPath ++ [bk2.uuid, "flows"]) =
        stE.fs.find (bookPath ++ [bk2.uuid, "flows"]) := by
      have h7 := preservesAt_save_flows_and_link (bookPath ++ [bk2.uuid, "flows"])
        ((bk.flows.foldl (fun acc fd =>
          if (acc.find fd.uuid).isNone then acc.add fd else acc)
        (logbook_merge elb bk)).flows)
        (bookPath ++ [(bk.flows.foldl (fun acc fd =>
          if (acc.find fd.uuid).isNone then acc.add fd else acc)
        (logbook_merge elb bk)).uuid, "flows"])
        (by rw [← hbk2e]; rfl)
        (by
          rw [← hbk2e]
          intro f
          show (bookPath ++ [(bk.flows.foldl (fun acc fd =>
            if (acc.find fd.uuid).isNone then acc.add fd else acc)
          (logbook_merge elb bk)).uuid, "flows"] : Path) ≠
            (bookPath ++ [(bk.flows.foldl (fun acc fd =>
              if (acc.find fd.uuid).isNone then acc.add fd else acc)
            (logbook_merge elb bk)).uuid, "flows"]) ++ [f]
          exact ne_append_singleton _ f) stE
      rw [hSTL] at h7
      exact h7
    have hlinks := save_flows_and_link_links
      (bookPath ++ [(bk.flows.foldl (fun acc fd =>
        if (acc.find fd.uuid).isNone then acc.add fd else acc)
      (logbook_merge elb bk)).uuid, "flows"])
      ((bk.flows.foldl (fun acc fd =>
        if (acc.find fd.uuid).isNone then acc.add fd else acc)
      (logbook_merge elb bk)).flows) stE stF trL hSTL
    refine ⟨hbk2e.symm, ?_, ?_, ?_, ?_⟩
    · intro fdd hfdd
      have h10 := hlinks fdd (by rw [hbk2e]; exact hfdd)
      rw [hstF] at h10
      have h11 : (bookPath ++ [(bk.flows.foldl (fun acc fd =>
          if (acc.find fd.uuid).isNone then acc.add fd else acc)
        (logbook_merge elb bk)).uuid, "flows"] : Path) =
          bookPath ++ [bk2.uuid, "flows"] := by
        rw [← hbk2e]
      rw [h11] at h10
      exact h10
    · refine ⟨stC.clock + 1, ?_⟩
      rw [← hstF, ← hbk2e]
      rw [hmetaF, hmetaE]
      exact hmetaD
    · intro hnil
      rw [← hbk2e] at hnil
      exact absurd (by rw [hnil]; rfl) hlen
    · intro _
      constructor
      · rw [htr, htrB, htrC, htrD, htrE, htrLk]
        simp
      · rw [← hstF, hpres, hdirE]

/-! ### Child loads add exactly one entry each; empty children mean no trace -/

theorem foldlM_count {α β : Type} (f : β → α → M β) (l : List α) (g : β → Nat)
    (hstep : ∀ b a st b2 st2 tr, f b a st = (.ok b2, st2, tr) → g b2 = g b + 1) :
    ∀ b st r st2 tr, l.foldlM f b st = (.ok r, st2, tr) → g r = g b + l.length := by
  induction l with
  | nil =>
    intro b st r st2 tr h
    have h1 : Except.ok (ε := Err) b = Except.ok r := congrArg Prod.fst h
    injection h1 with h2
    rw [← h2]
    rfl
  | cons a as ih =>
    intro b st r st2 tr h
    rw [List.foldlM_cons] at h
    obtain ⟨b1, st1, tr1, tr2, hstep1, hrest, _⟩ := bind_ok_inv h
    have h3 := ih b1 st1 r st2 tr2 hrest
    have h4 := hstep b a st b1 st1 tr1 hstep1
    rw [h3, h4]
    show (g b + 1) + as.length = g b + (as.length + 1)
    omega

/-- A lockless flow load that comes back with no tasks acquired no lock at
all: its whole trace is empty. -/
theorem get_flow_details_go_empty_trace (u : String) (st : St) (efd : FlowDetail)
    (st1 : St) (tr1 : List Event)
    (h : _get_flow_details._get u st = (.ok efd, st1, tr1)) (hlen : efd.tasks = []) :
    tr1 = [] := by
  unfold _get_flow_details._get at h
  obtain ⟨mC, stR, trR, trK1, hRead, h2, htr1⟩ := bind_ok_inv h
  obtain ⟨c, stC, trC, trK2, hDec, h3, htr2⟩ := bind_ok_inv h2
  obtain ⟨fd0, stU, trU, trK3, hUnf, h4, htr3⟩ := bind_ok_inv h3
  obtain ⟨names, stL, trLi, trF, hList, hFold, htr4⟩ := bind_ok_inv h4
  have hR0 : trR = [] := (congrArg (fun z => z.2.2) hRead).symm.trans
    (silent_read_from (flowPath ++ [u, "metadata"]) st)
  have hD0 : trC = [] := (congrArg (fun z => z.2.2) hDec).symm.trans
    (silent_mLift (decodeJson mC) stR)
  have hU0 : trU = [] := (congrArg (fun z => z.2.2) hUnf).symm.trans
    (silent_mLift (unformatFlowDetail u c) stC)
  have hsL : Silent (M.tryCatch (osListLinks (flowPath ++ [u, "tasks"]))
      (fun e => match e with
        | Err.envError c2 => if c2 = ENOENT then pure [] else M.throw (Err.envError c2)
        | e => M.throw e)) := by
    apply silent_tryCatch (silent_osListLinks _)
    intro e
    cases e with
    | envError c2 =>
      dsimp only
      split
      · exact silent_pure _
      · exact silent_throw _
    | notFound m => exact silent_throw _
    | storageError m c2 => exact silent_throw _
    | valueError m => exact silent_throw _
  have hL0 : trLi = [] := (congrArg (fun z => z.2.2) hList).symm.trans (hsL stU)
  have hfd0 : fd0.tasks = [] := by
    cases c with
    | flowC m2 =>
      have h5 : Except.ok (ε := Err) ({ uuid := u, meta := m2, tasks := [] } : FlowDetail)
          = Except.ok fd0 := congrArg Prod.fst hUnf
      injection h5 with h6
      rw [← h6]
    | raw s2 => exact Except.noConfusion (congrArg Prod.fst hUnf)
    | taskC d => exact Except.noConfusion (congrArg Prod.fst hUnf)
    | bookC bm => exact Except.noConfusion (congrArg Prod.fst hUnf)
  have hlen2 := foldlM_count (fun fd tUuid => do
      let td ← _get_task_details tUuid true
      pure (fd.add td)) names (fun f => f.tasks.length)
    (by
      intro b a st3 b2 st4 tr3 hstp
      obtain ⟨td, stT, trT1, trT2, hTd, hPu, _⟩ := bind_ok_inv hstp
      have h7 : Except.ok (ε := Err) (b.add td) = Except.ok b2 := congrArg Prod.fst hPu
      injection h7 with h8
      rw [← h8]
      show (b.tasks ++ [td]).length = b.tasks.length + 1
      simp)
    fd0 stL efd st1 trF hFold
  dsimp only at hlen2
  rw [hlen, hfd0] at hlen2
  have hnames : names = [] := List.eq_nil_of_length_eq_zero (by
    have h9 : (0 : Nat) = 0 + names.length := hlen2
    omega)
  subst hnames
  have hF0 : ([] : List Event) = trF := congrArg (fun z => z.2.2) hFold
  rw [htr1, htr2, htr3, htr4, hR0, hD0, hU0, hL0, ← hF0]
  rfl

/-- A book load that comes back with no flows acquired no lock at all: its
whole trace is empty. -/
theorem get_logbook_empty_trace (u : String) (st : St) (elb : LogBook)
    (st1 : St) (tr1 : List Event)
    (h : _get_logbook u st = (.ok elb, st1, tr1)) (hlen : elb.flows = []) :
    tr1 = [] := by
  unfold _get_logbook at h
  obtain ⟨c, stA, trA, trK1, hC, h2, htr1⟩ := bind_ok_inv h
  obtain ⟨lb0, stU, trU, trK2, hUnf, h3, htr2⟩ := bind_ok_inv h2
  obtain ⟨names, stL, trLi, trF, hList, hFold, htr3⟩ := bind_ok_inv h3
  have hsA : Silent (M.tryCatch (M.bind (_read_from (bookPath ++ [u, "metadata"]))
      (fun meta => mLift (decodeJson meta)))
      (fun e => match e with
        | Err.envError c2 =>
          if c2 = ENOENT then M.throw (Err.notFound ("No logbook found with id: " ++ u))
          else M.throw (Err.envError c2)
        | e => M.throw e)) := by
    apply silent_tryCatch (silent_bind (silent_read_from _) (fun m => silent_mLift _))
    intro e
    cases e with
    | envError c2 =>
      dsimp only
      split
      · exact silent_throw _
      · exact silent_throw _
    | notFound m => exact silent_throw _
    | storageError m c2 => exact silent_throw _
    | valueError m => exact silent_throw _
  have hA0 : trA = [] := (congrArg (fun z => z.2.2) hC).symm.trans (hsA st)
  have hU0 : trU = [] := (congrArg (fun z => z.2.2) hUnf).symm.trans
    (silent_mLift (unformatLogbook u c) stA)
  have hsL : Silent (M.tryCatch (osListLinks (bookPath ++ [u, "flows"]))
      (fun e => match e with
        | Err.envError c2 => if c2 = ENOENT then pure [] else M.throw (Err.envError c2)
        | e => M.throw e)) := by
    apply silent_tryCatch (silent_osListLinks _)
    intro e
    cases e with
    | envError c2 =>
      dsimp only
      split
      · exact silent_pure _
      · exact silent_throw _
    | notFound m => exact silent_throw _
    | storageError m c2 => exact silent_throw _
    | valueError m => exact silent_throw _
  have hL0 : trLi = [] := (congrArg (fun z => z.2.2) hList).symm.trans (hsL stU)
  have hlb0 : lb0.flows = [] := by
    cases c with
    | bookC bm =>
      have h5 : Except.ok (ε := Err) ({ uuid := u, meta := bm.meta, created_at := bm.created_at, flows := [] } : LogBook) = Except.ok lb0 :=
        congrArg Prod.fst hUnf
      injection h5 with h6
      rw [← h6]
    | raw s2 => exact Except.noConfusion (congrArg Prod.fst hUnf)
    | taskC d => exact Except.noConfusion (congrArg Prod.fst hUnf)
    | flowC m2 => exact Except.noConfusion (congrArg Prod.fst hUnf)
  have hlen2 := foldlM_count (fun lb fdUuid => do
      let fd ← _get_flow_details fdUuid true
      pure (lb.add fd)) names (fun b => b.flows.length)
    (by
      intro b a st3 b2 st4 tr3 hstp
      obtain ⟨fdd, stT, trT1, trT2, hFd, hPu, _⟩ := bind_ok_inv hstp
      have h7 : Except.ok (ε := Err) (b.add fdd) = Except.ok b2 := congrArg Prod.fst hPu
      injection h7 with h8
      rw [← h8]
      show (b.flows ++ [fdd]).length = b.flows.length + 1
      simp)
    lb0 stL elb st1 trF hFold
  dsimp only at hlen2
  rw [hlen, hlb0] at hlen2
  have hnames : names = [] := List.eq_nil_of_length_eq_zero (by
    have h9 : (0 : Nat) = 0 + names.length := hlen2
    omega)
  subst hnames
  have hF0 : ([] : List Event) = trF := congrArg (fun z => z.2.2) hFold
  rw [htr1, htr2, htr3, hA0, hU0, hL0, ← hF0]
  rfl

/-- A book loaded fresh (no cache entry for its metadata file) reports
exactly the creation timestamp stored on disk. -/
theorem get_logbook_fresh_created (u : String) (st : St) (m0 : BookMeta) (t0 : Nat)
    (elb : LogBook) (st1 : St) (tr1 : List Event)
    (hf : st.fs.find (bookPath ++ [u, "metadata"]) = some (.file (.bookC m0) t0))
    (hc : alookup st.cache (bookPath ++ [u, "metadata"]) = none)
    (hok : _get_logbook u st = (.ok elb, st1, tr1)) :
    elb.created_at = m0.created_at := by
  unfold _get_logbook at hok
  obtain ⟨c, stA, trA, trK1, hC, h2, _⟩ := bind_ok_inv hok
  have hread := read_from_fresh_none (bookPath ++ [u, "metadata"]) st (.bookC m0) t0 hf hc
  have hbody : (M.bind (_read_from (bookPath ++ [u, "metadata"]))
      (fun meta => mLift (decodeJson meta))) st =
      (.ok (Content.bookC m0),
        { st with cache := aset st.cache (bookPath ++ [u, "metadata"]) ⟨.bookC m0, t0⟩ },
        ([] : List Event) ++ []) := by
    rw [bind_ok_eq _ hread]
    rfl
  have hceq : Content.bookC m0 = c := by
    rcases tryCatch_ok_inv hC with hcase | ⟨e, stE0, trE0, trE1, herr, _, _⟩
    · have h3 := hbody.symm.trans hcase
      have h4 : Except.ok (ε := Err) (Content.bookC m0) = Except.ok c :=
        congrArg Prod.fst h3
      injection h4
    · exact absurd (congrArg Prod.fst (hbody.symm.trans herr))
        (fun hh => Except.noConfusion hh)
  subst hceq
  obtain ⟨lb0, stU, trU, trK2, hUnf, h3, _⟩ := bind_ok_inv h2
  have hlb0 : lb0.created_at = m0.created_at := by
    have h5 : Except.ok (ε := Err) ({ uuid := u, meta := m0.meta, created_at := m0.created_at, flows := [] } : LogBook) = Except.ok lb0 :=
      congrArg Prod.fst hUnf
    injection h5 with h6
    rw [← h6]
  obtain ⟨names, stL, trLi, trF, hList, hFold, _⟩ := bind_ok_inv h3
  exact retP_foldlM (Q := fun b : LogBook => b.created_at = m0.created_at)
    (fun lb fdUuid => do
      let fd ← _get_flow_details fdUuid true
      pure (lb.add fd)) names
    (fun b a hQ => retP_bind (R := fun _ => True) (retP_trivial _)
      (fun fd _ => retP_pure (a := b.add fd) hQ)) lb0 hlb0 stL elb st1 trF hFold

/-- **C2**: the save merge unions the child-reference sets.  For flows: if
the stored flow loads as `efd` and `_save_flow_details fd im` succeeds
returning `fd2` (the version serialized to disk), then every task uuid
present in the stored or in the incoming version is present in `fd2`, and
its child-index link exists on disk afterwards.  The same holds for books
and their flows under `_save_logbook`.  Concretely, updating the stored
flow `F1` (tasks {T1, T2}) with a payload referencing only task T3 yields
exactly the task set {T1, T2, T3}. -/
theorem merge_unions_children :
    (∀ (fd : FlowDetail) (im : Bool) (st : St) (efd : FlowDetail) (st1 : St)
      (tr1 : List Event) (fd2 : FlowDetail) (st2 : St) (tr2 : List Event),
      _get_flow_details fd.uuid false st = (.ok efd, st1, tr1) →
      _save_flow_details fd im st = (.ok fd2, st2, tr2) →
      ∀ u2 : String,
        ((∃ td ∈ efd.tasks, td.uuid = u2) ∨ (∃ td ∈ fd.tasks, td.uuid = u2)) →
        (∃ td2 ∈ fd2.tasks, td2.uuid = u2) ∧
        st2.fs.find ((flowPath ++ [fd2.uuid, "tasks"]) ++ [u2]) ≠ none) ∧
    (∀ (bk : LogBook) (st : St) (elb : LogBook) (st1 : St) (tr1 : List Event)
      (bk2 : LogBook) (st2 : St) (tr2 : List Event),
      _get_logbook bk.uuid st = (.ok elb, st1, tr1) →
      _save_logbook bk st = (.ok bk2, st2, tr2) →
      ∀ u2 : String,
        ((∃ fdd ∈ elb.flows, fdd.uuid = u2) ∨ (∃ fdd ∈ bk.flows, fdd.uuid = u2)) →
        (∃ fd2 ∈ bk2.flows, fd2.uuid = u2) ∧
        st2.fs.find ((bookPath ++ [bk2.uuid, "flows"]) ++ [u2]) ≠ none) ∧
    (_save_flow_details ⟨"F1", "fm2", [⟨"T3", "d3"⟩]⟩ false stBook).1 =
      .ok ⟨"F1", "fm2", [⟨"T1", "d1"⟩, ⟨"T2", "d2"⟩, ⟨"T3", "d3"⟩]⟩ := by
  refine ⟨?_, ?_, rfl⟩
  · intro fd im st efd st1 tr1 fd2 st2 tr2 hg hs u2 hu
    obtain ⟨ha, hlinks, _, _⟩ :=
      save_flow_details_ok_extract fd im st efd st1 tr1 fd2 st2 tr2 hg hs
    have hmem : ∃ td2 ∈ fd2.tasks, td2.uuid = u2 := by
      rw [ha]
      rcases hu with h1 | h1
      · obtain ⟨td, htd, huu⟩ := h1
        exact ⟨td, mergeFold_keeps fd.tasks (flow_details_merge efd fd) td htd, huu⟩
      · exact mergeFold_adds fd.tasks (flow_details_merge efd fd) u2 h1
    obtain ⟨td2, htd2, huu2⟩ := hmem
    refine ⟨⟨td2, htd2, huu2⟩, ?_⟩
    rw [← huu2]
    exact hlinks td2 htd2
  · intro bk st elb st1 tr1 bk2 st2 tr2 hg hs u2 hu
    obtain ⟨ha, hlinks, _, _, _⟩ :=
      save_logbook_inner_ok_extract bk st elb st1 tr1 bk2 st2 tr2 hg hs
    have hmem : ∃ fd2 ∈ bk2.flows, fd2.uuid = u2 := by
      rw [ha]
      rcases hu with h1 | h1
      · obtain ⟨fdd, hfdd, huu⟩ := h1
        exact ⟨fdd, bookFold_keeps bk.flows (logbook_merge elb bk) fdd hfdd, huu⟩
      · exact bookFold_adds bk.flows (logbook_merge elb bk) u2 h1
    obtain ⟨fd2, hfd2, huu2⟩ := hmem
    refine ⟨⟨fd2, hfd2, huu2⟩, ?_⟩
    rw [← huu2]
    exact hlinks fd2 hfd2

theorem merge_unions_children_w :
    (∃ td2 ∈ ({ uuid := "F1", meta := "fm2", tasks := [⟨"T1", "d1"⟩, ⟨"T2", "d2"⟩, ⟨"T3", "d3"⟩] } : FlowDetail).tasks, td2.uuid = "T1") ∧
      ((_save_flow_details ⟨"F1", "fm2", [⟨"T3", "d3"⟩]⟩ false stBook).2.1).fs.find
        ((flowPath ++ ["F1", "tasks"]) ++ ["T1"]) ≠ none :=
  merge_unions_children.1 ⟨"F1", "fm2", [⟨"T3", "d3"⟩]⟩ false stBook
    ⟨"F1", "fm", [⟨"T1", "d1"⟩, ⟨"T2", "d2"⟩]⟩
    ((_get_flow_details "F1" false stBook).2.1)
    ((_get_flow_details "F1" false stBook).2.2)
    ⟨"F1", "fm2", [⟨"T1", "d1"⟩, ⟨"T2", "d2"⟩, ⟨"T3", "d3"⟩]⟩
    ((_save_flow_details ⟨"F1", "fm2", [⟨"T3", "d3"⟩]⟩ false stBook).2.1)
    ((_save_flow_details ⟨"F1", "fm2", [⟨"T3", "d3"⟩]⟩ false stBook).2.2)
    rfl rfl "T1" (Or.inl ⟨⟨"T1", "d1"⟩, List.mem_cons_self _ _, rfl⟩)

/-- **C4**: a later `save_logbook` of an already-persisted book retains the
stored creation timestamp in the metadata written to disk, whatever
`created_at` the incoming book carries: the serialized metadata carries the
loaded book's `created_at`; a fresh (uncached) load reports exactly the
timestamp on disk; and concretely, re-saving fixture book `B1` (stored with
`created_at` 5) with an incoming `created_at` of 999 writes metadata still
carrying 5. -/
theorem created_at_retention :
    (∀ (bk : LogBook) (st : St) (elb : LogBook) (st1 : St) (tr1 : List Event)
      (bk2 : LogBook) (st2 : St) (tr2 : List Event),
      _get_logbook bk.uuid st = (.ok elb, st1, tr1) →
      save_logbook bk st = (.ok bk2, st2, tr2) →
      ∃ mt, st2.fs.find (bookPath ++ [bk2.uuid, "metadata"]) =
        some (.file (.bookC ⟨bk2.meta, elb.created_at⟩) mt)) ∧
    (∀ (u : String) (st : St) (m0 : BookMeta) (t0 : Nat) (elb : LogBook)
      (st1 : St) (tr1 : List Event),
      st.fs.find (bookPath ++ [u, "metadata"]) = some (.file (.bookC m0) t0) →
      alookup st.cache (bookPath ++ [u, "metadata"]) = none →
      _get_logbook u st = (.ok elb, st1, tr1) →
      elb.created_at = m0.created_at) ∧
    (∃ mt, ((save_logbook ⟨"B1", "bm2", 999, []⟩ stBook).2.1).fs.find
      (bookPath ++ ["B1", "metadata"]) = some (.file (.bookC ⟨"bm2", 5⟩) mt)) := by
  refine ⟨?_, ?_, ⟨11, rfl⟩⟩
  · intro bk st elb st1 tr1 bk2 st2 tr2 hg hs
    obtain ⟨trI, hsI, _⟩ := lock_ok_inv hs
    obtain ⟨_, _, hmt, _, _⟩ :=
      save_logbook_inner_ok_extract bk st elb st1 tr1 bk2 st2 trI hg hsI
    obtain ⟨mt, hmt2⟩ := hmt
    exact ⟨mt, hmt2⟩
  · intro u st m0 t0 elb st1 tr1 hf hc hok
    exact get_logbook_fresh_created u st m0 t0 elb st1 tr1 hf hc hok

theorem created_at_retention_w :
    (∃ mt, ((save_logbook ⟨"B1", "bm2", 999, []⟩ stBook).2.1).fs.find
      (bookPath ++ ["B1", "metadata"]) = some (.file (.bookC ⟨"bm2", 5⟩) mt)) ∧
    (⟨"B1", "bm", 5, [⟨"F1", "fm", [⟨"T1", "d1"⟩, ⟨"T2", "d2"⟩]⟩]⟩ : LogBook).created_at = 5 :=
  ⟨created_at_retention.1 ⟨"B1", "bm2", 999, []⟩ stBook
      ⟨"B1", "bm", 5, [⟨"F1", "fm", [⟨"T1", "d1"⟩, ⟨"T2", "d2"⟩]⟩]⟩
      ((_get_logbook "B1" stBook).2.1) ((_get_logbook "B1" stBook).2.2)
      ⟨"B1", "bm2", 999, [⟨"F1", "fm", [⟨"T1", "d1"⟩, ⟨"T2", "d2"⟩]⟩]⟩
      ((save_logbook ⟨"B1", "bm2", 999, []⟩ stBook).2.1)
      ((save_logbook ⟨"B1", "bm2", 999, []⟩ stBook).2.2)
      rfl rfl,
    created_at_retention.2.1 "B1" stBook ⟨"bm", 5⟩ 1
      ⟨"B1", "bm", 5, [⟨"F1", "fm", [⟨"T1", "d1"⟩, ⟨"T2", "d2"⟩]⟩]⟩
      ((_get_logbook "B1" stBook).2.1) ((_get_logbook "B1" stBook).2.2)
      rfl rfl rfl⟩


/-! ### Error kinds of the primitives and getters -/

/-- `notEnv e`: the error is not an `EnvironmentError`. -/
def notEnv : Err → Bool
  | .envError _ => false
  | _ => true

theorem errOK_weaken {E E2 : Err → Bool} {α : Type} {c : M α}
    (h12 : ∀ e, E e = true → E2 e = true) (h : ErrOK E c) : ErrOK E2 c :=
  fun st e he => h12 e (h st e he)

theorem isEnvB_notNF (e : Err) (h : isEnvB e = true) : notNF e = true := by
  cases e with
  | envError c => rfl
  | notFound m => exact Bool.noConfusion h
  | storageError m c => rfl
  | valueError m => rfl

theorem errOK_osGetmtime (p : Path) : ErrOK isEnvB (osGetmtime p) := by
  intro st e he
  unfold osGetmtime mk at he
  dsimp only at he
  cases hf : st.fs.find p with
  | none =>
    rw [hf] at he
    have h1 : Except.error (α := Nat) (Err.envError ENOENT) = Except.error e := he
    injection h1 with h2
    rw [← h2]
    rfl
  | some n =>
    rw [hf] at he
    cases n with
    | file d m => exact Except.noConfusion he
    | dir => exact Except.noConfusion he
    | link t =>
      dsimp only at he
      cases ht : st.fs.find t with
      | none =>
        rw [ht] at he
        have h1 : Except.error (α := Nat) (Err.envError ENOENT) = Except.error e := he
        injection h1 with h2
        rw [← h2]
        rfl
      | some n2 =>
        rw [ht] at he
        cases n2 with
        | file d m => exact Except.noConfusion he
        | dir => exact Except.noConfusion he
        | link t2 =>
          have h1 : Except.error (α := Nat) (Err.envError ENOENT) = Except.error e := he
          injection h1 with h2
          rw [← h2]
          rfl

theorem errOK_osOpenRead (p : Path) : ErrOK isEnvB (osOpenRead p) := by
  intro st e he
  unfold osOpenRead mk at he
  dsimp only at he
  cases hf : st.fs.find p with
  | none =>
    rw [hf] at he
    have h1 : Except.error (α := Content) (Err.envError ENOENT) = Except.error e := he
    injection h1 with h2
    rw [← h2]
    rfl
  | some n =>
    rw [hf] at he
    cases n with
    | file d m => exact Except.noConfusion he
    | dir =>
      have h1 : Except.error (α := Content) (Err.envError EISDIR) = Except.error e := he
      injection h1 with h2
      rw [← h2]
      rfl
    | link t =>
      dsimp only at he
      cases ht : st.fs.find t with
      | none =>
        rw [ht] at he
        have h1 : Except.error (α := Content) (Err.envError ENOENT) = Except.error e := he
        injection h1 with h2
        rw [← h2]
        rfl
      | some n2 =>
        rw [ht] at he
        cases n2 with
        | file d m => exact Except.noConfusion he
        | dir =>
          have h1 : Except.error (α := Content) (Err.envError EISDIR) = Except.error e := he
          injection h1 with h2
          rw [← h2]
          rfl
        | link t2 =>
          have h1 : Except.error (α := Content) (Err.envError ENOENT) = Except.error e := he
          injection h1 with h2
          rw [← h2]
          rfl

theorem errOK_osListLinks (p : Path) : ErrOK isEnvB (osListLinks p) := by
  intro st e he
  unfold osListLinks mk at he
  dsimp only at he
  cases hf : st.fs.find p with
  | none =>
    rw [hf] at he
    have h1 : Except.error (α := List String) (Err.envError ENOENT) = Except.error e := he
    injection h1 with h2
    rw [← h2]
    rfl
  | some n =>
    rw [hf] at he
    cases n with
    | file d m =>
      have h1 : Except.error (α := List String) (Err.envError ENOTDIR) = Except.error e := he
      injection h1 with h2
      rw [← h2]
      rfl
    | dir => exact Except.noConfusion he
    | link t =>
      have h1 : Except.error (α := List String) (Err.envError ENOTDIR) = Except.error e := he
      injection h1 with h2
      rw [← h2]
      rfl

theorem errOK_cacheLookup {E : Err → Bool} (p : Path) : ErrOK E (cacheLookup p) := by
  intro st e he
  exact Except.noConfusion he

theorem errOK_cacheRefresh {E : Err → Bool} (p : Path) (e2 : CacheEntry) :
    ErrOK E (cacheRefresh p e2) := by
  intro st e he
  exact Except.noConfusion he

theorem errOK_read_from (fn : Path) : ErrOK isEnvB (_read_from fn) := by
  unfold _read_from
  apply errOK_bind (errOK_osGetmtime fn)
  intro mtime
  apply errOK_bind (errOK_cacheLookup fn)
  intro ci
  cases ci with
  | some e2 =>
    dsimp only
    split
    · exact errOK_bind (errOK_osOpenRead fn) (fun d =>
        errOK_bind (errOK_cacheRefresh fn _) (fun x => errOK_pure d))
    · exact errOK_pure _
  | none =>
    exact errOK_bind (errOK_osOpenRead fn) (fun d =>
      errOK_bind (errOK_cacheRefresh fn _) (fun x => errOK_pure d))

theorem errOK_mLift {E : Err → Bool} {α : Type} {x : Except Err α}
    (h : ∀ e0, x = .error e0 → E e0 = true) : ErrOK E (mLift x) := by
  intro st e he
  exact h e he

theorem errOK_mLift_decode {E : Err → Bool} (c : Content)
    (hv : ∀ m, E (.valueError m) = true) : ErrOK E (mLift (decodeJson c)) := by
  apply errOK_mLift
  intro e0 h0
  cases c with
  | raw s =>
    have h1 : Except.error (α := Content) (Err.valueError "expected json data")
        = Except.error e0 := h0
    injection h1 with h2
    rw [← h2]
    exact hv _
  | taskC d => exact Except.noConfusion h0
  | flowC m2 => exact Except.noConfusion h0
  | bookC bm => exact Except.noConfusion h0

theorem errOK_mLift_unformatTask {E : Err → Bool} (u : String) (c : Content)
    (hv : ∀ m, E (.valueError m) = true) : ErrOK E (mLift (unformatTaskDetail u c)) := by
  apply errOK_mLift
  intro e0 h0
  cases c with
  | taskC d => exact Except.noConfusion h0
  | raw s =>
    have h1 : Except.error (α := TaskDetail) (Err.valueError "invalid task detail")
        = Except.error e0 := h0
    injection h1 with h2
    rw [← h2]
    exact hv _
  | flowC m2 =>
    have h1 : Except.error (α := TaskDetail) (Err.valueError "invalid task detail")
        = Except.error e0 := h0
    injection h1 with h2
    rw [← h2]
    exact hv _
  | bookC bm =>
    have h1 : Except.error (α := TaskDetail) (Err.valueError "invalid task detail")
        = Except.error e0 := h0
    injection h1 with h2
    rw [← h2]
    exact hv _

theorem errOK_mLift_unformatFlow {E : Err → Bool} (u : String) (c : Content)
    (hv : ∀ m, E (.valueError m) = true) : ErrOK E (mLift (unformatFlowDetail u c)) := by
  apply errOK_mLift
  intro e0 h0
  cases c with
  | flowC m2 => exact Except.noConfusion h0
  | raw s =>
    have h1 : Except.error (α := FlowDetail) (Err.valueError "invalid flow detail")
        = Except.error e0 := h0
    injection h1 with h2
    rw [← h2]
    exact hv _
  | taskC d =>
    have h1 : Except.error (α := FlowDetail) (Err.valueError "invalid flow detail")
        = Except.error e0 := h0
    injection h1 with h2
    rw [← h2]
    exact hv _
  | bookC bm =>
    have h1 : Except.error (α := FlowDetail) (Err.valueError "invalid flow detail")
        = Except.error e0 := h0
    injection h1 with h2
    rw [← h2]
    exact hv _

theorem errOK_task_go (u : String) : ErrOK notNF (_get_task_details._get u) := by
  unfold _get_task_details._get
  apply errOK_bind (errOK_weaken isEnvB_notNF (errOK_read_from _))
  intro tdData
  apply errOK_bind (errOK_mLift_decode _ (fun m => rfl))
  intro c
  exact errOK_mLift_unformatTask u c (fun m => rfl)

theorem errOK_listLinks_guard (p : Path) :
    ErrOK notNF (M.tryCatch (osListLinks p)
      (fun e => match e with
        | Err.envError c => if c = ENOENT then pure [] else M.throw (Err.envError c)
        | e => M.throw e)) := by
  apply errOK_tryCatch (E := isEnvB) (errOK_osListLinks p)
  intro e0 he0
  cases e0 with
  | envError c =>
    dsimp only
    split
    · exact errOK_pure _
    · exact errOK_throw rfl
  | notFound m => exact Bool.noConfusion he0
  | storageError m c => exact errOK_throw rfl
  | valueError m => exact errOK_throw rfl

theorem errOK_flow_go (u : String) : ErrOK notNF (_get_flow_details._get u) := by
  unfold _get_flow_details._get
  apply errOK_bind (errOK_weaken isEnvB_notNF (errOK_read_from _))
  intro metaC
  apply errOK_bind (errOK_mLift_decode _ (fun m => rfl))
  intro c
  apply errOK_bind (errOK_mLift_unformatFlow u c (fun m => rfl))
  intro fd
  apply errOK_bind (errOK_listLinks_guard _)
  intro names
  exact errOK_foldlM (fun fd tUuid => do
      let td ← _get_task_details tUuid true
      pure (fd.add td)) names
    (fun b a => errOK_bind (errOK_lock_notNF "task" (errOK_task_go a))
      (fun td => errOK_pure _)) fd

theorem errOK_lock_notEnv {α : Type} (n : String) (f : M α) :
    ErrOK notEnv (_run_with_process_lock n f) := by
  intro st e he
  cases hfs : f st with
  | mk r rest =>
    obtain ⟨st1, tr⟩ := rest
    cases r with
    | ok a =>
      rw [lock_ok_eq n hfs] at he
      exact Except.noConfusion he
    | error e1 =>
      by_cases hT : isTaskFlowExc e1 = true
      · rw [lock_error_tfe_eq n hfs hT] at he
        have h1 : Except.error (α := α) e1 = Except.error e := he
        injection h1 with h2
        rw [← h2]
        cases e1 with
        | notFound m => rfl
        | storageError m c => rfl
        | envError c => exact Bool.noConfusion hT
        | valueError m => rfl
      · rw [lock_error_wrap_eq n hfs (eq_false_of_ne_true hT)] at he
        have h1 : Except.error (α := α)
            (.storageError "Storage backend internal error" e1.asCause) = Except.error e := he
        injection h1 with h2
        rw [← h2]
        rfl

theorem tryCatch_error_inv {α : Type} {x : M α} {h : Err → M α} {st : St} {e : Err}
    {st2 : St} {tr : List Event} (hr : M.tryCatch x h st = (.error e, st2, tr)) :
    ∃ e1 st1 tr1 tr2, x st = (.error e1, st1, tr1) ∧ h e1 st1 = (.error e, st2, tr2) ∧
      tr = tr1 ++ tr2 := by
  cases hxs : x st with
  | mk r rest =>
    obtain ⟨st1, tr1⟩ := rest
    cases r with
    | ok a =>
      rw [tryCatch_ok_eq h hxs] at hr
      exact Except.noConfusion (congrArg Prod.fst hr)
    | error e1 =>
      rw [tryCatch_error_eq h hxs] at hr
      have h1 : (h e1 st1).1 = .error e := congrArg Prod.fst hr
      have h2 : (h e1 st1).2.1 = st2 := congrArg (fun z => z.2.1) hr
      have h3 : tr1 ++ (h e1 st1).2.2 = tr := congrArg (fun z => z.2.2) hr
      refine ⟨e1, st1, tr1, (h e1 st1).2.2, rfl, ?_, h3.symm⟩
      rw [← h1, ← h2]

theorem silent_listLinks_guard (p : Path) :
    Silent (M.tryCatch (osListLinks p)
      (fun e => match e with
        | Err.envError c => if c = ENOENT then pure [] else M.throw (Err.envError c)
        | e => M.throw e)) := by
  apply silent_tryCatch (silent_osListLinks _)
  intro e
  cases e with
  | envError c2 =>
    dsimp only
    split
    · exact silent_pure _
    · exact silent_throw _
  | notFound m => exact silent_throw _
  | storageError m c2 => exact silent_throw _
  | valueError m => exact silent_throw _

theorem silent_book_read_guard (u : String) :
    Silent (M.tryCatch (M.bind (_read_from (bookPath ++ [u, "metadata"]))
      (fun meta => mLift (decodeJson meta)))
      (fun e => match e with
        | Err.envError c =>
          if c = ENOENT then M.throw (Err.notFound ("No logbook found with id: " ++ u))
          else M.throw (Err.envError c)
        | e => M.throw e)) := by
  apply silent_tryCatch (silent_bind (silent_read_from _) (fun m => silent_mLift _))
  intro e
  cases e with
  | envError c2 =>
    dsimp only
    split
    · exact silent_throw _
    · exact silent_throw _
  | notFound m => exact silent_throw _
  | storageError m c2 => exact silent_throw _
  | valueError m => exact silent_throw _

/-- A lockless flow load that fails with an `EnvironmentError` failed before
any child load: its whole trace is empty.  (A child load runs under the task
lock, which re-raises only TaskFlow exceptions and wraps everything else, so
no environment error can emerge from it.) -/
theorem get_flow_details_go_env_error_trace (u : String) (st : St) (c : Nat)
    (st1 : St) (tr1 : List Event)
    (h : _get_flow_details._get u st = (.error (.envError c), st1, tr1)) : tr1 = [] := by
  unfold _get_flow_details._get at h
  rcases bind_error_inv h with hRead | ⟨mC, stR, trR, trK1, hRead, h2, htr1⟩
  · exact (congrArg (fun z => z.2.2) hRead).symm.trans (silent_read_from _ st)
  · have hR0 : trR = [] := (congrArg (fun z => z.2.2) hRead).symm.trans
      (silent_read_from _ st)
    rcases bind_error_inv h2 with hDec | ⟨c2, stC, trC, trK2, hDec, h3, htr2⟩
    · have h4 : decodeJson mC = Except.error (Err.envError c) := congrArg Prod.fst hDec
      cases mC with
      | raw s =>
        have h5 : Except.error (α := Content) (Err.valueError "expected json data")
            = Except.error (Err.envError c) := h4
        injection h5 with h6
        exact Err.noConfusion h6
      | taskC d => exact Except.noConfusion h4
      | flowC m2 => exact Except.noConfusion h4
      | bookC bm => exact Except.noConfusion h4
    · have hD0 : trC = [] := (congrArg (fun z => z.2.2) hDec).symm.trans
        (silent_mLift (decodeJson mC) stR)
      rcases bind_error_inv h3 with hUnf | ⟨fd0, stU, trU, trK3, hUnf, h4, htr3⟩
      · have h5 : unformatFlowDetail u c2 = Except.error (Err.envError c) :=
          congrArg Prod.fst hUnf
        cases c2 with
        | flowC m2 => exact Except.noConfusion h5
        | raw s =>
          have h6 : Except.error (α := FlowDetail) (Err.valueError "invalid flow detail")
              = Except.error (Err.envError c) := h5
          injection h6 with h7
          exact Err.noConfusion h7
        | taskC d =>
          have h6 : Except.error (α := FlowDetail) (Err.valueError "invalid flow detail")
              = Except.error (Err.envError c) := h5
          injection h6 with h7
          exact Err.noConfusion h7
        | bookC bm =>
          have h6 : Except.error (α := FlowDetail) (Err.valueError "invalid flow detail")
              = Except.error (Err.envError c) := h5
          injection h6 with h7
          exact Err.noConfusion h7
      · have hU0 : trU = [] := (congrArg (fun z => z.2.2) hUnf).symm.trans
          (silent_mLift (unformatFlowDetail u c2) stC)
        rcases bind_error_inv h4 with hList | ⟨names, stL, trLi, trF, hList, hFold, htr4⟩
        · have hL0 : trK3 = [] := (congrArg (fun z => z.2.2) hList).symm.trans
            (silent_listLinks_guard (flowPath ++ [u, "tasks"]) stU)
          rw [htr1, htr2, htr3, hR0, hD0, hU0, hL0]
          rfl
        · have h7 := errOK_foldlM (fun fd tUuid => do
              let td ← _get_task_details tUuid true
              pure (fd.add td)) names
            (fun b a => errOK_bind (errOK_lock_notEnv "task" (_get_task_details._get a))
              (fun td => errOK_pure _)) fd0 stL (.envError c) (by rw [hFold])
          exact Bool.noConfusion h7

/-- A book load that fails with `NotFound` failed at the metadata read (the
only place `_get_logbook` raises `NotFound`), before any child load: its
whole trace is empty.  (Flow loads run under the flow lock and can only
surface TaskFlow or wrapped storage errors, never `NotFound`, since neither
the flow nor the task getter raises it.) -/
theorem get_logbook_notfound_error_trace (u : String) (st : St) (m : String)
    (st1 : St) (tr1 : List Event)
    (h : _get_logbook u st = (.error (.notFound m), st1, tr1)) : tr1 = [] := by
  unfold _get_logbook at h
  rcases bind_error_inv h with hC | ⟨c, stA, trA, trK1, hC, h2, htr1⟩
  · exact (congrArg (fun z => z.2.2) hC).symm.trans (silent_book_read_guard u st)
  · have hA0 : trA = [] := (congrArg (fun z => z.2.2) hC).symm.trans
      (silent_book_read_guard u st)
    rcases bind_error_inv h2 with hUnf | ⟨lb0, stU, trU, trK2, hUnf, h3, htr2⟩
    · have h5 : unformatLogbook u c = Except.error (Err.notFound m) :=
        congrArg Prod.fst hUnf
      cases c with
      | bookC bm => exact Except.noConfusion h5
      | raw s =>
        have h6 : Except.error (α := LogBook) (Err.valueError "invalid logbook")
            = Except.error (Err.notFound m) := h5
        injection h6 with h7
        exact Err.noConfusion h7
      | taskC d =>
        have h6 : Except.error (α := LogBook) (Err.valueError "invalid logbook")
            = Except.error (Err.notFound m) := h5
        injection h6 with h7
        exact Err.noConfusion h7
      | flowC m2 =>
        have h6 : Except.error (α := LogBook) (Err.valueError "invalid logbook")
            = Except.error (Err.notFound m) := h5
        injection h6 with h7
        exact Err.noConfusion h7
    · rcases bind_error_inv h3 with hList | ⟨names, stL, trLi, trF, hList, hFold, htr3⟩
      · have h9 := errOK_listLinks_guard (bookPath ++ [u, "flows"]) stU (.notFound m)
          (by rw [hList])
        exact Bool.noConfusion h9
      · have h7 := errOK_foldlM (fun lb fdUuid => do
            let fd ← _get_flow_details fdUuid true
            pure (lb.add fd)) names
          (fun b a => errOK_bind (errOK_lock_notNF "flow" (errOK_flow_go a))
            (fun fd => errOK_pure _)) lb0 stL (.notFound m) (by rw [hFold])
        exact Bool.noConfusion h7

/-- The write-phase of `_save_flow_details`, generic in the merged flow
`mfd`: it returns `mfd`; with no merged tasks it is trace-silent and leaves
the child-index directory entry untouched; with merged tasks it acquires
the task lock and leaves the child-index directory in place. -/
theorem save_flow_tail_extract (mfd : FlowDetail) (stA : St) (fd2 : FlowDetail)
    (st2 : St) (trB : List Event)
    (hB : (M.bind (ensureTree (flowPath ++ [mfd.uuid]))
      (fun x1 => M.bind (_write_to (flowPath ++ [mfd.uuid, "metadata"]) (formatFlowDetail mfd))
      (fun x2 =>
        if mfd.tasks.length = 0 then M.bind (M.pure ()) (fun y => M.pure mfd)
        else M.bind (ensureTree (flowPath ++ [mfd.uuid, "tasks"]))
          (fun x3 => M.bind (_run_with_process_lock "task"
            (_save_tasks_and_link mfd.tasks (flowPath ++ [mfd.uuid, "tasks"])))
          (fun y => M.pure mfd))))) stA = (.ok fd2, st2, trB)) :
    fd2 = mfd ∧
    (mfd.tasks = [] → trB = [] ∧
      st2.fs.find (flowPath ++ [mfd.uuid, "tasks"]) =
        stA.fs.find (flowPath ++ [mfd.uuid, "tasks"])) ∧
    (mfd.tasks ≠ [] → Event.acq "task" ∈ trB ∧
      st2.fs.find (flowPath ++ [mfd.uuid, "tasks"]) = some .dir) := by
  obtain ⟨x1, stC, trC1, trC2, hEns, hB2, htrB⟩ := bind_ok_inv hB
  obtain ⟨x2, stD, trD1, trD2, hWr, hB3, htrC⟩ := bind_ok_inv hB2
  obtain ⟨fsC, hgoC, hstC, htrEns⟩ := ensureTree_ok_inv hEns
  have htrWr : trD1 = [] := by
    have h1 := congrArg (fun z => z.2.2) hWr
    exact h1.symm.trans ((congrArg (fun z => z.2.2) (write_to_eq _ _ stC)))
  by_cases hlen : mfd.tasks.length = 0
  · rw [if_pos hlen] at hB3
    have hthen : (M.bind (M.pure ()) (fun y => M.pure mfd)) stD
        = (.ok mfd, stD, ([] : List Event)) := rfl
    have h6 := hthen.symm.trans hB3
    have hfd2 : Except.ok (ε := Err) mfd = Except.ok fd2 := congrArg Prod.fst h6
    injection hfd2 with hfd2e
    have hstD : stD = st2 := congrArg (fun z => z.2.1) h6
    have htrD : ([] : List Event) = trD2 := congrArg (fun z => z.2.2) h6
    refine ⟨hfd2e.symm, ?_, ?_⟩
    · intro _
      constructor
      · rw [htrB, htrC, htrEns, htrWr, ← htrD]
        rfl
      · have hq1 : stC.fs.find (flowPath ++ [mfd.uuid, "tasks"]) =
            stA.fs.find (flowPath ++ [mfd.uuid, "tasks"]) := by
          rw [hstC]
          show fsC.find (flowPath ++ [mfd.uuid, "tasks"]) =
            stA.fs.find (flowPath ++ [mfd.uuid, "tasks"])
          refine ensureTreeGo_ok_find _ _ _ _ _ hgoC (Or.inl ?_)
          show isUnder (flowPath ++ [mfd.uuid, "tasks"])
            ([] ++ (flowPath ++ [mfd.uuid])) = false
          rw [List.nil_append]
          exact isUnder_child_false "flows" mfd.uuid "tasks"
        have hq2 : stD.fs.find (flowPath ++ [mfd.uuid, "tasks"]) =
            stC.fs.find (flowPath ++ [mfd.uuid, "tasks"]) := by
          have h7 := preservesAt_write (q := flowPath ++ [mfd.uuid, "tasks"])
            (formatFlowDetail mfd)
            (append_last_ne flowPath mfd.uuid "tasks" "metadata" (by decide)) stC
          rw [hWr] at h7
          exact h7
        rw [← hstD, hq2, hq1]
    · intro hne
      exact absurd (List.eq_nil_of_length_eq_zero hlen) hne
  · rw [if_neg hlen] at hB3
    obtain ⟨x3, stE, trE1, trE2, hEns2, hB4, htrD⟩ := bind_ok_inv hB3
    obtain ⟨y, stF, trF1, trF2, hLock, hJp, htrE⟩ := bind_ok_inv hB4
    obtain ⟨trL, hSTL, htrLk⟩ := lock_ok_inv hLock
    cases y
    have hfd2 : Except.ok (ε := Err) mfd = Except.ok fd2 := congrArg Prod.fst hJp
    injection hfd2 with hfd2e
    have hstF : stF = st2 := congrArg (fun z => z.2.1) hJp
    obtain ⟨fsE, hgoE, hstE, htrEns2⟩ := ensureTree_ok_inv hEns2
    have hdirE : stE.fs.find (flowPath ++ [mfd.uuid, "tasks"]) = some .dir := by
      rw [hstE]
      show fsE.find (flowPath ++ [mfd.uuid, "tasks"]) = some Node.dir
      have h8 := ensureTreeGo_dir _ _ _ _ hgoE (by
        intro hh
        have h9 := congrArg List.length hh
        simp [flowPath] at h9)
      rw [List.nil_append] at h8
      exact h8
    have hpres : stF.fs.find (flowPath ++ [mfd.uuid, "tasks"]) =
        stE.fs.find (flowPath ++ [mfd.uuid, "tasks"]) := by
      have h7 := preservesAt_save_tasks_and_link (flowPath ++ [mfd.uuid, "tasks"])
        mfd.tasks (flowPath ++ [mfd.uuid, "tasks"])
        (flowsub_ne_taskPath mfd.uuid "tasks")
        (fun t => ne_append_singleton _ t) stE
      rw [hSTL] at h7
      exact h7
    refine ⟨hfd2e.symm, ?_, ?_⟩
    · intro hnil
      exact absurd (by rw [hnil]; rfl) hlen
    · intro _
      constructor
      · rw [htrB, htrC, htrD, htrE, htrLk]
        simp
      · rw [← hstF, hpres, hdirE]

/-- The write-phase of `_save_logbook`, generic in the merged book `mbk` and
the serialized `created_at` override: it returns `mbk`; with no merged
flows it is trace-silent and leaves the child-index directory entry
untouched; with merged flows it acquires the flow lock and leaves the
child-index directory in place. -/
theorem save_book_tail_extract (mbk : LogBook) (ca : Option Nat) (stA : St)
    (bk2 : LogBook) (st2 : St) (trB : List Event)
    (hB : (M.bind (ensureTree (bookPath ++ [mbk.uuid]))
      (fun x1 => M.bind (_write_to (bookPath ++ [mbk.uuid, "metadata"]) (formatLogbook mbk ca))
      (fun x2 =>
        if mbk.flows.length = 0 then M.bind (M.pure ()) (fun y => M.pure mbk)
        else M.bind (ensureTree (bookPath ++ [mbk.uuid, "flows"]))
          (fun x3 => M.bind (_run_with_process_lock "flow"
            (_save_flows_and_link mbk.flows (bookPath ++ [mbk.uuid, "flows"])))
          (fun y => M.pure mbk))))) stA = (.ok bk2, st2, trB)) :
    bk2 = mbk ∧
    (mbk.flows = [] → trB = [] ∧
      st2.fs.find (bookPath ++ [mbk.uuid, "flows"]) =
        stA.fs.find (bookPath ++ [mbk.uuid, "flows"])) ∧
    (mbk.flows ≠ [] → Event.acq "flow" ∈ trB ∧
      st2.fs.find (bookPath ++ [mbk.uuid, "flows"]) = some .dir) := by
  obtain ⟨x1, stC, trC1, trC2, hEns, hB2, htrB⟩ := bind_ok_inv hB
  obtain ⟨x2, stD, trD1, trD2, hWr, hB3, htrC⟩ := bind_ok_inv hB2
  obtain ⟨fsC, hgoC, hstC, htrEns⟩ := ensureTree_ok_inv hEns
  have htrWr : trD1 = [] := by
    have h1 := congrArg (fun z => z.2.2) hWr
    exact h1.symm.trans ((congrArg (fun z => z.2.2) (write_to_eq _ _ stC)))
  by_cases hlen : mbk.flows.length = 0
  · rw [if_pos hlen] at hB3
    have hthen : (M.bind (M.pure ()) (fun y => M.pure mbk)) stD
        = (.ok mbk, stD, ([] : List Event)) := rfl
    have h6 := hthen.symm.trans hB3
    have hbk2 : Except.ok (ε := Err) mbk = Except.ok bk2 := congrArg Prod.fst h6
    injection hbk2 with hbk2e
    have hstD : stD = st2 := congrArg (fun z => z.2.1) h6
    have htrD : ([] : List Event) = trD2 := congrArg (fun z => z.2.2) h6
    refine ⟨hbk2e.symm, ?_, ?_⟩
    · intro _
      constructor
      · rw [htrB, htrC, htrEns, htrWr, ← htrD]
        rfl
      · have hq1 : stC.fs.find (bookPath ++ [mbk.uuid, "flows"]) =
            stA.fs.find (bookPath ++ [mbk.uuid, "flows"]) := by
          rw [hstC]
          show fsC.find (bookPath ++ [mbk.uuid, "flows"]) =
            stA.fs.find (bookPath ++ [mbk.uuid, "flows"])
          refine ensureTreeGo_ok_find _ _ _ _ _ hgoC (Or.inl ?_)
          show isUnder (bookPath ++ [mbk.uuid, "flows"])
            ([] ++ (bookPath ++ [mbk.uuid])) = false
          rw [List.nil_append]
          exact isUnder_child_false "books" mbk.uuid "flows"
        have hq2 : stD.fs.find (bookPath ++ [mbk.uuid, "flows"]) =
            stC.fs.find (bookPath ++ [mbk.uuid, "flows"]) := by
          have h7 := preservesAt_write (q := bookPath ++ [mbk.uuid, "flows"])
            (formatLogbook mbk ca)
            (append_last_ne bookPath mbk.uuid "flows" "metadata" (by decide)) stC
          rw [hWr] at h7
          exact h7
        rw [← hstD, hq2, hq1]
    · intro hne
      exact absurd (List.eq_nil_of_length_eq_zero hlen) hne
  · rw [if_neg hlen] at hB3
    obtain ⟨x3, stE, trE1, trE2, hEns2, hB4, htrD⟩ := bind_ok_inv hB3
    obtain ⟨y, stF, trF1, trF2, hLock, hJp, htrE⟩ := bind_ok_inv hB4
    obtain ⟨trL, hSTL, htrLk⟩ := lock_ok_inv hLock
    cases y
    have hbk2 : Except.ok (ε := Err) mbk = Except.ok bk2 := congrArg Prod.fst hJp
    injection hbk2 with hbk2e
    have hstF : stF = st2 := congrArg (fun z => z.2.1) hJp
    obtain ⟨fsE, hgoE, hstE, htrEns2⟩ := ensureTree_ok_inv hEns2
    have hdirE : stE.fs.find (bookPath ++ [mbk.uuid, "flows"]) = some .dir := by
      rw [hstE]
      show fsE.find (bookPath ++ [mbk.uuid, "flows"]) = some Node.dir
      have h8 := ensureTreeGo_dir _ _ _ _ hgoE (by
        intro hh
        have h9 := congrArg List.length hh
        simp [bookPath] at h9)
      rw [List.nil_append] at h8
      exact h8
    have hpres : stF.fs.find (bookPath ++ [mbk.uuid, "flows"]) =
        stE.fs.find (bookPath ++ [mbk.uuid, "flows"]) := by
      have h7 := preservesAt_save_flows_and_link (bookPath ++ [mbk.uuid, "flows"])
        mbk.flows (bookPath ++ [mbk.uuid, "flows"]) rfl
        (fun f => ne_append_singleton _ f) stE
      rw [hSTL] at h7
      exact h7
    refine ⟨hbk2e.symm, ?_, ?_⟩
    · intro hnil
      exact absurd (by rw [hnil]; rfl) hlen
    · intro _
      constructor
      · rw [htrB, htrC, htrD, htrE, htrLk]
        simp
      · rw [← hstF, hpres, hdirE]

/-- **C9** counterexample to the claim as literally stated: the incoming
flow `F1` carries an empty task collection, yet saving it over the stored
version (which holds tasks T1 and T2) succeeds, keeps the stored tasks,
and acquires the task lock repeatedly - because the code's emptiness test
runs on the merged entity written to disk, not on the incoming payload. -/
theorem empty_payload_inner_lock_counterexample :
    (_save_flow_details ⟨"F1", "fm3", []⟩ false stBook).1 =
      .ok ⟨"F1", "fm3", [⟨"T1", "d1"⟩, ⟨"T2", "d2"⟩]⟩ ∧
    (_save_flow_details ⟨"F1", "fm3", []⟩ false stBook).2.2 =
      [.acq "task", .rel "task", .acq "task", .rel "task", .acq "task", .rel "task"] :=
  ⟨rfl, rfl⟩

/-- **C9** (amended): whether a save writes more than the metadata file is
decided by the merged entity written to disk.  For every successful
`_save_flow_details` run - stored version present or not - if the saved
flow's task collection is empty, the run's whole trace is empty (so no
lock, in particular not the task lock, is acquired) and the `tasks`
child-index directory entry is exactly what it was before the save; if the
saved flow has tasks, the task lock is acquired and the `tasks` directory
exists afterwards.  The same holds for `_save_logbook` with the flow lock
and the `flows` directory. -/
theorem empty_children_frame :
    (∀ (fd : FlowDetail) (im : Bool) (st : St) (fd2 : FlowDetail) (st2 : St)
      (tr2 : List Event),
      _save_flow_details fd im st = (.ok fd2, st2, tr2) →
      (fd2.tasks = [] → tr2 = [] ∧
        st2.fs.find (flowPath ++ [fd2.uuid, "tasks"]) =
          st.fs.find (flowPath ++ [fd2.uuid, "tasks"])) ∧
      (fd2.tasks ≠ [] → Event.acq "task" ∈ tr2 ∧
        st2.fs.find (flowPath ++ [fd2.uuid, "tasks"]) = some .dir)) ∧
    (∀ (bk : LogBook) (st : St) (bk2 : LogBook) (st2 : St) (tr2 : List Event),
      _save_logbook bk st = (.ok bk2, st2, tr2) →
      (bk2.flows = [] → tr2 = [] ∧
        st2.fs.find (bookPath ++ [bk2.uuid, "flows"]) =
          st.fs.find (bookPath ++ [bk2.uuid, "flows"])) ∧
      (bk2.flows ≠ [] → Event.acq "flow" ∈ tr2 ∧
        st2.fs.find (bookPath ++ [bk2.uuid, "flows"]) = some .dir)) := by
  constructor
  · intro fd im st fd2 st2 tr2 hs
    have hs2 := hs
    unfold _save_flow_details at hs2
    obtain ⟨eOpt, stA, trA, trB, hA, hB, htr⟩ := bind_ok_inv hs2
    rcases tryCatch_ok_inv hA with hcase | ⟨e, stE0, trE0, trE1, herr, hhand, htrA⟩
    · -- the stored version loaded: reuse the full extraction of the save
      obtain ⟨efd, st1g, tr1g, trP, hget, hpure, htrA2⟩ := bind_ok_inv hcase
      obtain ⟨ha, _, hempty, hnonempty⟩ :=
        save_flow_details_ok_extract fd im st efd st1g tr1g fd2 st2 tr2 hget hs
      refine ⟨?_, hnonempty⟩
      intro hnil
      obtain ⟨htr2, hfind⟩ := hempty hnil
      have hefd : efd.tasks = [] := by
        cases hefd0 : efd.tasks with
        | nil => rfl
        | cons a l =>
          have hmem : a ∈ fd2.tasks := by
            rw [ha]
            refine mergeFold_keeps fd.tasks (flow_details_merge efd fd) a ?_
            show a ∈ efd.tasks
            rw [hefd0]
            exact List.mem_cons_self a l
          rw [hnil] at hmem
          exact absurd hmem (List.not_mem_nil a)
      have hg2 : _get_flow_details._get fd.uuid st = (.ok efd, st1g, tr1g) := hget
      have htr1 : tr1g = [] :=
        get_flow_details_go_empty_trace fd.uuid st efd st1g tr1g hg2 hefd
      constructor
      · rw [htr2, htr1]
      · rw [hfind]
        have hfs1 : st1g.fs = st.fs := by
          have h9 := fsConst_get_flow_details fd.uuid false st
          rw [hget] at h9
          exact h9
        rw [hfs1]
    · -- the stored version was absent: the guarded load failed
      rcases bind_error_inv herr with hgerr | ⟨f0, stx, trx, trx2, hok0, hperr, _⟩
      · cases e with
        | envError c =>
          cases im with
          | false =>
            have hh2 : M.throw (α := Option FlowDetail)
                (.notFound ("No flow details found with id: " ++ fd.uuid)) stE0
                = (.ok eOpt, stA, trE1) := hhand
            exact absurd (congrArg Prod.fst hh2) (fun hh => Except.noConfusion hh)
          | true =>
            have hh2 : M.pure (none : Option FlowDetail) stE0
                = (.ok eOpt, stA, trE1) := hhand
            have heOpt : Except.ok (ε := Err) (none : Option FlowDetail) = .ok eOpt :=
              congrArg Prod.fst hh2
            injection heOpt with heOpt2
            have hstA : stE0 = stA := congrArg (fun z => z.2.1) hh2
            have htrE1 : ([] : List Event) = trE1 := congrArg (fun z => z.2.2) hh2
            rw [← heOpt2] at hB
            rw [← hstA] at hB
            have hB2 : (M.bind (ensureTree (flowPath ++ [fd.uuid]))
              (fun x1 => M.bind (_write_to (flowPath ++ [fd.uuid, "metadata"])
                (formatFlowDetail fd))
              (fun x2 =>
                if fd.tasks.length = 0 then M.bind (M.pure ()) (fun y => M.pure fd)
                else M.bind (ensureTree (flowPath ++ [fd.uuid, "tasks"]))
                  (fun x3 => M.bind (_run_with_process_lock "task"
                    (_save_tasks_and_link fd.tasks (flowPath ++ [fd.uuid, "tasks"])))
                  (fun y => M.pure fd))))) stE0 = (.ok fd2, st2, trB) := hB
            obtain ⟨hfd2, hempty, hnonempty⟩ :=
              save_flow_tail_extract fd stE0 fd2 st2 trB hB2
            subst hfd2
            refine ⟨?_, ?_⟩
            · intro hnil
              obtain ⟨htrB0, hfind⟩ := hempty hnil
              constructor
              · have htr0 : trE0 = [] :=
                  get_flow_details_go_env_error_trace fd2.uuid st c stE0 trE0 hgerr
                rw [htr, htrA, htr0, ← htrE1, htrB0]
                rfl
              · rw [hfind]
                have hfs1 : stE0.fs = st.fs := by
                  have h9 := fsConst_get_flow_details fd2.uuid false st
                  rw [hgerr] at h9
                  exact h9
                rw [hfs1]
            · intro hne
              obtain ⟨hacq, hdir⟩ := hnonempty hne
              refine ⟨?_, hdir⟩
              rw [htr]
              exact List.mem_append_right _ hacq
        | notFound m2 =>
          have hh2 : M.throw (α := Option FlowDetail) (.notFound m2) stE0
              = (.ok eOpt, stA, trE1) := hhand
          exact absurd (congrArg Prod.fst hh2) (fun hh => Except.noConfusion hh)
        | storageError m2 c2 =>
          have hh2 : M.throw (α := Option FlowDetail) (.storageError m2 c2) stE0
              = (.ok eOpt, stA, trE1) := hhand
          exact absurd (congrArg Prod.fst hh2) (fun hh => Except.noConfusion hh)
        | valueError m2 =>
          have hh2 : M.throw (α := Option FlowDetail) (.valueError m2) stE0
              = (.ok eOpt, stA, trE1) := hhand
          exact absurd (congrArg Prod.fst hh2) (fun hh => Except.noConfusion hh)
      · exact absurd (congrArg Prod.fst hperr) (fun hh => Except.noConfusion hh)
  · intro bk st bk2 st2 tr2 hs
    have hs2 := hs
    unfold _save_logbook at hs2
    obtain ⟨eOpt, stA, trA, trB, hA, hB, htr⟩ := bind_ok_inv hs2
    rcases tryCatch_ok_inv hA with hcase | ⟨e, stE0, trE0, trE1, herr, hhand, htrA⟩
    · obtain ⟨elb, st1g, tr1g, trP, hget, hpure, htrA2⟩ := bind_ok_inv hcase
      obtain ⟨ha, _, _, hempty, hnonempty⟩ :=
        save_logbook_inner_ok_extract bk st elb st1g tr1g bk2 st2 tr2 hget hs
      refine ⟨?_, hnonempty⟩
      intro hnil
      obtain ⟨htr2, hfind⟩ := hempty hnil
      have helb : elb.flows = [] := by
        cases helb0 : elb.flows with
        | nil => rfl
        | cons a l =>
          have hmem : a ∈ bk2.flows := by
            rw [ha]
            refine bookFold_keeps bk.flows (logbook_merge elb bk) a ?_
            show a ∈ elb.flows
            rw [helb0]
            exact List.mem_cons_self a l
          rw [hnil] at hmem
          exact absurd hmem (List.not_mem_nil a)
      have htr1 : tr1g = [] :=
        get_logbook_empty_trace bk.uuid st elb st1g tr1g hget helb
      constructor
      · rw [htr2, htr1]
      · rw [hfind]
        have hfs1 : st1g.fs = st.fs := by
          have h9 := fsConst_get_logbook bk.uuid st
          rw [hget] at h9
          exact h9
        rw [hfs1]
    · rcases bind_error_inv herr with hgerr | ⟨b0, stx, trx, trx2, hok0, hperr, _⟩
      · cases e with
        | notFound m2 =>
          have hh2 : M.pure (none : Option LogBook) stE0
              = (.ok eOpt, stA, trE1) := hhand
          have heOpt : Except.ok (ε := Err) (none : Option LogBook) = .ok eOpt :=
            congrArg Prod.fst hh2
          injection heOpt with heOpt2
          have hstA : stE0 = stA := congrArg (fun z => z.2.1) hh2
          have htrE1 : ([] : List Event) = trE1 := congrArg (fun z => z.2.2) hh2
          rw [← heOpt2] at hB
          rw [← hstA] at hB
          have hB2 : (M.bind (ensureTree (bookPath ++ [bk.uuid]))
            (fun x1 => M.bind (_write_to (bookPath ++ [bk.uuid, "metadata"])
              (formatLogbook bk none))
            (fun x2 =>
              if bk.flows.length = 0 then M.bind (M.pure ()) (fun y => M.pure bk)
              else M.bind (ensureTree (bookPath ++ [bk.uuid, "flows"]))
                (fun x3 => M.bind (_run_with_process_lock "flow"
                  (_save_flows_and_link bk.flows (bookPath ++ [bk.uuid, "flows"])))
                (fun y => M.pure bk))))) stE0 = (.ok bk2, st2, trB) := hB
          obtain ⟨hbk2, hempty, hnonempty⟩ :=
            save_book_tail_extract bk none stE0 bk2 st2 trB hB2
          subst hbk2
          refine ⟨?_, ?_⟩
          · intro hnil
            obtain ⟨htrB0, hfind⟩ := hempty hnil
            constructor
            · have htr0 : trE0 = [] :=
                get_logbook_notfound_error_trace bk2.uuid st m2 stE0 trE0 hgerr
              rw [htr, htrA, htr0, ← htrE1, htrB0]
              rfl
            · rw [hfind]
              have hfs1 : stE0.fs = st.fs := by
                have h9 := fsConst_get_logbook bk2.uuid st
                rw [hgerr] at h9
                exact h9
              rw [hfs1]
          · intro hne
            obtain ⟨hacq, hdir⟩ := hnonempty hne
            refine ⟨?_, hdir⟩
            rw [htr]
            exact List.mem_append_right _ hacq
        | envError c =>
          have hh2 : M.throw (α := Option LogBook) (.envError c) stE0
              = (.ok eOpt, stA, trE1) := hhand
          exact absurd (congrArg Prod.fst hh2) (fun hh => Except.noConfusion hh)
        | storageError m2 c2 =>
          have hh2 : M.throw (α := Option LogBook) (.storageError m2 c2) stE0
              = (.ok eOpt, stA, trE1) := hhand
          exact absurd (congrArg Prod.fst hh2) (fun hh => Except.noConfusion hh)
        | valueError m2 =>
          have hh2 : M.throw (α := Option LogBook) (.valueError m2) stE0
              = (.ok eOpt, stA, trE1) := hhand
          exact absurd (congrArg Prod.fst hh2) (fun hh => Except.noConfusion hh)
      · exact absurd (congrArg Prod.fst hperr) (fun hh => Except.noConfusion hh)

theorem empty_children_frame_w :
    ((_save_flow_details ⟨"F9", "fmN", []⟩ true st0).2.2 = [] ∧
      ((_save_flow_details ⟨"F9", "fmN", []⟩ true st0).2.1).fs.find
        (flowPath ++ ["F9", "tasks"]) = st0.fs.find (flowPath ++ ["F9", "tasks"])) ∧
    (Event.acq "flow" ∈ (_save_logbook ⟨"B1", "bm9", 1, []⟩ stBook).2.2 ∧
      ((_save_logbook ⟨"B1", "bm9", 1, []⟩ stBook).2.1).fs.find
        (bookPath ++ ["B1", "flows"]) = some .dir) :=
  ⟨(empty_children_frame.1 ⟨"F9", "fmN", []⟩ true st0
      ⟨"F9", "fmN", []⟩
      ((_save_flow_details ⟨"F9", "fmN", []⟩ true st0).2.1)
      ((_save_flow_details ⟨"F9", "fmN", []⟩ true st0).2.2)
      rfl).1 rfl,
    (empty_children_frame.2 ⟨"B1", "bm9", 1, []⟩ stBook
      ⟨"B1", "bm9", 1, [⟨"F1", "fm", [⟨"T1", "d1"⟩, ⟨"T2", "d2"⟩]⟩]⟩
      ((_save_logbook ⟨"B1", "bm9", 1, []⟩ stBook).2.1)
      ((_save_logbook ⟨"B1", "bm9", 1, []⟩ stBook).2.2)
      rfl).2 (by simp)⟩

end DirBackend
